import Mathlib

/-!
Verification of the gh-md document codec and push engine.

This file gives a shallow embedding of the core of the `gh-md` repository:
the markdown parser (`internal/parser/parser.go`), the markdown writer
(`internal/writer/writer.go`) and the push change-plan logic
(`cmd/root.go`), together with theorems settling the frozen claims about
them.

Go strings are modelled as `List Char`; the functions of Go's `strings`
package used by the source (`Index`, `HasPrefix`, `TrimSpace`,
`TrimPrefix`, `Split`, `Join`, `ToUpper`) are modelled below with the
same semantics on ASCII text.  Go's `time.Time` is modelled by its two
formatted renderings actually used by the writer (RFC3339 and the
`2006-01-02` day form), as opaque strings; for the conflict check of
`runPush`, which only compares times with `After`, time is modelled as an
integer.
-/

/-- Go strings, as lists of characters. -/
abbrev Str := List Char

/-- Shorthand to write string literals as `Str`. -/
def lit (s : String) : Str := s.toList

namespace GoStrings

/-- Whitespace recognised by Go's `unicode.IsSpace` on ASCII text
(space, tab, newline, vertical tab, form feed, carriage return). -/
def isSpaceChar (c : Char) : Bool :=
  c = ' ' || c = '\t' || c = '\n' || c = Char.ofNat 11 || c = Char.ofNat 12 || c = '\r'

/-- Model of Go `strings.TrimSpace` (left part). -/
def trimLeftStr (s : Str) : Str := s.dropWhile isSpaceChar

/-- Model of Go `strings.TrimSpace` (right part). -/
def trimRightStr (s : Str) : Str := s.rdropWhile isSpaceChar

/-- Model of Go `strings.TrimSpace`. -/
def trimSpace (s : Str) : Str := trimRightStr (trimLeftStr s)

/-- Model of Go `strings.TrimPrefix`. -/
def trimPrefixStr (s pat : Str) : Str :=
  if pat.isPrefixOf s then s.drop pat.length else s

/-- Model of Go `strings.Index`: index of the first occurrence of `pat`
in `s`, or `none` when `pat` does not occur (Go returns `-1`). -/
def strIndex (s pat : Str) : Option Nat :=
  if pat.isPrefixOf s then some 0
  else
    match s with
    | [] => none
    | _ :: t => (strIndex t pat).map (· + 1)

/-- Model of Go `strings.Split(s, "\n")`. -/
def splitNl (s : Str) : List Str := s.splitOn '\n'

/-- Model of Go `strings.Join(ls, "\n")`. -/
def joinNl (ls : List Str) : Str := List.intercalate ['\n'] ls

/-- Model of Go `strings.ToUpper` on ASCII text. -/
def toUpperStr (s : Str) : Str := s.map Char.toUpper

/-- Number of positions of `s` at which `pat` occurs. -/
def countOccur (s pat : Str) : Nat :=
  match s with
  | [] => if pat.isPrefixOf ([] : Str) then 1 else 0
  | _ :: t => (if pat.isPrefixOf s then 1 else 0) + countOccur t pat

/-- Model of Go `strings.Contains`. -/
def containsStr (s pat : Str) : Bool := (strIndex s pat).isSome

/-! ### Occurrence bookkeeping for the parser proofs -/

/-- No occurrence of `pat` starts inside the first `a.length` characters
of `a ++ b`. -/
def cleanBefore (pat a b : Str) : Prop :=
  ∀ i, i < a.length → ¬ pat.isPrefixOf ((a ++ b).drop i)

/-- No occurrence of `pat` starts anywhere in `s`. -/
def cleanAll (pat s : Str) : Prop :=
  ∀ i, ¬ pat.isPrefixOf (s.drop i)

theorem cleanBefore_nil (pat b : Str) : cleanBefore pat [] b := by
  intro i hi; simp at hi

theorem drop_append_of_lt {a b : Str} {i : Nat} (hi : i ≤ a.length) :
    (a ++ b).drop i = a.drop i ++ b := by
  rw [List.drop_append_eq_append_drop]
  have : i - a.length = 0 := by omega
  simp [this]

theorem cleanBefore_append {pat a b c : Str}
    (h1 : cleanBefore pat a (b ++ c)) (h2 : cleanBefore pat b c) :
    cleanBefore pat (a ++ b) c := by
  intro i hi
  rw [List.append_assoc]
  rcases Nat.lt_or_ge i a.length with hlt | hge
  · exact h1 i hlt
  · have hdrop : (a ++ (b ++ c)).drop i = (b ++ c).drop (i - a.length) := by
      rw [List.drop_append_eq_append_drop]
      have : a.drop i = [] := List.drop_eq_nil_of_le hge
      simp [this]
    rw [hdrop]
    have : i - a.length < b.length := by
      simp [List.length_append] at hi; omega
    exact h2 _ this

/-- A pattern starting with a character absent from `a` cannot start an
occurrence inside `a`. -/
theorem cleanBefore_of_headNotMem {pat a b : Str} {c : Char} {p : Str}
    (hpat : pat = c :: p) (ha : c ∉ a) : cleanBefore pat a b := by
  intro i hi hpre
  rw [drop_append_of_lt (Nat.le_of_lt hi), hpat] at hpre
  cases hda : a.drop i with
  | nil =>
      have hlen := congrArg List.length hda
      simp [List.length_drop] at hlen
      omega
  | cons x xs =>
      rw [hda] at hpre
      have hpre2 : c :: p <+: x :: (xs ++ b) := by simpa using hpre
      obtain ⟨hcx, -⟩ := List.cons_prefix_cons.mp hpre2
      apply ha
      have hx : x ∈ a.drop i := by rw [hda]; exact List.mem_cons_self x xs
      exact hcx ▸ List.drop_subset i a hx

theorem cleanAll_of_headNotMem {pat s : Str} {c : Char} {p : Str}
    (hpat : pat = c :: p) (ha : c ∉ s) : cleanAll pat s := by
  intro i hpre
  rcases Nat.lt_or_ge i s.length with hlt | hge
  · have h := cleanBefore_of_headNotMem (b := []) hpat ha
    have := h i hlt
    rw [List.append_nil] at this
    exact this hpre
  · rw [List.drop_eq_nil_of_le hge, hpat] at hpre
    simp [List.isPrefixOf] at hpre

theorem cleanAll_append {pat a b : Str}
    (h1 : cleanBefore pat a b) (h2 : cleanAll pat b) : cleanAll pat (a ++ b) := by
  intro i
  rcases Nat.lt_or_ge i a.length with hlt | hge
  · exact h1 i hlt
  · have hdrop : (a ++ b).drop i = b.drop (i - a.length) := by
      rw [List.drop_append_eq_append_drop]
      have : a.drop i = [] := List.drop_eq_nil_of_le hge
      simp [this]
    rw [hdrop]
    exact h2 _

/-- Decidable check: every position of `a` exhibits a mismatch with `pat`
strictly inside `a`. -/
def litClean (pat a : Str) : Bool :=
  (List.range a.length).all fun i =>
    (List.range (min pat.length (a.length - i))).any fun j =>
      pat.getD j ' ' != a.getD (i + j) ' '

theorem cleanBefore_of_litClean {pat a : Str} (h : litClean pat a = true) (b : Str) :
    cleanBefore pat a b := by
  intro i hi hpre
  have hall := (List.all_eq_true.mp h) i (List.mem_range.mpr hi)
  obtain ⟨j, hjmem, hne⟩ := List.any_eq_true.mp hall
  have hj := List.mem_range.mp hjmem
  have hj1 : j < pat.length := lt_of_lt_of_le hj (min_le_left _ _)
  have hj2 : i + j < a.length := by
    have := lt_of_lt_of_le hj (min_le_right _ _); omega
  obtain ⟨t, ht⟩ := List.isPrefixOf_iff_prefix.mp hpre
  have hgd : pat.getD j ' ' = a.getD (i + j) ' ' := by
    have e1 : (pat ++ t).getD j ' ' = pat.getD j ' ' := by
      simp [List.getD_eq_getElem?_getD, List.getElem?_append_left hj1]
    have e2 : ((a ++ b).drop i).getD j ' ' = (a ++ b).getD (i + j) ' ' := by
      simp [List.getD_eq_getElem?_getD, List.getElem?_drop]
    have e3 : (a ++ b).getD (i + j) ' ' = a.getD (i + j) ' ' := by
      simp [List.getD_eq_getElem?_getD, List.getElem?_append_left hj2]
    rw [← e1, ht, e2, e3]
  rw [List.getD_eq_getElem?_getD, List.getD_eq_getElem?_getD] at hgd
  simp [hgd] at hne

theorem cleanAll_of_litClean {pat a : Str} (h : litClean pat a = true)
    (hpat : pat ≠ []) : cleanAll pat a := by
  intro i hpre
  rcases Nat.lt_or_ge i a.length with hlt | hge
  · have hcb := cleanBefore_of_litClean h ([] : Str)
    have := hcb i hlt
    rw [List.append_nil] at this
    exact this hpre
  · rw [List.drop_eq_nil_of_le hge] at hpre
    cases pat with
    | nil => exact hpat rfl
    | cons c p => simp [List.isPrefixOf] at hpre

/-! ### strIndex lemmas -/

theorem strIndex_of_isPrefixOf {s pat : Str} (h : pat.isPrefixOf s) :
    strIndex s pat = some 0 := by
  unfold strIndex; simp [h]

theorem strIndex_cons_neg {pat s : Str} {c : Char} (h : ¬ pat.isPrefixOf (c :: s)) :
    strIndex (c :: s) pat = (strIndex s pat).map (· + 1) := by
  conv_lhs => rw [strIndex]
  simp [h]

theorem strIndex_nil_neg {pat : Str} (h : ¬ pat.isPrefixOf ([] : Str)) :
    strIndex [] pat = none := by
  unfold strIndex; simp [h]

theorem strIndex_eq_none {pat s : Str} (h : cleanAll pat s) :
    strIndex s pat = none := by
  induction s with
  | nil =>
      exact strIndex_nil_neg (by simpa using h 0)
  | cons c t ih =>
      have h0 : ¬ pat.isPrefixOf (c :: t) := by simpa using h 0
      have ht : cleanAll pat t := fun i => by simpa using h (i + 1)
      rw [strIndex_cons_neg h0, ih ht]
      rfl

theorem strIndex_append_clean {pat a b : Str} (h : cleanBefore pat a b) :
    strIndex (a ++ b) pat = (strIndex b pat).map (· + a.length) := by
  induction a with
  | nil =>
      simp only [List.nil_append, List.length_nil]
      cases strIndex b pat <;> simp
  | cons c a' ih =>
      have h0 : ¬ pat.isPrefixOf (c :: (a' ++ b)) := by
        have := h 0 (by simp)
        simpa using this
      have hcb : cleanBefore pat a' b := by
        intro i hi
        have := h (i + 1) (by simp; omega)
        simpa using this
      show strIndex (c :: (a' ++ b)) pat = _
      rw [strIndex_cons_neg h0, ih hcb]
      cases strIndex b pat <;> simp [Nat.add_assoc, Nat.add_comm 1 a'.length]

theorem strIndex_some_isPrefixOf {pat s : Str} {i : Nat}
    (h : strIndex s pat = some i) : pat.isPrefixOf (s.drop i) := by
  induction s generalizing i with
  | nil =>
      by_cases hp : pat.isPrefixOf ([] : Str)
      · rw [strIndex_of_isPrefixOf hp] at h
        simp at h
        subst h
        simpa using hp
      · rw [strIndex_nil_neg hp] at h
        simp at h
  | cons c t ih =>
      by_cases hp : pat.isPrefixOf (c :: t)
      · rw [strIndex_of_isPrefixOf hp] at h
        simp at h
        subst h
        simpa using hp
      · rw [strIndex_cons_neg hp] at h
        cases hidx : strIndex t pat with
        | none => rw [hidx] at h; simp at h
        | some j =>
            rw [hidx] at h
            simp at h
            subst h
            simpa using ih hidx

theorem strIndex_some_le {pat s : Str} {i : Nat}
    (h : strIndex s pat = some i) : i ≤ s.length := by
  induction s generalizing i with
  | nil =>
      by_cases hp : pat.isPrefixOf ([] : Str)
      · rw [strIndex_of_isPrefixOf hp] at h
        simp at h
        omega
      · rw [strIndex_nil_neg hp] at h
        simp at h
  | cons c t ih =>
      by_cases hp : pat.isPrefixOf (c :: t)
      · rw [strIndex_of_isPrefixOf hp] at h
        simp at h
        omega
      · rw [strIndex_cons_neg hp] at h
        cases hidx : strIndex t pat with
        | none => rw [hidx] at h; simp at h
        | some j =>
            rw [hidx] at h
            simp at h
            subst h
            have := ih hidx
            simp
            omega

end GoStrings

/-! ## Parser embedding (`internal/parser/parser.go`) -/

namespace parser

open GoStrings

/-- Mirrors `ParsedComment`: a parsed comment from the markdown file.
An empty `ID` means a new comment. -/
structure ParsedComment where
  ID : Str
  Author : Str
  Body : Str
  ParentID : Str
deriving DecidableEq

/-- Mirrors `commentWithDepth`: a parsed comment plus its indentation
depth and its recorded position. -/
structure commentWithDepth where
  comment : ParsedComment
  depth : Nat
  position : Nat
deriving DecidableEq

/-- Sentinel `contentStart` of parser.go. -/
def contentStart : Str := lit "<!-- gh-md:content -->"

/-- Sentinel `contentEnd` of parser.go. -/
def contentEnd : Str := lit "<!-- /gh-md:content -->"

/-- Sentinel `commentStart` of parser.go; the trailing newline
distinguishes it from the plural `<!-- gh-md:comments -->` wrapper. -/
def commentStart : Str := lit "<!-- gh-md:comment\n"

/-- Sentinel `commentEnd` of parser.go. -/
def commentEnd : Str := lit "<!-- /gh-md:comment -->"

/-- The search string used by `parseNewCommentMarkers` for the opening
tag (with or without attributes). -/
def newCommentOpen : Str := lit "<!-- gh-md:new-comment"

/-- Sentinel `newCommentEnd` of parser.go. -/
def newCommentEnd : Str := lit "<!-- /gh-md:new-comment -->"

/-- Part of `calculateIndentation`: the start of the line containing
`pos` (walk back until just after a newline). -/
def lineStartAt (content : Str) : Nat → Nat
  | 0 => 0
  | p + 1 => if content.getD p ' ' = '\n' then p + 1 else lineStartAt content p

/-- Part of `calculateIndentation`: count leading whitespace, a space
counting 1 and a tab counting 2 (other characters count 0). -/
def countIndent (chars : Str) : Nat :=
  chars.foldl (fun acc c => if c = ' ' then acc + 1 else if c = '\t' then acc + 2 else acc) 0

/-- Mirrors `calculateIndentation`: indentation depth of the line
containing `pos` (2 spaces-equivalent per level). -/
def calculateIndentation (content : Str) (pos : Nat) : Nat :=
  let ls := lineStartAt content pos
  countIndent ((content.drop ls).take (pos - ls)) / 2

/-- One iteration of the metadata loop of `parseCommentBlock`: match the
trimmed line against the `id:`, `author:` and `parent:` keys. -/
def parseMetaLine (acc : Str × Str × Str) (line : Str) : Str × Str × Str :=
  let l := trimSpace line
  if (lit "id:").isPrefixOf l then
    (trimSpace (trimPrefixStr l (lit "id:")), acc.2.1, acc.2.2)
  else if (lit "author:").isPrefixOf l then
    (acc.1, trimSpace (trimPrefixStr l (lit "author:")), acc.2.2)
  else if (lit "parent:").isPrefixOf l then
    (acc.1, acc.2.1, trimSpace (trimPrefixStr l (lit "parent:")))
  else acc

/-- Part of `extractCommentBody`: index of the first line after the
heading line (a line whose trimmed form starts with `###` or `####`),
or 0 when there is no heading line. -/
def headingSkip (lines : List Str) : Nat :=
  match lines.findIdx? (fun line =>
    let t := trimSpace line
    (lit "###").isPrefixOf t || (lit "####").isPrefixOf t) with
  | some i => i + 1
  | none => 0

/-- Mirrors `extractCommentBody`: strip the `### @author (date)` heading
line and trim the remainder. -/
def extractCommentBody (content : Str) : Str :=
  let content := trimSpace content
  let lines := splitNl content
  let startIdx := headingSkip lines
  if lines.length ≤ startIdx then []
  else trimSpace (joinNl (lines.drop startIdx))

/-- Mirrors `parseCommentBlock`: parse a single comment block (opening
tag with metadata, heading, body, closing tag).  Go would panic when the
first `-->` lies inside the opening sentinel; the embedding's
truncating subtraction returns an empty slice there instead. -/
def parseCommentBlock (block : Str) : Option ParsedComment :=
  match strIndex block (lit "-->") with
  | none => none
  | some metaEndIdx =>
    let metaSection := (block.drop commentStart.length).take (metaEndIdx - commentStart.length)
    let metaLines := splitNl (trimSpace metaSection)
    let meta := metaLines.foldl parseMetaLine ([], [], [])
    match strIndex block commentEnd with
    | none => none
    | some bodyEndIdx =>
      let bodyStart := metaEndIdx + 3
      let bodyContent := (block.drop bodyStart).take (bodyEndIdx - bodyStart)
      some { ID := meta.1, Author := meta.2.1, Body := extractCommentBody bodyContent,
             ParentID := meta.2.2 }

/-- The loop of `parseMarkerComments`, with explicit fuel (each
iteration consumes at least one character, so `remaining.length + 1`
fuel always suffices). -/
def parseMarkerLoop (fuel : Nat) (content remaining : Str) (offset : Nat) :
    List commentWithDepth :=
  match fuel with
  | 0 => []
  | fuel + 1 =>
    match strIndex remaining commentStart with
    | none => []
    | some startIdx =>
      match strIndex (remaining.drop startIdx) commentEnd with
      | none => []
      | some e =>
        let endIdx := e + startIdx
        let depth := calculateIndentation content (offset + startIdx)
        let block := (remaining.drop startIdx).take (e + commentEnd.length)
        let rest := parseMarkerLoop fuel content
          (remaining.drop (endIdx + commentEnd.length))
          (offset + endIdx + commentEnd.length)
        match parseCommentBlock block with
        | some c => { comment := c, depth := depth, position := offset + startIdx } :: rest
        | none => rest

/-- Mirrors `parseMarkerComments`: parse `<!-- gh-md:comment -->`
blocks. -/
def parseMarkerComments (content : Str) : List commentWithDepth :=
  parseMarkerLoop (content.length + 1) content content 0

/-- The `reply_to` scan inside `parseNewCommentMarkers`: extract the
value after `reply_to:` up to the tag's own `-->` delimiter. -/
def scanReplyTo (openingTag : Str) : Str :=
  match strIndex openingTag (lit "reply_to:") with
  | none => []
  | some replyIdx =>
    let afterReplyTo := openingTag.drop (replyIdx + 9)
    let endOfValue :=
      match strIndex afterReplyTo (lit "-->") with
      | none => afterReplyTo.length
      | some e => e
    trimSpace (afterReplyTo.take endOfValue)

/-- The loop of `parseNewCommentMarkers`, with explicit fuel. -/
def parseNewCommentLoop (fuel : Nat) (remaining : Str) : List commentWithDepth :=
  match fuel with
  | 0 => []
  | fuel + 1 =>
    match strIndex remaining newCommentOpen with
    | none => []
    | some startIdx =>
      match strIndex (remaining.drop startIdx) (lit "-->") with
      | none => []
      | some t =>
        match strIndex (remaining.drop (t + startIdx)) newCommentEnd with
        | none => []
        | some cl =>
          let tagEndIdx := t + startIdx
          let closeIdx := cl + tagEndIdx
          let openingTag := (remaining.drop startIdx).take (t + 3)
          let parentID := scanReplyTo openingTag
          let body := trimSpace ((remaining.drop (tagEndIdx + 3)).take (closeIdx - (tagEndIdx + 3)))
          let rest := parseNewCommentLoop fuel (remaining.drop (closeIdx + newCommentEnd.length))
          if body ≠ [] then
            { comment := { ID := [], Author := [], Body := body, ParentID := parentID },
              depth := 0, position := startIdx * 1000 } :: rest
          else rest

/-- Mirrors `parseNewCommentMarkers`: parse new comments within
`<!-- gh-md:new-comment -->` markers; the second parameter is unused in
the source as well. -/
def parseNewCommentMarkers (content : Str) (_ : List commentWithDepth) :
    List commentWithDepth :=
  parseNewCommentLoop (content.length + 1) content

/-- The per-depth "most recent comment id" table of `assignParentIDs`,
modelled as a function; `none` is an absent map entry. -/
def emptyStack : Nat → Option Str := fun _ => none

/-- The clearing loop of `assignParentIDs`: delete the slots at depths
`depth+1` to `9`. -/
def clearDeeper (stack : Nat → Option Str) (depth : Nat) : Nat → Option Str :=
  fun d => if depth + 1 ≤ d ∧ d < 10 then none else stack d

/-- The parent-search loop of `assignParentIDs`: scan depths `d, d-1,
..., 0` for the nearest recorded non-empty id. -/
def searchDown (stack : Nat → Option Str) : Nat → Str
  | 0 =>
    match stack 0 with
    | some p => if p ≠ [] then p else []
    | none => []
  | d + 1 =>
    match stack (d + 1) with
    | some p => if p ≠ [] then p else searchDown stack d
    | none => searchDown stack d

/-- The body of the loop of `assignParentIDs`, processing one comment:
possibly adopt an inferred parent, then record this comment's id at its
depth and clear the deeper slots. -/
def assignStep (stack : Nat → Option Str) (cwd : commentWithDepth) :
    (Nat → Option Str) × ParsedComment :=
  let comment := cwd.comment
  let depth := cwd.depth
  let comment :=
    if 0 < depth ∧ comment.ParentID = [] then
      { comment with ParentID := searchDown stack (depth - 1) }
    else comment
  let stack :=
    if comment.ID ≠ [] then
      clearDeeper (fun d => if d = depth then some comment.ID else stack d) depth
    else stack
  (stack, comment)

/-- The loop of `assignParentIDs` as explicit recursion. -/
def assignGo (stack : Nat → Option Str) : List commentWithDepth → List ParsedComment
  | [] => []
  | cwd :: rest =>
    let r := assignStep stack cwd
    r.2 :: assignGo r.1 rest

/-- Mirrors `assignParentIDs`: assign `ParentID` based on the depth
hierarchy, preserving explicitly set parents. -/
def assignParentIDs (commentsWithDepth : List commentWithDepth) : List ParsedComment :=
  assignGo emptyStack commentsWithDepth

/-- Mirrors `parseComments`: marker-based comments, then
placeholder-based new comments, then hierarchy resolution. -/
def parseComments (content : Str) : List ParsedComment :=
  let commentsWithDepth := parseMarkerComments content
  let commentsWithDepth := commentsWithDepth ++ parseNewCommentMarkers content commentsWithDepth
  assignParentIDs commentsWithDepth

/-- Mirrors `extractTitleAndBody`. -/
def extractTitleAndBody (content : Str) : Str × Str :=
  match strIndex content contentStart, strIndex content contentEnd with
  | some startIdx, some endIdx =>
    if endIdx ≤ startIdx then ([], [])
    else
      let editableContent := trimSpace
        ((content.drop (startIdx + contentStart.length)).take (endIdx - (startIdx + contentStart.length)))
      if ¬ (lit "# ").isPrefixOf editableContent then ([], editableContent)
      else
        match strIndex editableContent (lit "\n") with
        | none => (trimPrefixStr editableContent (lit "# "), [])
        | some newlineIdx =>
          (trimPrefixStr (editableContent.take newlineIdx) (lit "# "),
           trimSpace (editableContent.drop (newlineIdx + 1)))
  | _, _ => ([], [])

/-- Mirrors the `frontmatter` struct.  `number` and `updated` hold the
raw scalar text; their numeric/time decoding is irrelevant to the
claims. -/
structure frontmatter where
  id : Str
  owner : Str
  repo : Str
  number : Str
  updated : Str
  state : Str
deriving DecidableEq

/-- Models `yaml.v3` field decoding as used by `extractFrontmatter`,
restricted to plain single-line scalar values (`key: value` lines,
value trimmed); the frontmatter produced by the writer for the
documents considered here only contains such lines, with each key
appearing at most once. -/
def yamlScalar (fmContent : Str) (key : Str) : Str :=
  match (splitNl fmContent).find? (fun line => (key ++ [':']).isPrefixOf line) with
  | some line => trimSpace (line.drop (key.length + 1))
  | none => []

/-- Mirrors `extractFrontmatter`: the frontmatter lies between `---`
markers; `none` corresponds to the fatal parse errors of the source. -/
def extractFrontmatter (content : Str) : Option (frontmatter × Str) :=
  if ¬ (lit "---\n").isPrefixOf content then none
  else
    match strIndex (content.drop 4) (lit "\n---\n") with
    | none => none
    | some endIndex =>
      let fmContent := (content.drop 4).take endIndex
      let rest := content.drop (4 + endIndex + 5)
      some ({ id := yamlScalar fmContent (lit "id"),
              owner := yamlScalar fmContent (lit "owner"),
              repo := yamlScalar fmContent (lit "repo"),
              number := yamlScalar fmContent (lit "number"),
              updated := yamlScalar fmContent (lit "updated"),
              state := yamlScalar fmContent (lit "state") }, rest)

/-- Mirrors `github.ItemType` (the empty Go value is `Option.none` at
use sites). -/
inductive ItemType where
  | issue : ItemType
  | pullRequest : ItemType
  | discussion : ItemType
deriving DecidableEq

/-- Model of Go `strings.ToLower` on ASCII text. -/
def toLowerStr (s : Str) : Str := s.map Char.toLower

/-- Mirrors `github.ItemTypeFromDirName`. -/
def ItemTypeFromDirName (dir : Str) : Option ItemType :=
  let d := toLowerStr dir
  if d = lit "issue" ∨ d = lit "issues" then some .issue
  else if d = lit "pull" ∨ d = lit "pulls" then some .pullRequest
  else if d = lit "discussion" ∨ d = lit "discussions" then some .discussion
  else none

/-- Mirrors `detectItemType`: the base of the directory of the path,
for slash-separated relative paths as used by the callers. -/
def detectItemType (path : Str) : Option ItemType :=
  match (path.splitOn '/').dropLast.getLast? with
  | some base => ItemTypeFromDirName base
  | none => none

/-- Mirrors `ParsedFile` (frontmatter scalars kept as raw text). -/
structure ParsedFile where
  ID : Str
  Owner : Str
  Repo : Str
  Number : Str
  Updated : Str
  State : Str
  Title : Str
  Body : Str
  ItemType : Option ItemType
  Comments : List ParsedComment
  FilePath : Str
deriving DecidableEq

/-- Mirrors `parseContent`. -/
def parseContent (content path : Str) : Option ParsedFile :=
  match extractFrontmatter content with
  | none => none
  | some (fm, rest) =>
    let tb := extractTitleAndBody rest
    let comments := parseComments rest
    some { ID := fm.id, Owner := fm.owner, Repo := fm.repo, Number := fm.number,
           Updated := fm.updated, State := fm.state, Title := tb.1, Body := tb.2,
           ItemType := detectItemType path, Comments := comments, FilePath := path }

end parser

/-! ## Writer embedding (`internal/writer/writer.go`) -/

/-- Model of Go `time.Time` restricted to the two formatted renderings
the writer uses: `Format(time.RFC3339)` and `Format("2006-01-02")`. -/
structure GoTime where
  rfc3339 : Str
  day : Str
deriving DecidableEq

namespace github

/-- Mirrors `github.Comment`. -/
structure Comment where
  ID : Str
  Author : Str
  Body : Str
  CreatedAt : GoTime
deriving DecidableEq

/-- Mirrors `github.DiscussionComment` (recursive through `Replies`). -/
inductive DiscussionComment where
  | mk (ID : Str) (Author : Str) (Body : Str) (CreatedAt : GoTime)
       (Replies : List DiscussionComment) : DiscussionComment

def DiscussionComment.ID : DiscussionComment → Str
  | .mk i _ _ _ _ => i

def DiscussionComment.Author : DiscussionComment → Str
  | .mk _ a _ _ _ => a

def DiscussionComment.Body : DiscussionComment → Str
  | .mk _ _ b _ _ => b

def DiscussionComment.CreatedAt : DiscussionComment → GoTime
  | .mk _ _ _ t _ => t

def DiscussionComment.Replies : DiscussionComment → List DiscussionComment
  | .mk _ _ _ _ r => r

/-- Mirrors `github.ReviewComment`. -/
structure ReviewComment where
  ID : Str
  Author : Str
  Body : Str
  CreatedAt : GoTime
deriving DecidableEq

/-- Mirrors `github.ReviewThread`; `Line` holds the decimal rendering of
the Go int field. -/
structure ReviewThread where
  ID : Str
  Path : Str
  Line : Str
  IsResolved : Bool
  IsOutdated : Bool
  Comments : List ReviewComment
deriving DecidableEq

/-- Mirrors `github.Issue` restricted to the fields the writer and the
claims use; `Number` holds the decimal rendering of the Go int field.
Labels, assignees and sub-issue references are not modelled (no claim
concerns them, and the documents considered below carry none, so their
`omitempty` frontmatter fields are absent). -/
structure Issue where
  ID : Str
  URL : Str
  Number : Str
  Owner : Str
  Repo : Str
  Title : Str
  Body : Str
  State : Str
  Author : Str
  CreatedAt : GoTime
  UpdatedAt : GoTime
  Comments : List Comment
deriving DecidableEq

/-- Mirrors `github.Discussion`. -/
structure Discussion where
  ID : Str
  URL : Str
  Number : Str
  Owner : Str
  Repo : Str
  Title : Str
  Body : Str
  State : Str
  Category : Str
  Author : Str
  AnswerID : Str
  Locked : Bool
  CreatedAt : GoTime
  UpdatedAt : GoTime
  Comments : List DiscussionComment

/-- Mirrors `github.PullRequest` restricted to the fields the writer and
the claims use (labels and assignees omitted as for `Issue`);
`MergedAt = none` models the zero `time.Time`. -/
structure PullRequest where
  ID : Str
  URL : Str
  Number : Str
  Owner : Str
  Repo : Str
  Title : Str
  Body : Str
  State : Str
  Author : Str
  Draft : Bool
  HeadRef : Str
  BaseRef : Str
  MergeCommit : Str
  CreatedAt : GoTime
  UpdatedAt : GoTime
  MergedAt : Option GoTime
  Comments : List Comment
  ReviewThreads : List ReviewThread
deriving DecidableEq

end github

namespace writer

open github

/-- One `key: value` line, as `gopkg.in/yaml.v3` renders a plain
single-line scalar field. -/
def yamlLine (key v : Str) : Str := key ++ lit ": " ++ v ++ lit "\n"

/-- Models `yaml.Marshal` of `IssueFrontmatter` (struct field order,
`omitempty` fields absent when empty), restricted to plain scalar
values. -/
def IssueFrontmatterText (i : Issue) (now : GoTime) : Str :=
  yamlLine (lit "id") i.ID ++ yamlLine (lit "url") i.URL ++
  yamlLine (lit "number") i.Number ++ yamlLine (lit "owner") i.Owner ++
  yamlLine (lit "repo") i.Repo ++ yamlLine (lit "title") i.Title ++
  yamlLine (lit "state") i.State ++
  (if i.Author ≠ [] then yamlLine (lit "author") i.Author else []) ++
  yamlLine (lit "created") i.CreatedAt.rfc3339 ++
  yamlLine (lit "updated") i.UpdatedAt.rfc3339 ++
  yamlLine (lit "last_pulled") now.rfc3339

/-- Models `yaml.Marshal` of `DiscussionFrontmatter`. -/
def DiscussionFrontmatterText (d : Discussion) (now : GoTime) : Str :=
  yamlLine (lit "id") d.ID ++ yamlLine (lit "url") d.URL ++
  yamlLine (lit "number") d.Number ++ yamlLine (lit "owner") d.Owner ++
  yamlLine (lit "repo") d.Repo ++ yamlLine (lit "title") d.Title ++
  yamlLine (lit "category") d.Category ++ yamlLine (lit "author") d.Author ++
  (if d.AnswerID ≠ [] then yamlLine (lit "answer_id") d.AnswerID else []) ++
  (if d.Locked then yamlLine (lit "locked") (lit "true") else []) ++
  yamlLine (lit "created") d.CreatedAt.rfc3339 ++
  yamlLine (lit "updated") d.UpdatedAt.rfc3339 ++
  yamlLine (lit "last_pulled") now.rfc3339

/-- Models `yaml.Marshal` of `PullRequestFrontmatter`. -/
def PullRequestFrontmatterText (pr : PullRequest) (now : GoTime) : Str :=
  yamlLine (lit "id") pr.ID ++ yamlLine (lit "url") pr.URL ++
  yamlLine (lit "number") pr.Number ++ yamlLine (lit "owner") pr.Owner ++
  yamlLine (lit "repo") pr.Repo ++ yamlLine (lit "title") pr.Title ++
  yamlLine (lit "state") pr.State ++
  (if pr.Author ≠ [] then yamlLine (lit "author") pr.Author else []) ++
  (if pr.Draft then yamlLine (lit "draft") (lit "true") else []) ++
  yamlLine (lit "head_ref") pr.HeadRef ++ yamlLine (lit "base_ref") pr.BaseRef ++
  (if pr.MergeCommit ≠ [] then yamlLine (lit "merge_commit") pr.MergeCommit else []) ++
  yamlLine (lit "created") pr.CreatedAt.rfc3339 ++
  yamlLine (lit "updated") pr.UpdatedAt.rfc3339 ++
  (match pr.MergedAt with
   | some t => yamlLine (lit "merged") t.rfc3339
   | none => []) ++
  yamlLine (lit "last_pulled") now.rfc3339

/-- Mirrors `buildMarkdownWithFrontmatter` (the frontmatter is passed
already marshalled). -/
def buildMarkdownWithFrontmatter (fmText title body : Str) : Str :=
  lit "---\n" ++ fmText ++ lit "---\n\n" ++
  lit "<!-- gh-md:content -->\n# " ++ title ++ lit "\n\n" ++ body ++
  lit "\n<!-- /gh-md:content -->\n"

/-- Mirrors `finishMarkdown`: append the trailing new-comment marker. -/
def finishMarkdown (s : Str) : Str :=
  s ++ lit "\n<!-- gh-md:new-comment -->\n\n<!-- /gh-md:new-comment -->\n"

/-- Mirrors `writeCommentHeader`. -/
def writeCommentHeader (tagName id author : Str) (createdAt : GoTime) : Str :=
  lit "<!-- gh-md:" ++ tagName ++ lit "\n" ++
  lit "id: " ++ id ++ lit "\n" ++
  lit "author: " ++ author ++ lit "\n" ++
  lit "created: " ++ createdAt.rfc3339 ++ lit "\n" ++
  lit "-->\n"

/-- Mirrors `writeCommentBody`. -/
def writeCommentBody (tagName author body : Str) (createdAt : GoTime)
    (headingLevel : Str) : Str :=
  headingLevel ++ lit " @" ++ author ++ lit " (" ++ createdAt.day ++ lit ")\n\n" ++
  body ++ lit "\n<!-- /gh-md:" ++ tagName ++ lit " -->\n\n"

/-- Mirrors `writeComment` (flat issue/PR comments). -/
def writeComment (c : Comment) : Str :=
  writeCommentHeader (lit "comment") c.ID c.Author c.CreatedAt ++
  writeCommentBody (lit "comment") c.Author c.Body c.CreatedAt (lit "###")

mutual

/-- Mirrors `writeDiscussionComment`: metadata block (with `parent:`
for replies), heading, body, closing tag, a `reply_to` new-comment
marker, then the replies recursively. -/
def writeDiscussionComment : DiscussionComment → Str → Str
  | .mk id author body created replies, parentID =>
    lit "<!-- gh-md:comment\n" ++
    lit "id: " ++ id ++ lit "\n" ++
    lit "author: " ++ author ++ lit "\n" ++
    (if parentID ≠ [] then lit "parent: " ++ parentID ++ lit "\n" else []) ++
    lit "created: " ++ created.rfc3339 ++ lit "\n" ++
    lit "-->\n" ++
    (if parentID ≠ [] then lit "####" else lit "###") ++
    lit " @" ++ author ++ lit " (" ++ created.day ++ lit ")\n\n" ++
    body ++ lit "\n<!-- /gh-md:comment -->\n\n" ++
    lit "<!-- gh-md:new-comment reply_to: " ++ id ++ lit " -->\n\n<!-- /gh-md:new-comment -->\n\n" ++
    writeDiscussionComments replies id

/-- The reply loop of `writeDiscussionComment` (and the top-level
comment loop of `DiscussionToMarkdown`). -/
def writeDiscussionComments : List DiscussionComment → Str → Str
  | [], _ => []
  | c :: rest, parentID =>
    writeDiscussionComment c parentID ++ writeDiscussionComments rest parentID

end

/-- Mirrors the body of `writeReviewThread`'s inner comment loop. -/
def writeReviewComment (c : ReviewComment) : Str :=
  lit "<!-- gh-md:review-comment\n" ++
  lit "id: " ++ c.ID ++ lit "\n" ++
  lit "author: " ++ c.Author ++ lit "\n" ++
  lit "created: " ++ c.CreatedAt.rfc3339 ++ lit "\n" ++
  lit "-->\n" ++
  lit "#### @" ++ c.Author ++ lit " (" ++ c.CreatedAt.day ++ lit ")\n\n" ++
  c.Body ++ lit "\n<!-- /gh-md:review-comment -->\n\n"

/-- Mirrors `writeReviewThread`. -/
def writeReviewThread (t : ReviewThread) : Str :=
  lit "<!-- gh-md:review-thread\n" ++
  lit "id: " ++ t.ID ++ lit "\n" ++
  lit "path: " ++ t.Path ++ lit "\n" ++
  lit "line: " ++ t.Line ++ lit "\n" ++
  lit "-->\n" ++
  lit "### `" ++ t.Path ++ lit ":" ++ t.Line ++ lit "`" ++
  (if t.IsResolved then lit " (resolved)" else []) ++
  (if t.IsOutdated then lit " (outdated)" else []) ++ lit "\n\n" ++
  (t.Comments.map writeReviewComment).flatten ++
  lit "<!-- gh-md:new-comment reply_to: " ++ t.ID ++ lit " -->\n\n<!-- /gh-md:new-comment -->\n\n" ++
  lit "<!-- /gh-md:review-thread -->\n\n"

/-- Mirrors `IssueToMarkdown` (the `time.Now()` of `last_pulled` passed
explicitly). -/
def IssueToMarkdown (i : Issue) (now : GoTime) : Str :=
  let sb := buildMarkdownWithFrontmatter (IssueFrontmatterText i now) i.Title i.Body
  let sb := if 0 < i.Comments.length then
      sb ++ lit "\n---\n\n" ++ (i.Comments.map writeComment).flatten
    else sb
  finishMarkdown sb

/-- Mirrors `DiscussionToMarkdown`. -/
def DiscussionToMarkdown (d : Discussion) (now : GoTime) : Str :=
  let sb := buildMarkdownWithFrontmatter (DiscussionFrontmatterText d now) d.Title d.Body
  let sb := if 0 < d.Comments.length then
      sb ++ lit "\n---\n\n" ++ writeDiscussionComments d.Comments []
    else sb
  finishMarkdown sb

/-- Mirrors `PullRequestToMarkdown`. -/
def PullRequestToMarkdown (pr : PullRequest) (now : GoTime) : Str :=
  let sb := buildMarkdownWithFrontmatter (PullRequestFrontmatterText pr now) pr.Title pr.Body
  let sb := if 0 < pr.Comments.length then
      sb ++ lit "\n---\n\n" ++ (pr.Comments.map writeComment).flatten
    else sb
  let sb := if 0 < pr.ReviewThreads.length then
      sb ++ lit "\n## Review Threads\n\n" ++ (pr.ReviewThreads.map writeReviewThread).flatten
    else sb
  finishMarkdown sb

end writer

/-! ## Push logic embedding (`cmd/root.go`) -/

namespace cmd

open parser

/-- Mirrors `github.RemoteState`; `UpdatedAt` is modelled as an integer
since the push logic only compares it with `time.Time.After`. -/
structure RemoteState where
  UpdatedAt : Int
  State : Str
deriving DecidableEq

/-- Mirrors `github.RemoteComment`. -/
structure RemoteComment where
  ID : Str
  Body : Str
deriving DecidableEq

/-- Mirrors `changePlan`. -/
structure changePlan where
  titleBodyChanged : Bool
  stateChange : Str
  newComments : List ParsedComment
  editedComments : List ParsedComment
deriving DecidableEq

/-- Mirrors `normalizeBody`. -/
def normalizeBody (body : Str) : Str := GoStrings.trimSpace body

/-- The `remoteMap` built by `buildChangePlan`: a Go map filled in
iteration order (a later duplicate id overwrites an earlier one). -/
def buildRemoteMap (remoteComments : List RemoteComment) : Str → Option Str :=
  remoteComments.foldl (fun m rc => fun i => if i = rc.ID then some rc.Body else m i)
    (fun _ => none)

/-- The comment-categorisation loop of `buildChangePlan`, returning
(new comments, edited comments) in input order. -/
def categorizeComments (remoteMap : Str → Option Str) :
    List ParsedComment → List ParsedComment × List ParsedComment
  | [] => ([], [])
  | c :: rest =>
    let r := categorizeComments remoteMap rest
    if c.ID = [] then (c :: r.1, r.2)
    else
      match remoteMap c.ID with
      | some remoteBody =>
        if normalizeBody c.Body ≠ normalizeBody remoteBody then (r.1, c :: r.2) else r
      | none => r

/-- Mirrors `buildChangePlan`. -/
def buildChangePlan (parsed : ParsedFile) (remoteState : RemoteState)
    (remoteComments : List RemoteComment) : changePlan :=
  let stateChange :=
    if parsed.ItemType ≠ some .discussion ∧ parsed.State ≠ [] ∧ remoteState.State ≠ [] then
      let localState := GoStrings.toUpperStr parsed.State
      if localState ≠ remoteState.State then
        if localState = lit "CLOSED" then lit "close"
        else if localState = lit "OPEN" then
          (if remoteState.State ≠ lit "MERGED" then lit "reopen" else [])
        else []
      else []
    else []
  let remoteMap := buildRemoteMap remoteComments
  let cat := categorizeComments remoteMap parsed.Comments
  { titleBodyChanged := true, stateChange := stateChange,
    newComments := cat.1, editedComments := cat.2 }

/-- Mirrors `hasChanges`. -/
def hasChanges (plan : changePlan) : Bool :=
  plan.titleBodyChanged || plan.stateChange ≠ [] ||
    0 < plan.newComments.length || 0 < plan.editedComments.length

/-- The remote mutation calls issued by `executeChanges`. -/
inductive Mutation where
  | updateIssue (id title body : Str)
  | updatePullRequest (id title body : Str)
  | updateDiscussion (id title body : Str)
  | closeIssue (id : Str)
  | reopenIssue (id : Str)
  | closePullRequest (id : Str)
  | reopenPullRequest (id : Str)
  | updateDiscussionComment (id body : Str)
  | updateIssueComment (id body : Str)
  | addDiscussionCommentReply (parentID body : Str)
  | addDiscussionComment (id body : Str)
  | addReviewThreadReply (parentID body : Str)
  | addComment (id body : Str)
deriving DecidableEq

/-- Step 1 of `executeChanges`: the title/body update call (none for an
unknown item type, for which the source issues no call and keeps a nil
error). -/
def titleBodyMutation (parsed : ParsedFile) : Option Mutation :=
  match parsed.ItemType with
  | some .issue => some (.updateIssue parsed.ID parsed.Title parsed.Body)
  | some .pullRequest => some (.updatePullRequest parsed.ID parsed.Title parsed.Body)
  | some .discussion => some (.updateDiscussion parsed.ID parsed.Title parsed.Body)
  | none => none

/-- Step 2 of `executeChanges`: the state transition call. -/
def stateMutation (parsed : ParsedFile) (plan : changePlan) : Option Mutation :=
  if plan.stateChange ≠ [] ∧ parsed.ItemType ≠ some .discussion then
    match parsed.ItemType with
    | some .issue =>
      some (if plan.stateChange = lit "close" then .closeIssue parsed.ID
            else .reopenIssue parsed.ID)
    | some .pullRequest =>
      some (if plan.stateChange = lit "close" then .closePullRequest parsed.ID
            else .reopenPullRequest parsed.ID)
    | _ => none
  else none

/-- Step 3 of `executeChanges`: the update call for one edited comment. -/
def editedMutation (parsed : ParsedFile) (c : ParsedComment) : Mutation :=
  if parsed.ItemType = some .discussion then .updateDiscussionComment c.ID c.Body
  else .updateIssueComment c.ID c.Body

/-- Step 4 of `executeChanges`: the creation call for one new comment. -/
def newMutation (parsed : ParsedFile) (c : ParsedComment) : Mutation :=
  match parsed.ItemType with
  | some .discussion =>
    if c.ParentID ≠ [] then .addDiscussionCommentReply c.ParentID c.Body
    else .addDiscussionComment parsed.ID c.Body
  | some .pullRequest =>
    if c.ParentID ≠ [] then .addReviewThreadReply c.ParentID c.Body
    else .addComment parsed.ID c.Body
  | _ => .addComment parsed.ID c.Body

/-- The full mutation sequence of a change plan, in the fixed order of
`executeChanges`: title/body update, state transition, edited-comment
updates, new-comment creations. -/
def plannedSequence (parsed : ParsedFile) (plan : changePlan) : List Mutation :=
  (match titleBodyMutation parsed with | some m => [m] | none => []) ++
  (match stateMutation parsed plan with | some m => [m] | none => []) ++
  plan.editedComments.map (editedMutation parsed) ++
  plan.newComments.map (newMutation parsed)

/-- Issue mutations in order against an environment telling which calls
succeed; stop at the first failure, as each step of `executeChanges`
returns its error immediately.  Returns the issued calls and the failing
one, if any. -/
def runMutations (env : Mutation → Bool) :
    List Mutation → List Mutation × Option Mutation
  | [] => ([], none)
  | m :: rest =>
    if env m then
      let r := runMutations env rest
      (m :: r.1, r.2)
    else ([m], some m)

/-- Mirrors `executeChanges`: apply the planned mutations in order,
aborting at the first failed call. -/
def executeChanges (parsed : ParsedFile) (plan : changePlan)
    (env : Mutation → Bool) : List Mutation × Option Mutation :=
  runMutations env (plannedSequence parsed plan)

/-- The externally visible actions of a push. -/
inductive PushAction where
  | mutate (m : Mutation)
  | repull
deriving DecidableEq

/-- The outcome of `runPush` (which of the source's return paths was
taken). -/
inductive PushResult where
  | conflict
  | dryRun
  | noChanges
  | execError (m : Mutation)
  | ok
deriving DecidableEq

/-- Mirrors `runPush` from the conflict check onward (the file has been
parsed and the remote state and comments fetched; fetches are reads and
issue no mutation).  `parsedUpdated` is the decoded `Updated` timestamp
of the parsed file, as an integer.  A successful execution is followed
by the `repullItem` re-fetch/re-serialization, whose own failure only
warns. -/
def runPush (parsed : ParsedFile) (parsedUpdated : Int) (remoteState : RemoteState)
    (remoteComments : List RemoteComment) (pushForce pushDryRun : Bool)
    (env : Mutation → Bool) : PushResult × List PushAction :=
  if remoteState.UpdatedAt > parsedUpdated ∧ ¬pushForce then (.conflict, [])
  else
    let plan := buildChangePlan parsed remoteState remoteComments
    if pushDryRun then (.dryRun, [])
    else if ¬hasChanges plan then (.noChanges, [])
    else
      let r := executeChanges parsed plan env
      match r.2 with
      | some m => (.execError m, r.1.map .mutate)
      | none => (.ok, r.1.map .mutate ++ [.repull])

end cmd

/-! ## Change-plan lemmas and claims C3, C4, C9 -/

namespace cmd

open parser GoStrings

/-- Whether a comment with this id counts as edited against the remote
map (the inner comparison of `buildChangePlan`). -/
def editedAgainst (remoteMap : Str → Option Str) (c : ParsedComment) : Bool :=
  match remoteMap c.ID with
  | some remoteBody => normalizeBody c.Body ≠ normalizeBody remoteBody
  | none => false

theorem categorizeComments_eq_filter (remoteMap : Str → Option Str)
    (l : List ParsedComment) :
    categorizeComments remoteMap l =
      (l.filter (fun c => c.ID = []),
       l.filter (fun c => c.ID ≠ [] && editedAgainst remoteMap c)) := by
  induction l with
  | nil => rfl
  | cons c rest ih =>
      unfold categorizeComments
      rw [ih]
      by_cases hid : c.ID = []
      · simp [hid, editedAgainst]
      · simp only [hid, if_false]
        unfold editedAgainst
        cases hmap : remoteMap c.ID with
        | none => simp [hid, hmap]
        | some rb =>
            by_cases hne : normalizeBody c.Body ≠ normalizeBody rb
            · simp [hid, hmap, hne]
            · simp [hid, hmap, hne]

theorem buildChangePlan_newComments (parsed : ParsedFile) (remoteState : RemoteState)
    (remoteComments : List RemoteComment) :
    (buildChangePlan parsed remoteState remoteComments).newComments =
      parsed.Comments.filter (fun c => c.ID = []) := by
  have h : (buildChangePlan parsed remoteState remoteComments).newComments =
      (categorizeComments (buildRemoteMap remoteComments) parsed.Comments).1 := rfl
  rw [h, categorizeComments_eq_filter]

theorem buildChangePlan_editedComments (parsed : ParsedFile) (remoteState : RemoteState)
    (remoteComments : List RemoteComment) :
    (buildChangePlan parsed remoteState remoteComments).editedComments =
      parsed.Comments.filter
        (fun c => c.ID ≠ [] && editedAgainst (buildRemoteMap remoteComments) c) := by
  have h : (buildChangePlan parsed remoteState remoteComments).editedComments =
      (categorizeComments (buildRemoteMap remoteComments) parsed.Comments).2 := rfl
  rw [h, categorizeComments_eq_filter]

theorem buildChangePlan_stateChange (parsed : ParsedFile) (remoteState : RemoteState)
    (remoteComments : List RemoteComment) :
    (buildChangePlan parsed remoteState remoteComments).stateChange =
      (if parsed.ItemType ≠ some .discussion ∧ parsed.State ≠ [] ∧ remoteState.State ≠ [] then
        if toUpperStr parsed.State ≠ remoteState.State then
          if toUpperStr parsed.State = lit "CLOSED" then lit "close"
          else if toUpperStr parsed.State = lit "OPEN" then
            (if remoteState.State ≠ lit "MERGED" then lit "reopen" else [])
          else []
        else []
      else []) := rfl

/-- C3.  Comment diff categorization: a parsed comment with an empty ID
appears in the plan's new-comment list (as the whole `ParsedComment`,
carrying its body and optional ParentID); one with a non-empty ID whose
whitespace-trimmed body differs from the trimmed remote body recorded
under the same ID appears in the edited-comment list; one whose trimmed
body matches produces no plan entry; and when every local comment's
body matches its remote counterpart exactly, the edited-comment list is
empty. -/
theorem c3_comment_diff (parsed : ParsedFile) (remoteState : RemoteState)
    (remoteComments : List RemoteComment) :
    (buildChangePlan parsed remoteState remoteComments).newComments =
      parsed.Comments.filter (fun c => c.ID = []) ∧
    (buildChangePlan parsed remoteState remoteComments).editedComments =
      parsed.Comments.filter
        (fun c => c.ID ≠ [] && editedAgainst (buildRemoteMap remoteComments) c) ∧
    ((∀ c ∈ parsed.Comments, c.ID ≠ [] →
        ∀ rb, buildRemoteMap remoteComments c.ID = some rb → c.Body = rb) →
      (buildChangePlan parsed remoteState remoteComments).editedComments = []) := by
  refine ⟨buildChangePlan_newComments _ _ _, buildChangePlan_editedComments _ _ _, ?_⟩
  intro h
  rw [buildChangePlan_editedComments]
  rw [List.filter_eq_nil_iff]
  intro c hc
  by_cases hid : c.ID = []
  · simp [hid]
  · simp only [Bool.and_eq_true, not_and, decide_eq_true_eq]
    intro _
    unfold editedAgainst
    cases hmap : buildRemoteMap remoteComments c.ID with
    | none => simp
    | some rb =>
        have := h c hc hid rb hmap
        simp [this]

/-- Witness for C3 at a concrete input: a plan with one matching
existing comment, one edited comment and one new comment. -/
theorem c3_comment_diff_witness :
    (∀ c ∈ ({ ID := lit "I_1", Owner := lit "o", Repo := lit "r", Number := lit "1",
              Updated := lit "t", State := lit "open", Title := lit "T", Body := lit "B",
              ItemType := some .issue,
              Comments := [⟨lit "IC_1", lit "a", lit "same", []⟩],
              FilePath := lit "p" } : ParsedFile).Comments, c.ID ≠ [] →
        ∀ rb, buildRemoteMap [⟨lit "IC_1", lit "same"⟩] c.ID = some rb → c.Body = rb) ∧
    (buildChangePlan
        { ID := lit "I_1", Owner := lit "o", Repo := lit "r", Number := lit "1",
          Updated := lit "t", State := lit "open", Title := lit "T", Body := lit "B",
          ItemType := some .issue,
          Comments := [⟨lit "IC_1", lit "a", lit "same", []⟩],
          FilePath := lit "p" }
        ⟨0, lit "OPEN"⟩ [⟨lit "IC_1", lit "same"⟩]).editedComments = [] := by
  constructor
  · decide
  · exact (c3_comment_diff _ _ _).2.2 (by decide)

/-- C4.  Merge guard and state-transition planning, for a non-discussion
document with non-empty local and remote state: a transition is planned
only when the (uppercased) local state differs from the remote state;
local closed plans `close`; local open plans `reopen` unless the remote
state is `MERGED`; and for remote `MERGED` with local `open` the planned
transition is empty. -/
theorem c4_state_transition (parsed : ParsedFile) (remoteState : RemoteState)
    (remoteComments : List RemoteComment)
    (hit : parsed.ItemType ≠ some .discussion)
    (hl : parsed.State ≠ []) (hr : remoteState.State ≠ []) :
    ((buildChangePlan parsed remoteState remoteComments).stateChange ≠ [] →
      toUpperStr parsed.State ≠ remoteState.State) ∧
    (toUpperStr parsed.State = remoteState.State →
      (buildChangePlan parsed remoteState remoteComments).stateChange = []) ∧
    (toUpperStr parsed.State = lit "CLOSED" → remoteState.State ≠ lit "CLOSED" →
      (buildChangePlan parsed remoteState remoteComments).stateChange = lit "close") ∧
    (toUpperStr parsed.State = lit "OPEN" → remoteState.State ≠ lit "OPEN" →
      remoteState.State ≠ lit "MERGED" →
      (buildChangePlan parsed remoteState remoteComments).stateChange = lit "reopen") ∧
    (remoteState.State = lit "MERGED" → parsed.State = lit "open" →
      (buildChangePlan parsed remoteState remoteComments).stateChange = []) := by
  have hs := buildChangePlan_stateChange parsed remoteState remoteComments
  rw [if_pos ⟨hit, hl, hr⟩] at hs
  refine ⟨?_, ?_, ?_, ?_, ?_⟩
  · intro hne heq
    rw [hs, if_neg (fun hcon => hcon heq)] at hne
    exact hne rfl
  · intro heq
    rw [hs, if_neg (fun hcon => hcon heq)]
  · intro hcl hne
    have hdiff : toUpperStr parsed.State ≠ remoteState.State := by
      rw [hcl]; exact fun h => hne h.symm
    rw [hs, if_pos hdiff, if_pos hcl]
  · intro hop hne hnm
    have hdiff : toUpperStr parsed.State ≠ remoteState.State := by
      rw [hop]; exact fun h => hne h.symm
    have hncl : toUpperStr parsed.State ≠ lit "CLOSED" := by rw [hop]; decide
    rw [hs, if_pos hdiff, if_neg hncl, if_pos hop, if_pos hnm]
  · intro hm hop
    have hup : toUpperStr parsed.State = lit "OPEN" := by rw [hop]; decide
    have hdiff : toUpperStr parsed.State ≠ remoteState.State := by rw [hup, hm]; decide
    have hncl : toUpperStr parsed.State ≠ lit "CLOSED" := by rw [hup]; decide
    rw [hs, if_pos hdiff, if_neg hncl, if_pos hup, if_neg (not_not_intro hm)]

/-- Witness for C4 at a concrete input: an open local file against a
merged remote pull request plans no transition. -/
theorem c4_state_transition_witness :
    (({ ID := lit "PR_1", Owner := lit "o", Repo := lit "r", Number := lit "1",
        Updated := lit "t", State := lit "open", Title := lit "T", Body := lit "B",
        ItemType := some .pullRequest, Comments := [], FilePath := lit "p" } :
        ParsedFile).ItemType ≠ some .discussion) ∧
    (buildChangePlan
        { ID := lit "PR_1", Owner := lit "o", Repo := lit "r", Number := lit "1",
          Updated := lit "t", State := lit "open", Title := lit "T", Body := lit "B",
          ItemType := some .pullRequest, Comments := [], FilePath := lit "p" }
        ⟨0, lit "MERGED"⟩ []).stateChange = [] := by
  constructor
  · decide
  · exact (c4_state_transition _ ⟨0, lit "MERGED"⟩ [] (by decide) (by decide)
      (by decide)).2.2.2.2 (by decide) (by decide)

/-- C9.  Silent drop of orphaned edits: a parsed comment with a
non-empty ID that is absent from the remote comment list produces no
plan entry (neither edited nor new), and `buildChangePlan` is total, so
no error is raised. -/
theorem c9_orphaned_edits (parsed : ParsedFile) (remoteState : RemoteState)
    (remoteComments : List RemoteComment) (c : ParsedComment)
    (_hc : c ∈ parsed.Comments) (hid : c.ID ≠ [])
    (horph : buildRemoteMap remoteComments c.ID = none) :
    c ∉ (buildChangePlan parsed remoteState remoteComments).editedComments ∧
    c ∉ (buildChangePlan parsed remoteState remoteComments).newComments := by
  constructor
  · rw [buildChangePlan_editedComments]
    intro hmem
    have := List.of_mem_filter hmem
    simp only [Bool.and_eq_true] at this
    have hed := this.2
    unfold editedAgainst at hed
    rw [horph] at hed
    simp at hed
  · rw [buildChangePlan_newComments]
    intro hmem
    have := List.of_mem_filter hmem
    simp only [decide_eq_true_eq] at this
    exact hid this

/-- Witness for C9 at a concrete input: a locally edited comment whose
id was deleted remotely is dropped from the plan. -/
theorem c9_orphaned_edits_witness :
    (⟨lit "IC_gone", lit "a", lit "edited body", []⟩ : ParsedComment) ∈
      ({ ID := lit "I_1", Owner := lit "o", Repo := lit "r", Number := lit "1",
         Updated := lit "t", State := lit "open", Title := lit "T", Body := lit "B",
         ItemType := some .issue,
         Comments := [⟨lit "IC_gone", lit "a", lit "edited body", []⟩],
         FilePath := lit "p" } : ParsedFile).Comments ∧
    (⟨lit "IC_gone", lit "a", lit "edited body", []⟩ : ParsedComment) ∉
      (buildChangePlan
        { ID := lit "I_1", Owner := lit "o", Repo := lit "r", Number := lit "1",
          Updated := lit "t", State := lit "open", Title := lit "T", Body := lit "B",
          ItemType := some .issue,
          Comments := [⟨lit "IC_gone", lit "a", lit "edited body", []⟩],
          FilePath := lit "p" }
        ⟨0, lit "OPEN"⟩ [⟨lit "IC_other", lit "x"⟩]).editedComments := by
  refine ⟨by decide, (c9_orphaned_edits _ ⟨0, lit "OPEN"⟩ _ _ (by decide) (by decide)
    (by decide)).1⟩

end cmd

/-! ## Executor lemmas and claims C2, C8 -/

namespace cmd

open parser

theorem runMutations_spec (env : Mutation → Bool) (l : List Mutation) :
    runMutations env l =
      (match l.dropWhile env with
       | [] => (l, none)
       | m :: _ => (l.takeWhile env ++ [m], some m)) := by
  induction l with
  | nil => rfl
  | cons m rest ih =>
      unfold runMutations
      by_cases hm : env m = true
      · rw [ih]
        simp only [List.dropWhile_cons, List.takeWhile_cons, hm, if_true]
        cases hdw : rest.dropWhile env with
        | nil => simp [hdw]
        | cons x xs => simp [hdw]
      · simp only [Bool.not_eq_true] at hm
        simp [List.dropWhile_cons, List.takeWhile_cons, hm]

theorem takeWhile_append_of_all {env : Mutation → Bool} {pre : List Mutation}
    (rest : List Mutation) (hpre : ∀ x ∈ pre, env x = true) :
    (pre ++ rest).takeWhile env = pre ++ rest.takeWhile env := by
  induction pre with
  | nil => simp
  | cons x xs ih =>
      have hx : env x = true := hpre x (List.mem_cons_self x xs)
      simp only [List.cons_append, List.takeWhile_cons, hx, if_true]
      rw [ih (fun y hy => hpre y (List.mem_cons_of_mem x hy))]

theorem dropWhile_append_of_all {env : Mutation → Bool} {pre : List Mutation}
    (rest : List Mutation) (hpre : ∀ x ∈ pre, env x = true) :
    (pre ++ rest).dropWhile env = rest.dropWhile env := by
  induction pre with
  | nil => simp
  | cons x xs ih =>
      have hx : env x = true := hpre x (List.mem_cons_self x xs)
      simp only [List.cons_append, List.dropWhile_cons, hx, if_true]
      exact ih (fun y hy => hpre y (List.mem_cons_of_mem x hy))

/-- C8 (amended).  The executor applies the planned mutations in the
fixed order and aborts at the first failing one: it issues exactly the
successful prefix plus the failing call, reports that single failure,
and issues none of the later planned mutations (in particular no later
edited-comment update and no new-comment creation). -/
theorem c8_abort_on_first_failure (parsed : ParsedFile) (plan : changePlan)
    (env : Mutation → Bool) (pre post : List Mutation) (m : Mutation)
    (hdecomp : plannedSequence parsed plan = pre ++ m :: post)
    (hpre : ∀ x ∈ pre, env x = true) (hm : env m = false) :
    executeChanges parsed plan env = (pre ++ [m], some m) := by
  unfold executeChanges
  rw [runMutations_spec, hdecomp]
  rw [dropWhile_append_of_all _ hpre, takeWhile_append_of_all _ hpre]
  simp [List.dropWhile_cons, List.takeWhile_cons, hm]

/-- Witness for the amended C8 at a concrete input: with two planned
edited-comment updates and one new comment, a failure on the first
update stops the run there. -/
theorem c8_abort_on_first_failure_witness :
    (plannedSequence
        { ID := lit "I_1", Owner := lit "o", Repo := lit "r", Number := lit "1",
          Updated := lit "t", State := [], Title := lit "T", Body := lit "B",
          ItemType := some .issue, Comments := [], FilePath := lit "p" }
        { titleBodyChanged := true, stateChange := [],
          newComments := [⟨[], [], lit "nb", []⟩],
          editedComments := [⟨lit "E1", lit "a", lit "b1", []⟩,
                             ⟨lit "E2", lit "a", lit "b2", []⟩] } =
      [Mutation.updateIssue (lit "I_1") (lit "T") (lit "B")] ++
        Mutation.updateIssueComment (lit "E1") (lit "b1") ::
        [Mutation.updateIssueComment (lit "E2") (lit "b2"),
         Mutation.addComment (lit "I_1") (lit "nb")]) ∧
    executeChanges
        { ID := lit "I_1", Owner := lit "o", Repo := lit "r", Number := lit "1",
          Updated := lit "t", State := [], Title := lit "T", Body := lit "B",
          ItemType := some .issue, Comments := [], FilePath := lit "p" }
        { titleBodyChanged := true, stateChange := [],
          newComments := [⟨[], [], lit "nb", []⟩],
          editedComments := [⟨lit "E1", lit "a", lit "b1", []⟩,
                             ⟨lit "E2", lit "a", lit "b2", []⟩] }
        (fun mu => mu != Mutation.updateIssueComment (lit "E1") (lit "b1")) =
      ([Mutation.updateIssue (lit "I_1") (lit "T") (lit "B")] ++
        [Mutation.updateIssueComment (lit "E1") (lit "b1")],
       some (Mutation.updateIssueComment (lit "E1") (lit "b1"))) := by
  constructor
  · decide
  · exact c8_abort_on_first_failure _ _
      (fun mu => mu != Mutation.updateIssueComment (lit "E1") (lit "b1"))
      [Mutation.updateIssue (lit "I_1") (lit "T") (lit "B")]
      [Mutation.updateIssueComment (lit "E2") (lit "b2"),
       Mutation.addComment (lit "I_1") (lit "nb")]
      (Mutation.updateIssueComment (lit "E1") (lit "b1"))
      (by decide) (by decide) (by decide)

/-- Counterexample to C8 as stated: at this concrete input (an issue
push whose plan has two edited comments and one new comment, with the
first edited-comment update failing), the executor does not continue
with the remaining steps: the later edited-comment update and the
new-comment creation are never issued, and the reported error is the
single first failure, not an aggregate. -/
theorem c8_counterexample :
    Mutation.updateIssueComment (lit "E2") (lit "b2") ∉
      (executeChanges
        { ID := lit "I_1", Owner := lit "o", Repo := lit "r", Number := lit "1",
          Updated := lit "t", State := [], Title := lit "T", Body := lit "B",
          ItemType := some .issue, Comments := [], FilePath := lit "p" }
        { titleBodyChanged := true, stateChange := [],
          newComments := [⟨[], [], lit "nb", []⟩],
          editedComments := [⟨lit "E1", lit "a", lit "b1", []⟩,
                             ⟨lit "E2", lit "a", lit "b2", []⟩] }
        (fun mu => mu != Mutation.updateIssueComment (lit "E1") (lit "b1"))).1 ∧
    Mutation.addComment (lit "I_1") (lit "nb") ∉
      (executeChanges
        { ID := lit "I_1", Owner := lit "o", Repo := lit "r", Number := lit "1",
          Updated := lit "t", State := [], Title := lit "T", Body := lit "B",
          ItemType := some .issue, Comments := [], FilePath := lit "p" }
        { titleBodyChanged := true, stateChange := [],
          newComments := [⟨[], [], lit "nb", []⟩],
          editedComments := [⟨lit "E1", lit "a", lit "b1", []⟩,
                             ⟨lit "E2", lit "a", lit "b2", []⟩] }
        (fun mu => mu != Mutation.updateIssueComment (lit "E1") (lit "b1"))).1 := by
  decide

/-- C2.  Conflict detection and re-pull: when the remote `UpdatedAt` is
strictly after the parsed document's `Updated`, a push without the force
option fails with the conflict error and issues no action at all; with
the force option the conflict path is never taken; and every push whose
mutation execution succeeds re-fetches and re-serializes the item
(`repullItem`) immediately after the issued mutations. -/
theorem c2_conflict_detection (parsed : ParsedFile) (parsedUpdated : Int)
    (remoteState : RemoteState) (remoteComments : List RemoteComment)
    (env : Mutation → Bool) :
    (∀ dryRun, remoteState.UpdatedAt > parsedUpdated →
      runPush parsed parsedUpdated remoteState remoteComments false dryRun env =
        (.conflict, [])) ∧
    (∀ dryRun,
      (runPush parsed parsedUpdated remoteState remoteComments true dryRun env).1 ≠
        .conflict) ∧
    (∀ force : Bool,
      ¬(remoteState.UpdatedAt > parsedUpdated ∧ ¬force) →
      hasChanges (buildChangePlan parsed remoteState remoteComments) = true →
      (executeChanges parsed (buildChangePlan parsed remoteState remoteComments) env).2 =
        none →
      runPush parsed parsedUpdated remoteState remoteComments force false env =
        (.ok,
         (executeChanges parsed (buildChangePlan parsed remoteState remoteComments)
             env).1.map .mutate ++ [.repull])) := by
  refine ⟨?_, ?_, ?_⟩
  · intro dryRun hconf
    unfold runPush
    rw [if_pos ⟨hconf, by simp⟩]
  · intro dryRun
    unfold runPush
    rw [if_neg (by simp)]
    by_cases hd : dryRun = true
    · simp [hd]
    · simp only [Bool.not_eq_true] at hd
      simp only [hd, Bool.false_eq_true, if_false]
      by_cases hch : hasChanges (buildChangePlan parsed remoteState remoteComments) = true
      · simp only [hch, not_true, if_false]
        cases hexec : (executeChanges parsed
            (buildChangePlan parsed remoteState remoteComments) env).2 <;> simp [hexec]
      · simp only [Bool.not_eq_true] at hch
        simp [hch]
  · intro force hnc hch hexec
    unfold runPush
    rw [if_neg hnc]
    simp only [Bool.false_eq_true, if_false]
    rw [if_neg (by simp [hch])]
    rw [hexec]

/-- Witness for C2 at concrete inputs: a conflicting push without force
is rejected with no action; the same push with force succeeds and ends
with the re-pull. -/
theorem c2_conflict_detection_witness :
    ((5 : Int) > (3 : Int)) ∧
    runPush
        { ID := lit "I_1", Owner := lit "o", Repo := lit "r", Number := lit "1",
          Updated := lit "t", State := [], Title := lit "T", Body := lit "B",
          ItemType := some .issue, Comments := [], FilePath := lit "p" }
        3 ⟨5, lit "OPEN"⟩ [] false false (fun _ => true) = (.conflict, []) ∧
    runPush
        { ID := lit "I_1", Owner := lit "o", Repo := lit "r", Number := lit "1",
          Updated := lit "t", State := [], Title := lit "T", Body := lit "B",
          ItemType := some .issue, Comments := [], FilePath := lit "p" }
        3 ⟨5, lit "OPEN"⟩ [] true false (fun _ => true) =
      (.ok, [.mutate (.updateIssue (lit "I_1") (lit "T") (lit "B")), .repull]) := by
  refine ⟨by decide, ?_, ?_⟩
  · exact (c2_conflict_detection _ 3 ⟨5, lit "OPEN"⟩ [] (fun _ => true)).1 false
      (by decide)
  · have h := (c2_conflict_detection
      { ID := lit "I_1", Owner := lit "o", Repo := lit "r", Number := lit "1",
        Updated := lit "t", State := [], Title := lit "T", Body := lit "B",
        ItemType := some .issue, Comments := [], FilePath := lit "p" }
      3 ⟨5, lit "OPEN"⟩ [] (fun _ => true)).2.2 true (by simp) (by decide) (by decide)
    rw [h]
    decide

end cmd

/-! ## Parser structure lemmas and claims C6, C7, C10 -/

namespace parser

/-- The table state of `assignParentIDs` after processing a list of
comments. -/
def stackAfter (stack : Nat → Option Str) : List commentWithDepth → (Nat → Option Str)
  | [] => stack
  | cwd :: rest => stackAfter (assignStep stack cwd).1 rest

theorem stackAfter_append (stack : Nat → Option Str) (l1 l2 : List commentWithDepth) :
    stackAfter stack (l1 ++ l2) = stackAfter (stackAfter stack l1) l2 := by
  induction l1 generalizing stack with
  | nil => rfl
  | cons cwd rest ih => simp [stackAfter, ih]

theorem assignStep_fst (stack : Nat → Option Str) (cwd : commentWithDepth) :
    (assignStep stack cwd).1 =
      if cwd.comment.ID ≠ [] then
        clearDeeper (fun d => if d = cwd.depth then some cwd.comment.ID else stack d)
          cwd.depth
      else stack := by
  unfold assignStep
  by_cases hp : 0 < cwd.depth ∧ cwd.comment.ParentID = []
  · simp [hp]
  · simp [hp]

theorem assignStep_snd (stack : Nat → Option Str) (cwd : commentWithDepth) :
    (assignStep stack cwd).2 =
      if 0 < cwd.depth ∧ cwd.comment.ParentID = [] then
        { cwd.comment with ParentID := searchDown stack (cwd.depth - 1) }
      else cwd.comment := by
  unfold assignStep
  by_cases hp : 0 < cwd.depth ∧ cwd.comment.ParentID = []
  · simp [hp]
  · simp [hp]

theorem assignGo_append (stack : Nat → Option Str) (l1 l2 : List commentWithDepth) :
    assignGo stack (l1 ++ l2) = assignGo stack l1 ++ assignGo (stackAfter stack l1) l2 := by
  induction l1 generalizing stack with
  | nil => rfl
  | cons cwd rest ih => simp [assignGo, stackAfter, ih]

theorem assignGo_depth0 (stack : Nat → Option Str) (l : List commentWithDepth)
    (h : ∀ cwd ∈ l, cwd.depth = 0) :
    assignGo stack l = l.map (fun cwd => cwd.comment) := by
  induction l generalizing stack with
  | nil => rfl
  | cons cwd rest ih =>
      have h0 : cwd.depth = 0 := h cwd (List.mem_cons_self cwd rest)
      simp only [assignGo, List.map_cons]
      have h2 : (assignStep stack cwd).2 = cwd.comment := by
        rw [assignStep_snd]; simp [h0]
      rw [h2, ih _ (fun x hx => h x (List.mem_cons_of_mem cwd hx))]

theorem parseNewCommentLoop_depth0 (fuel : Nat) (s : Str) (cwd : commentWithDepth)
    (h : cwd ∈ parseNewCommentLoop fuel s) :
    cwd.depth = 0 ∧ cwd.comment.ID = [] := by
  induction fuel generalizing s with
  | zero => simp [parseNewCommentLoop] at h
  | succ fuel ih =>
      unfold parseNewCommentLoop at h
      split at h
      · simp at h
      split at h
      · simp at h
      split at h
      · simp at h
      dsimp only at h
      split at h
      · rcases List.mem_cons.mp h with heq | hmem
        · subst heq; exact ⟨rfl, rfl⟩
        · exact ih _ hmem
      · exact ih _ h

/-- The grouping fact behind C6 and C10: `parseComments` resolves the
hierarchy over the marker-based comments and the placeholder-based ones
as two groups (markers first), and the placeholder-based comments pass
through `assignParentIDs` unchanged. -/
theorem parseComments_grouped (content : Str) :
    parseComments content =
      assignParentIDs (parseMarkerComments content) ++
        (parseNewCommentMarkers content (parseMarkerComments content)).map
          (fun cwd => cwd.comment) := by
  unfold parseComments assignParentIDs
  rw [assignGo_append]
  congr 1
  exact assignGo_depth0 _ _
    (fun cwd hc => (parseNewCommentLoop_depth0 _ _ _ hc).1)

/-- C6 (amended).  The two comment sources are not interleaved by text
position: `parseComments` first resolves hierarchy over all marker-based
(existing) comments in stream order and appends all placeholder-based
(new) comments afterwards, also in stream order; the recorded `position`
field is never used for sorting.  Because the placeholder-based comments
are pinned to depth 0 and never carry an ID, this grouping leaves every
parent assignment unchanged with respect to the claimed interleaving. -/
theorem c6_grouped_not_interleaved (content : Str) :
    parseComments content =
      assignParentIDs (parseMarkerComments content) ++
        (parseNewCommentMarkers content (parseMarkerComments content)).map
          (fun cwd => cwd.comment) :=
  parseComments_grouped content

set_option maxRecDepth 20000 in
/-- Counterexample to C6 as stated: in this input the new-comment
placeholder (body `NEW`) occurs at position 0, strictly before the
marker comment `A` (body `OLD`), yet the parsed list has the marker
comment first — the sources are processed grouped by structure type,
not merged by position in the original text. -/
theorem c6_counterexample :
    GoStrings.strIndex
      (lit "<!-- gh-md:new-comment -->\nNEW\n<!-- /gh-md:new-comment -->\n<!-- gh-md:comment\nid: A\nauthor: a\ncreated: t\n-->\n### @a (d)\n\nOLD\n<!-- /gh-md:comment -->\n")
      newCommentOpen = some 0 ∧
    (parseComments
      (lit "<!-- gh-md:new-comment -->\nNEW\n<!-- /gh-md:new-comment -->\n<!-- gh-md:comment\nid: A\nauthor: a\ncreated: t\n-->\n### @a (d)\n\nOLD\n<!-- /gh-md:comment -->\n")).map
        (fun c => (c.ID, c.Body)) =
      [(lit "A", lit "OLD"), ([], lit "NEW")] := by
  constructor
  · decide
  · decide

end parser

namespace parser

theorem stackAfter_high (l : List commentWithDepth) :
    ∀ (stack : Nat → Option Str), (∀ d, 10 ≤ d → stack d = none) →
    (∀ x ∈ l, x.depth < 10) → ∀ d, 10 ≤ d → stackAfter stack l d = none := by
  induction l with
  | nil => intro stack hstack _ d hd; exact hstack d hd
  | cons cwd rest ih =>
      intro stack hstack hl d hd
      apply ih _ _ (fun x hx => hl x (List.mem_cons_of_mem cwd hx)) d hd
      intro e he
      rw [assignStep_fst]
      by_cases hcid : cwd.comment.ID ≠ []
      · rw [if_pos hcid]
        unfold clearDeeper
        have hdep : cwd.depth < 10 := hl cwd (List.mem_cons_self cwd rest)
        have hcond : ¬(cwd.depth + 1 ≤ e ∧ e < 10) := by omega
        have hne : ¬(e = cwd.depth) := by omega
        simp [hcond, hne, hstack e he]
      · rw [if_neg hcid]
        exact hstack e he

/-- C7 (amended).  Depth-table maintenance, for inputs whose
indentation depths all lie below 10 (the source's clearing loop runs
only over depths `d+1 .. 9`): whenever a comment with a non-empty ID is
processed at depth `d`, the table afterwards maps `d` to that ID and
every strictly greater depth to nothing, so no later comment can adopt
as inferred parent an ID recorded at a greater depth before this step. -/
theorem c7_depth_table (pre post : List commentWithDepth) (cwd : commentWithDepth)
    (hdepths : ∀ x ∈ pre ++ cwd :: post, x.depth < 10)
    (hid : cwd.comment.ID ≠ []) :
    stackAfter emptyStack (pre ++ [cwd]) cwd.depth = some cwd.comment.ID ∧
    (∀ e, cwd.depth < e → stackAfter emptyStack (pre ++ [cwd]) e = none) := by
  have hpre : ∀ x ∈ pre, x.depth < 10 := fun x hx =>
    hdepths x (List.mem_append_left _ hx)
  have hHigh : ∀ d, 10 ≤ d → stackAfter emptyStack pre d = none :=
    stackAfter_high pre emptyStack (fun _ _ => rfl) hpre
  have hstep : stackAfter emptyStack (pre ++ [cwd]) =
      (assignStep (stackAfter emptyStack pre) cwd).1 := by
    rw [stackAfter_append]; rfl
  rw [hstep, assignStep_fst, if_pos hid]
  have hd : cwd.depth < 10 :=
    hdepths cwd (List.mem_append_right _ (List.mem_cons_self _ _))
  constructor
  · unfold clearDeeper
    have hcond : ¬(cwd.depth + 1 ≤ cwd.depth ∧ cwd.depth < 10) := by omega
    simp [hcond]
  · intro e he
    unfold clearDeeper
    by_cases h10 : e < 10
    · have hcond : cwd.depth + 1 ≤ e ∧ e < 10 := ⟨by omega, h10⟩
      simp [hcond]
    · have hcond : ¬(cwd.depth + 1 ≤ e ∧ e < 10) := by omega
      have hne : ¬(e = cwd.depth) := by omega
      simp [hcond, hne, hHigh e (by omega)]

/-- Witness for the amended C7 at a concrete input: after a comment at
depth 1 (preceded by one at depth 2), the slot at depth 1 holds its ID
and every deeper slot is empty. -/
theorem c7_depth_table_witness :
    (∀ x ∈ [(⟨⟨lit "A", lit "a", lit "b", []⟩, 2, 0⟩ : commentWithDepth)] ++
        (⟨⟨lit "B", lit "b", lit "c", []⟩, 1, 1⟩ : commentWithDepth) :: [],
      x.depth < 10) ∧
    (stackAfter emptyStack
        ([(⟨⟨lit "A", lit "a", lit "b", []⟩, 2, 0⟩ : commentWithDepth)] ++
          [(⟨⟨lit "B", lit "b", lit "c", []⟩, 1, 1⟩ : commentWithDepth)])
        (⟨⟨lit "B", lit "b", lit "c", []⟩, 1, 1⟩ : commentWithDepth).depth =
      some (lit "B") ∧
    (∀ e, (⟨⟨lit "B", lit "b", lit "c", []⟩, 1, 1⟩ : commentWithDepth).depth < e →
      stackAfter emptyStack
          ([(⟨⟨lit "A", lit "a", lit "b", []⟩, 2, 0⟩ : commentWithDepth)] ++
            [(⟨⟨lit "B", lit "b", lit "c", []⟩, 1, 1⟩ : commentWithDepth)]) e = none)) :=
  ⟨by decide,
   c7_depth_table [⟨⟨lit "A", lit "a", lit "b", []⟩, 2, 0⟩] []
     ⟨⟨lit "B", lit "b", lit "c", []⟩, 1, 1⟩ (by decide) (by decide)⟩

set_option maxRecDepth 40000 in
/-- Counterexample to C7 as stated: with comments `A` at depth 10, `B`
at depth 0 and `C` at depth 11 (20, 0 and 22 leading spaces), the
clearing loop that runs when `B` is processed stops at depth 9, so the
slot at depth 10 still holds `A`; `C` then adopts `A` — an ID recorded
at a depth greater than 0 before `B`'s step — as inferred parent, where
the claim (all deeper slots cleared, for all depths) would force `C`'s
parent to be `B`. -/
theorem c7_counterexample :
    (parseComments
      (lit "                    <!-- gh-md:comment\nid: A\nauthor: a\ncreated: t\n-->\n### @a (d)\n\nbodyA\n<!-- /gh-md:comment -->\n<!-- gh-md:comment\nid: B\nauthor: b\ncreated: t\n-->\n### @b (d)\n\nbodyB\n<!-- /gh-md:comment -->\n                      <!-- gh-md:comment\nid: C\nauthor: c\ncreated: t\n-->\n### @c (d)\n\nbodyC\n<!-- /gh-md:comment -->\n")).map
        (fun c => (c.ID, c.ParentID)) =
      [(lit "A", []), (lit "B", []), (lit "C", lit "A")] := by
  decide

/-- C10.  New-comment parent assignment is explicit-only: every comment
parsed from a new-comment placeholder is recorded at depth 0 with an
empty ID (whatever the placeholder's leading whitespace), and the
placeholder-derived comments appear in the `parseComments` output with
exactly the `ParentID` scanned from their opening tag — hierarchy
resolution changes none of them. -/
theorem c10_new_comment_parent_explicit_only (content : Str) :
    (∀ cwd ∈ parseNewCommentMarkers content (parseMarkerComments content),
      cwd.depth = 0 ∧ cwd.comment.ID = []) ∧
    (parseComments content).drop
        (assignParentIDs (parseMarkerComments content)).length =
      (parseNewCommentMarkers content (parseMarkerComments content)).map
        (fun cwd => cwd.comment) := by
  constructor
  · intro cwd hc
    exact parseNewCommentLoop_depth0 _ _ _ hc
  · rw [parseComments_grouped]
    exact List.drop_left _ _

set_option maxRecDepth 40000 in
/-- Witness for C10 at a concrete input: a placeholder indented by two
spaces carrying `reply_to: X` yields a comment at depth 0 with
`ParentID = "X"`. -/
theorem c10_new_comment_parent_explicit_only_witness :
    (⟨⟨[], [], lit "R", lit "X"⟩, 0, 2000⟩ : commentWithDepth) ∈
      parseNewCommentMarkers
        (lit "  <!-- gh-md:new-comment reply_to: X -->\n  R\n  <!-- /gh-md:new-comment -->\n")
        (parseMarkerComments
          (lit "  <!-- gh-md:new-comment reply_to: X -->\n  R\n  <!-- /gh-md:new-comment -->\n")) ∧
    ((⟨⟨[], [], lit "R", lit "X"⟩, 0, 2000⟩ : commentWithDepth).depth = 0 ∧
      (⟨⟨[], [], lit "R", lit "X"⟩, 0, 2000⟩ : commentWithDepth).comment.ID = []) :=
  ⟨by decide,
   (c10_new_comment_parent_explicit_only
     (lit "  <!-- gh-md:new-comment reply_to: X -->\n  R\n  <!-- /gh-md:new-comment -->\n")).1
     _ (by decide)⟩

end parser

/-! ## Counting occurrences; well-formedness predicates -/

namespace GoStrings

theorem countOccur_cons (c : Char) (t pat : Str) :
    countOccur (c :: t) pat =
      (if pat.isPrefixOf (c :: t) then 1 else 0) + countOccur t pat := rfl

theorem countOccur_append_clean {pat a b : Str} (h : cleanBefore pat a b) :
    countOccur (a ++ b) pat = countOccur b pat := by
  induction a with
  | nil => simp
  | cons c a' ih =>
      have h0 : ¬ pat.isPrefixOf (c :: (a' ++ b)) := by simpa using h 0 (by simp)
      have hcb : cleanBefore pat a' b := by
        intro i hi
        have := h (i + 1) (by simp; omega)
        simpa using this
      rw [List.cons_append, countOccur_cons, if_neg h0, ih hcb]
      omega

theorem countOccur_eq_zero {pat s : Str} (h : cleanAll pat s) (_hpat : pat ≠ []) :
    countOccur s pat = 0 := by
  induction s with
  | nil =>
      unfold countOccur
      have h0 : ¬ pat.isPrefixOf ([] : Str) := by simpa using h 0
      simp [h0]
  | cons c t ih =>
      have h0 : ¬ pat.isPrefixOf (c :: t) := by simpa using h 0
      have ht : cleanAll pat t := fun i => by simpa using h (i + 1)
      rw [countOccur_cons, if_neg h0, ih ht]

theorem countOccur_block {pat a b : Str} (hpre : pat.isPrefixOf (a ++ b))
    (hclean : cleanBefore pat (a.drop 1) b) (ha : a ≠ []) :
    countOccur (a ++ b) pat = 1 + countOccur b pat := by
  cases a with
  | nil => exact absurd rfl ha
  | cons c t =>
      rw [List.cons_append, countOccur_cons, if_pos (by simpa using hpre)]
      simp only [List.drop_succ_cons, List.drop_zero] at hclean
      rw [countOccur_append_clean hclean]

theorem strIndex_none_cleanAll {pat s : Str} (h : strIndex s pat = none) :
    cleanAll pat s := by
  induction s with
  | nil =>
      intro i hpre
      rw [List.drop_nil] at hpre
      rw [strIndex_of_isPrefixOf (by simpa using hpre)] at h
      simp at h
  | cons c t ih =>
      by_cases hp : pat.isPrefixOf (c :: t)
      · rw [strIndex_of_isPrefixOf hp] at h; simp at h
      · rw [strIndex_cons_neg hp] at h
        have ht : strIndex t pat = none := by
          cases hidx : strIndex t pat with
          | none => rfl
          | some j => rw [hidx] at h; simp at h
        intro i
        cases i with
        | zero => simpa using hp
        | succ i => simpa using ih ht i

theorem containsStr_of_decomp {pat a b s : Str} (h : s = a ++ pat ++ b) :
    containsStr s pat = true := by
  unfold containsStr
  cases hidx : strIndex s pat with
  | some j => rfl
  | none =>
      have hall := strIndex_none_cleanAll hidx
      exfalso
      rcases Nat.eq_zero_or_pos pat.length with hp0 | hppos
      · have : pat = [] := List.eq_nil_of_length_eq_zero hp0
        exact hall 0 (by simp [this])
      · have hocc : pat.isPrefixOf (s.drop a.length) := by
          rw [h, List.append_assoc]
          rw [List.drop_append_eq_append_drop]
          simp only [List.drop_length, Nat.sub_self, List.drop_zero, List.nil_append]
          exact List.isPrefixOf_iff_prefix.mpr (List.prefix_append pat b)
        exact hall a.length hocc

end GoStrings

namespace writer

open GoStrings github

/-- A plain single-line scalar value: no `<`, no newline, stable under
trimming, and free of the `-->` delimiter. -/
def valWFb (s : Str) : Bool :=
  decide ('<' ∉ s) && decide ('\n' ∉ s) && decide (trimSpace s = s) &&
    !(containsStr s (lit "-->"))

/-- Well-formed time rendering. -/
def timeWFb (t : GoTime) : Bool := valWFb t.rfc3339 && valWFb t.day

/-- A body that cannot collide with any sentinel: it contains no `<`. -/
def bodyWFb (s : Str) : Bool := decide ('<' ∉ s)

mutual

/-- Well-formed discussion comment tree: non-empty plain ids, plain
authors and times, `<`-free bodies, recursively. -/
def dcWFb : DiscussionComment → Bool
  | .mk id author _body created replies =>
    valWFb id && !id.isEmpty && valWFb author && timeWFb created &&
      bodyWFb _body && dcsWFb replies

/-- Well-formedness of a discussion comment forest. -/
def dcsWFb : List DiscussionComment → Bool
  | [] => true
  | c :: rest => dcWFb c && dcsWFb rest

end

/-- Well-formed flat comment. -/
def commentWFb (c : Comment) : Bool :=
  valWFb c.ID && !c.ID.isEmpty && valWFb c.Author && timeWFb c.CreatedAt &&
    bodyWFb c.Body

/-- Well-formed review comment. -/
def reviewCommentWFb (c : ReviewComment) : Bool :=
  valWFb c.ID && !c.ID.isEmpty && valWFb c.Author && timeWFb c.CreatedAt &&
    bodyWFb c.Body

/-- Well-formed review thread. -/
def reviewThreadWFb (t : ReviewThread) : Bool :=
  valWFb t.ID && !t.ID.isEmpty && valWFb t.Path && valWFb t.Line &&
    t.Comments.all reviewCommentWFb

/-- Well-formed discussion document. -/
def discussionWFb (d : Discussion) : Bool :=
  valWFb d.ID && valWFb d.URL && valWFb d.Number && valWFb d.Owner &&
    valWFb d.Repo && valWFb d.Title && !d.Title.isEmpty && valWFb d.Category &&
    valWFb d.Author && valWFb d.AnswerID && timeWFb d.CreatedAt &&
    timeWFb d.UpdatedAt && bodyWFb d.Body && dcsWFb d.Comments

/-- Well-formed issue document. -/
def issueWFb (i : Issue) : Bool :=
  valWFb i.ID && valWFb i.URL && valWFb i.Number && valWFb i.Owner &&
    valWFb i.Repo && valWFb i.Title && !i.Title.isEmpty && valWFb i.State &&
    valWFb i.Author && timeWFb i.CreatedAt && timeWFb i.UpdatedAt &&
    bodyWFb i.Body && i.Comments.all commentWFb

/-- Well-formed pull request document. -/
def pullRequestWFb (pr : PullRequest) : Bool :=
  valWFb pr.ID && valWFb pr.URL && valWFb pr.Number && valWFb pr.Owner &&
    valWFb pr.Repo && valWFb pr.Title && !pr.Title.isEmpty && valWFb pr.State &&
    valWFb pr.Author && valWFb pr.HeadRef && valWFb pr.BaseRef &&
    valWFb pr.MergeCommit && timeWFb pr.CreatedAt && timeWFb pr.UpdatedAt &&
    (match pr.MergedAt with | some t => timeWFb t | none => true) &&
    bodyWFb pr.Body && pr.Comments.all commentWFb &&
    pr.ReviewThreads.all reviewThreadWFb

mutual

/-- Total number of comments in a discussion comment tree. -/
def sizeDC : DiscussionComment → Nat
  | .mk _ _ _ _ replies => 1 + sizeDCs replies

/-- Total number of comments in a discussion comment forest. -/
def sizeDCs : List DiscussionComment → Nat
  | [] => 0
  | c :: rest => sizeDC c + sizeDCs rest

end

end writer

/-! ## Placeholder counting (claim C5) -/

namespace writer

open GoStrings parser github

theorem newCommentOpen_head : newCommentOpen = '<' :: lit "!-- gh-md:new-comment" := rfl

theorem noLT_of_valWFb {s : Str} (h : valWFb s = true) : '<' ∉ s := by
  unfold valWFb at h
  simp only [Bool.and_eq_true, decide_eq_true_eq] at h
  exact h.1.1.1

theorem noLT_of_bodyWFb {s : Str} (h : bodyWFb s = true) : '<' ∉ s := by
  unfold bodyWFb at h
  simpa using h

theorem noLT_append {a b : Str} (ha : '<' ∉ a) (hb : '<' ∉ b) : '<' ∉ a ++ b := by
  intro h
  rcases List.mem_append.mp h with h | h
  · exact ha h
  · exact hb h

theorem noLT_ite {c : Prop} [Decidable c] {a b : Str} (ha : '<' ∉ a) (hb : '<' ∉ b) :
    '<' ∉ (if c then a else b) := by
  split <;> assumption

theorem noLT_yamlLine {key v : Str} (hk : '<' ∉ key) (hv : '<' ∉ v) :
    '<' ∉ yamlLine key v := by
  unfold yamlLine
  exact noLT_append (noLT_append (noLT_append hk (by decide)) hv) (by decide)

theorem noLT_DiscussionFrontmatterText {d : Discussion} {now : GoTime}
    (hd : discussionWFb d = true) (hn : timeWFb now = true) :
    '<' ∉ DiscussionFrontmatterText d now := by
  unfold discussionWFb at hd
  simp only [Bool.and_eq_true] at hd
  obtain ⟨⟨⟨⟨⟨⟨⟨⟨⟨⟨⟨⟨⟨hID, hURL⟩, hNum⟩, hOwn⟩, hRepo⟩, hTitle⟩, hTne⟩, hCat⟩,
    hAuth⟩, hAns⟩, hCr⟩, hUp⟩, hBody⟩, hCs⟩ := hd
  unfold timeWFb at hCr hUp hn
  simp only [Bool.and_eq_true] at hCr hUp hn
  unfold DiscussionFrontmatterText
  refine noLT_append ?_ (noLT_yamlLine (by decide) (noLT_of_valWFb hn.1))
  refine noLT_append ?_ (noLT_yamlLine (by decide) (noLT_of_valWFb hUp.1))
  refine noLT_append ?_ (noLT_yamlLine (by decide) (noLT_of_valWFb hCr.1))
  refine noLT_append ?_ (noLT_ite (noLT_yamlLine (by decide) (by decide)) (by decide))
  refine noLT_append ?_ (noLT_ite (noLT_yamlLine (by decide) (noLT_of_valWFb hAns)) (by decide))
  refine noLT_append ?_ (noLT_yamlLine (by decide) (noLT_of_valWFb hAuth))
  refine noLT_append ?_ (noLT_yamlLine (by decide) (noLT_of_valWFb hCat))
  refine noLT_append ?_ (noLT_yamlLine (by decide) (noLT_of_valWFb hTitle))
  refine noLT_append ?_ (noLT_yamlLine (by decide) (noLT_of_valWFb hRepo))
  refine noLT_append ?_ (noLT_yamlLine (by decide) (noLT_of_valWFb hOwn))
  refine noLT_append ?_ (noLT_yamlLine (by decide) (noLT_of_valWFb hNum))
  refine noLT_append ?_ (noLT_yamlLine (by decide) (noLT_of_valWFb hURL))
  exact noLT_yamlLine (by decide) (noLT_of_valWFb hID)

theorem noLT_IssueFrontmatterText {i : Issue} {now : GoTime}
    (hi : issueWFb i = true) (hn : timeWFb now = true) :
    '<' ∉ IssueFrontmatterText i now := by
  unfold issueWFb at hi
  simp only [Bool.and_eq_true] at hi
  obtain ⟨⟨⟨⟨⟨⟨⟨⟨⟨⟨⟨⟨hID, hURL⟩, hNum⟩, hOwn⟩, hRepo⟩, hTitle⟩, hTne⟩, hState⟩,
    hAuth⟩, hCr⟩, hUp⟩, hBody⟩, hCs⟩ := hi
  unfold timeWFb at hCr hUp hn
  simp only [Bool.and_eq_true] at hCr hUp hn
  unfold IssueFrontmatterText
  refine noLT_append ?_ (noLT_yamlLine (by decide) (noLT_of_valWFb hn.1))
  refine noLT_append ?_ (noLT_yamlLine (by decide) (noLT_of_valWFb hUp.1))
  refine noLT_append ?_ (noLT_yamlLine (by decide) (noLT_of_valWFb hCr.1))
  refine noLT_append ?_ (noLT_ite (noLT_yamlLine (by decide) (noLT_of_valWFb hAuth)) (by decide))
  refine noLT_append ?_ (noLT_yamlLine (by decide) (noLT_of_valWFb hState))
  refine noLT_append ?_ (noLT_yamlLine (by decide) (noLT_of_valWFb hTitle))
  refine noLT_append ?_ (noLT_yamlLine (by decide) (noLT_of_valWFb hRepo))
  refine noLT_append ?_ (noLT_yamlLine (by decide) (noLT_of_valWFb hOwn))
  refine noLT_append ?_ (noLT_yamlLine (by decide) (noLT_of_valWFb hNum))
  refine noLT_append ?_ (noLT_yamlLine (by decide) (noLT_of_valWFb hURL))
  exact noLT_yamlLine (by decide) (noLT_of_valWFb hID)

theorem noLT_PullRequestFrontmatterText {pr : PullRequest} {now : GoTime}
    (hpr : pullRequestWFb pr = true) (hn : timeWFb now = true) :
    '<' ∉ PullRequestFrontmatterText pr now := by
  unfold pullRequestWFb at hpr
  simp only [Bool.and_eq_true] at hpr
  obtain ⟨⟨⟨⟨⟨⟨⟨⟨⟨⟨⟨⟨⟨⟨⟨⟨⟨hID, hURL⟩, hNum⟩, hOwn⟩, hRepo⟩, hTitle⟩, hTne⟩, hState⟩,
    hAuth⟩, hHead⟩, hBase⟩, hMC⟩, hCr⟩, hUp⟩, hMA⟩, hBody⟩, hCs⟩, hTs⟩ := hpr
  unfold timeWFb at hCr hUp hn
  simp only [Bool.and_eq_true] at hCr hUp hn
  unfold PullRequestFrontmatterText
  refine noLT_append ?_ (noLT_yamlLine (by decide) (noLT_of_valWFb hn.1))
  refine noLT_append ?_ ?_
  swap
  · cases hma : pr.MergedAt with
    | none => simp
    | some t =>
        rw [hma] at hMA
        unfold timeWFb at hMA
        simp only [Bool.and_eq_true] at hMA
        exact noLT_yamlLine (by decide) (noLT_of_valWFb hMA.1)
  refine noLT_append ?_ (noLT_yamlLine (by decide) (noLT_of_valWFb hUp.1))
  refine noLT_append ?_ (noLT_yamlLine (by decide) (noLT_of_valWFb hCr.1))
  refine noLT_append ?_ (noLT_ite (noLT_yamlLine (by decide) (noLT_of_valWFb hMC)) (by decide))
  refine noLT_append ?_ (noLT_yamlLine (by decide) (noLT_of_valWFb hBase))
  refine noLT_append ?_ (noLT_yamlLine (by decide) (noLT_of_valWFb hHead))
  refine noLT_append ?_ (noLT_ite (noLT_yamlLine (by decide) (by decide)) (by decide))
  refine noLT_append ?_ (noLT_ite (noLT_yamlLine (by decide) (noLT_of_valWFb hAuth)) (by decide))
  refine noLT_append ?_ (noLT_yamlLine (by decide) (noLT_of_valWFb hState))
  refine noLT_append ?_ (noLT_yamlLine (by decide) (noLT_of_valWFb hTitle))
  refine noLT_append ?_ (noLT_yamlLine (by decide) (noLT_of_valWFb hRepo))
  refine noLT_append ?_ (noLT_yamlLine (by decide) (noLT_of_valWFb hOwn))
  refine noLT_append ?_ (noLT_yamlLine (by decide) (noLT_of_valWFb hNum))
  refine noLT_append ?_ (noLT_yamlLine (by decide) (noLT_of_valWFb hURL))
  exact noLT_yamlLine (by decide) (noLT_of_valWFb hID)

end writer

namespace writer

open GoStrings parser github

theorem isPrefixOf_append_left {pat a : Str} (b : Str) (h : pat.isPrefixOf a) :
    pat.isPrefixOf (a ++ b) := by
  rw [List.isPrefixOf_iff_prefix] at h ⊢
  exact h.trans (List.prefix_append a b)

/-- Skip a literal piece free of new-comment openings. -/
theorem cO_skip_lit (L : Str) (hL : litClean newCommentOpen L = true) (b : Str) :
    countOccur (L ++ b) newCommentOpen = countOccur b newCommentOpen :=
  countOccur_append_clean (cleanBefore_of_litClean hL b)

/-- Skip an abstract `<`-free piece. -/
theorem cO_skip_val (v : Str) (hv : '<' ∉ v) (b : Str) :
    countOccur (v ++ b) newCommentOpen = countOccur b newCommentOpen :=
  countOccur_append_clean (cleanBefore_of_headNotMem newCommentOpen_head hv)

/-- A reply placeholder contributes exactly one new-comment opening. -/
theorem cO_ph (replyTo : Str) (hr : '<' ∉ replyTo) (b : Str) :
    countOccur
      (lit "<!-- gh-md:new-comment reply_to: " ++
        (replyTo ++ (lit " -->\n\n<!-- /gh-md:new-comment -->\n\n" ++ b)))
      newCommentOpen = 1 + countOccur b newCommentOpen := by
  rw [show lit "<!-- gh-md:new-comment reply_to: " ++
      (replyTo ++ (lit " -->\n\n<!-- /gh-md:new-comment -->\n\n" ++ b)) =
      lit "<!-- gh-md:new-comment reply_to: " ++
      (replyTo ++ (lit " -->\n\n<!-- /gh-md:new-comment -->\n\n" ++ b)) from rfl]
  rw [countOccur_block (isPrefixOf_append_left _ (by decide))
    (cleanBefore_of_litClean (by decide) _) (by decide)]
  rw [cO_skip_val replyTo hr, cO_skip_lit (lit " -->\n\n<!-- /gh-md:new-comment -->\n\n") (by decide)]

/-- The trailing top-level placeholder of `finishMarkdown` is exactly one
opening. -/
theorem cO_trail :
    countOccur (lit "\n<!-- gh-md:new-comment -->\n\n<!-- /gh-md:new-comment -->\n")
      newCommentOpen = 1 := by decide

/-- The frontmatter-and-content prefix contributes no opening. -/
theorem cO_buildMarkdown (fmText title body rest : Str) (hfm : '<' ∉ fmText)
    (ht : '<' ∉ title) (hb : '<' ∉ body) :
    countOccur (buildMarkdownWithFrontmatter fmText title body ++ rest) newCommentOpen =
      countOccur rest newCommentOpen := by
  unfold buildMarkdownWithFrontmatter
  simp only [List.append_assoc]
  rw [cO_skip_lit (lit "---\n") (by decide), cO_skip_val fmText hfm,
    cO_skip_lit (lit "---\n\n") (by decide),
    cO_skip_lit (lit "<!-- gh-md:content -->\n# ") (by decide),
    cO_skip_val title ht, cO_skip_lit (lit "\n\n") (by decide), cO_skip_val body hb,
    cO_skip_lit (lit "\n<!-- /gh-md:content -->\n") (by decide)]

set_option maxHeartbeats 2000000 in
/-- Normal form of a flat comment block (the `writeCommentHeader` and
`writeCommentBody` literals merged). -/
theorem writeComment_eq (c : Comment) :
    writeComment c =
      lit "<!-- gh-md:comment\nid: " ++ c.ID ++ lit "\nauthor: " ++ c.Author ++
      lit "\ncreated: " ++ c.CreatedAt.rfc3339 ++ lit "\n-->\n### @" ++ c.Author ++
      lit " (" ++ c.CreatedAt.day ++ lit ")\n\n" ++ c.Body ++
      lit "\n<!-- /gh-md:comment -->\n\n" := by
  unfold writeComment writeCommentHeader writeCommentBody
  simp only [List.append_assoc]
  rfl

/-- A flat comment block contributes no opening. -/
theorem cO_writeComment (c : Comment) (rest : Str) (hc : commentWFb c = true) :
    countOccur (writeComment c ++ rest) newCommentOpen = countOccur rest newCommentOpen := by
  unfold commentWFb at hc
  simp only [Bool.and_eq_true] at hc
  obtain ⟨⟨⟨⟨hid, hidne⟩, hauthor⟩, hcreated⟩, hbody⟩ := hc
  unfold timeWFb at hcreated
  simp only [Bool.and_eq_true] at hcreated
  rw [writeComment_eq]
  simp only [List.append_assoc]
  rw [cO_skip_lit (lit "<!-- gh-md:comment\nid: ") (by decide),
    cO_skip_val c.ID (noLT_of_valWFb hid),
    cO_skip_lit (lit "\nauthor: ") (by decide),
    cO_skip_val c.Author (noLT_of_valWFb hauthor),
    cO_skip_lit (lit "\ncreated: ") (by decide),
    cO_skip_val c.CreatedAt.rfc3339 (noLT_of_valWFb hcreated.1),
    cO_skip_lit (lit "\n-->\n### @") (by decide),
    cO_skip_val c.Author (noLT_of_valWFb hauthor),
    cO_skip_lit (lit " (") (by decide),
    cO_skip_val c.CreatedAt.day (noLT_of_valWFb hcreated.2),
    cO_skip_lit (lit ")\n\n") (by decide),
    cO_skip_val c.Body (noLT_of_bodyWFb hbody),
    cO_skip_lit (lit "\n<!-- /gh-md:comment -->\n\n") (by decide)]

theorem cO_writeComments (cs : List Comment) (rest : Str) (hcs : cs.all commentWFb = true) :
    countOccur ((cs.map writeComment).flatten ++ rest) newCommentOpen =
      countOccur rest newCommentOpen := by
  induction cs with
  | nil => simp
  | cons c cs ih =>
      simp only [List.all_cons, Bool.and_eq_true] at hcs
      simp only [List.map_cons, List.flatten_cons, List.append_assoc]
      rw [cO_writeComment c _ hcs.1, ih hcs.2]

end writer

namespace writer

open GoStrings parser github

theorem cO_skip_ite {c : Prop} [Decidable c] (a b : Str) (ha : '<' ∉ a) (hb : '<' ∉ b)
    (r : Str) :
    countOccur ((if c then a else b) ++ r) newCommentOpen = countOccur r newCommentOpen := by
  split
  · exact cO_skip_val a ha r
  · exact cO_skip_val b hb r

mutual

theorem cO_writeDiscussionComment (c : DiscussionComment) (parentID rest : Str)
    (hc : dcWFb c = true) (hp : '<' ∉ parentID) :
    countOccur (writeDiscussionComment c parentID ++ rest) newCommentOpen =
      sizeDC c + countOccur rest newCommentOpen := by
  cases c with
  | mk cid cauthor cbody ccreated creplies =>
      unfold dcWFb at hc
      simp only [Bool.and_eq_true] at hc
      obtain ⟨⟨⟨⟨⟨hid, hidne⟩, hauthor⟩, hcreated⟩, hbody⟩, hreplies⟩ := hc
      unfold timeWFb at hcreated
      simp only [Bool.and_eq_true] at hcreated
      rw [writeDiscussionComment]
      simp only [List.append_assoc]
      rw [cO_skip_lit (lit "<!-- gh-md:comment\n") (by decide),
        cO_skip_lit (lit "id: ") (by decide),
        cO_skip_val cid (noLT_of_valWFb hid),
        cO_skip_lit (lit "\n") (by decide),
        cO_skip_lit (lit "author: ") (by decide),
        cO_skip_val cauthor (noLT_of_valWFb hauthor),
        cO_skip_lit (lit "\n") (by decide)]
      by_cases hpid : parentID ≠ []
      · rw [if_pos hpid, if_pos hpid]
        simp only [List.append_assoc]
        rw [cO_skip_lit (lit "parent: ") (by decide), cO_skip_val parentID hp,
          cO_skip_lit (lit "\n") (by decide),
          cO_skip_lit (lit "created: ") (by decide),
          cO_skip_val ccreated.rfc3339 (noLT_of_valWFb hcreated.1),
          cO_skip_lit (lit "\n") (by decide), cO_skip_lit (lit "-->\n") (by decide),
          cO_skip_lit (lit "####") (by decide), cO_skip_lit (lit " @") (by decide),
          cO_skip_val cauthor (noLT_of_valWFb hauthor),
          cO_skip_lit (lit " (") (by decide),
          cO_skip_val ccreated.day (noLT_of_valWFb hcreated.2),
          cO_skip_lit (lit ")\n\n") (by decide),
          cO_skip_val cbody (noLT_of_bodyWFb hbody),
          cO_skip_lit (lit "\n<!-- /gh-md:comment -->\n\n") (by decide),
          cO_ph cid (noLT_of_valWFb hid) _,
          cO_writeDiscussionComments creplies cid rest hreplies (noLT_of_valWFb hid)]
        simp only [sizeDC]
        omega
      · rw [if_neg hpid, if_neg hpid]
        simp only [List.nil_append, List.append_assoc]
        rw [cO_skip_lit (lit "created: ") (by decide),
          cO_skip_val ccreated.rfc3339 (noLT_of_valWFb hcreated.1),
          cO_skip_lit (lit "\n") (by decide), cO_skip_lit (lit "-->\n") (by decide),
          cO_skip_lit (lit "###") (by decide), cO_skip_lit (lit " @") (by decide),
          cO_skip_val cauthor (noLT_of_valWFb hauthor),
          cO_skip_lit (lit " (") (by decide),
          cO_skip_val ccreated.day (noLT_of_valWFb hcreated.2),
          cO_skip_lit (lit ")\n\n") (by decide),
          cO_skip_val cbody (noLT_of_bodyWFb hbody),
          cO_skip_lit (lit "\n<!-- /gh-md:comment -->\n\n") (by decide),
          cO_ph cid (noLT_of_valWFb hid) _,
          cO_writeDiscussionComments creplies cid rest hreplies (noLT_of_valWFb hid)]
        simp only [sizeDC]
        omega

theorem cO_writeDiscussionComments (cs : List DiscussionComment) (parentID rest : Str)
    (hcs : dcsWFb cs = true) (hp : '<' ∉ parentID) :
    countOccur (writeDiscussionComments cs parentID ++ rest) newCommentOpen =
      sizeDCs cs + countOccur rest newCommentOpen := by
  cases cs with
  | nil =>
      rw [writeDiscussionComments]
      simp [sizeDCs]
  | cons c cs =>
      unfold dcsWFb at hcs
      simp only [Bool.and_eq_true] at hcs
      rw [writeDiscussionComments]
      simp only [List.append_assoc]
      rw [cO_writeDiscussionComment c parentID _ hcs.1 hp,
        cO_writeDiscussionComments cs parentID rest hcs.2 hp]
      simp only [sizeDCs]
      omega

end

end writer

namespace writer

open GoStrings parser github

theorem cO_writeReviewComment (c : ReviewComment) (rest : Str)
    (hc : reviewCommentWFb c = true) :
    countOccur (writeReviewComment c ++ rest) newCommentOpen =
      countOccur rest newCommentOpen := by
  unfold reviewCommentWFb at hc
  simp only [Bool.and_eq_true] at hc
  obtain ⟨⟨⟨⟨hid, hidne⟩, hauthor⟩, hcreated⟩, hbody⟩ := hc
  unfold timeWFb at hcreated
  simp only [Bool.and_eq_true] at hcreated
  unfold writeReviewComment
  simp only [List.append_assoc]
  rw [cO_skip_lit (lit "<!-- gh-md:review-comment\n") (by decide),
    cO_skip_lit (lit "id: ") (by decide), cO_skip_val c.ID (noLT_of_valWFb hid),
    cO_skip_lit (lit "\n") (by decide), cO_skip_lit (lit "author: ") (by decide),
    cO_skip_val c.Author (noLT_of_valWFb hauthor),
    cO_skip_lit (lit "\n") (by decide), cO_skip_lit (lit "created: ") (by decide),
    cO_skip_val c.CreatedAt.rfc3339 (noLT_of_valWFb hcreated.1),
    cO_skip_lit (lit "\n") (by decide), cO_skip_lit (lit "-->\n") (by decide),
    cO_skip_lit (lit "#### @") (by decide),
    cO_skip_val c.Author (noLT_of_valWFb hauthor),
    cO_skip_lit (lit " (") (by decide),
    cO_skip_val c.CreatedAt.day (noLT_of_valWFb hcreated.2),
    cO_skip_lit (lit ")\n\n") (by decide),
    cO_skip_val c.Body (noLT_of_bodyWFb hbody),
    cO_skip_lit (lit "\n<!-- /gh-md:review-comment -->\n\n") (by decide)]

theorem cO_writeReviewComments (cs : List ReviewComment) (rest : Str)
    (hcs : cs.all reviewCommentWFb = true) :
    countOccur ((cs.map writeReviewComment).flatten ++ rest) newCommentOpen =
      countOccur rest newCommentOpen := by
  induction cs with
  | nil => simp
  | cons c cs ih =>
      simp only [List.all_cons, Bool.and_eq_true] at hcs
      simp only [List.map_cons, List.flatten_cons, List.append_assoc]
      rw [cO_writeReviewComment c _ hcs.1, ih hcs.2]

theorem cO_writeReviewThread (t : ReviewThread) (rest : Str)
    (ht : reviewThreadWFb t = true) :
    countOccur (writeReviewThread t ++ rest) newCommentOpen =
      1 + countOccur rest newCommentOpen := by
  unfold reviewThreadWFb at ht
  simp only [Bool.and_eq_true] at ht
  obtain ⟨⟨⟨⟨hid, hidne⟩, hpath⟩, hline⟩, hcs⟩ := ht
  unfold writeReviewThread
  simp only [List.append_assoc]
  rw [cO_skip_lit (lit "<!-- gh-md:review-thread\n") (by decide),
    cO_skip_lit (lit "id: ") (by decide), cO_skip_val t.ID (noLT_of_valWFb hid),
    cO_skip_lit (lit "\n") (by decide), cO_skip_lit (lit "path: ") (by decide),
    cO_skip_val t.Path (noLT_of_valWFb hpath),
    cO_skip_lit (lit "\n") (by decide), cO_skip_lit (lit "line: ") (by decide),
    cO_skip_val t.Line (noLT_of_valWFb hline),
    cO_skip_lit (lit "\n") (by decide), cO_skip_lit (lit "-->\n") (by decide),
    cO_skip_lit (lit "### `") (by decide),
    cO_skip_val t.Path (noLT_of_valWFb hpath),
    cO_skip_lit (lit ":") (by decide),
    cO_skip_val t.Line (noLT_of_valWFb hline),
    cO_skip_lit (lit "`") (by decide),
    cO_skip_ite (lit " (resolved)") [] (by decide) (by decide),
    cO_skip_ite (lit " (outdated)") [] (by decide) (by decide),
    cO_skip_lit (lit "\n\n") (by decide),
    cO_writeReviewComments t.Comments _ hcs,
    cO_ph t.ID (noLT_of_valWFb hid) _,
    cO_skip_lit (lit "<!-- /gh-md:review-thread -->\n\n") (by decide)]

theorem cO_writeReviewThreads (ts : List ReviewThread) (rest : Str)
    (hts : ts.all reviewThreadWFb = true) :
    countOccur ((ts.map writeReviewThread).flatten ++ rest) newCommentOpen =
      ts.length + countOccur rest newCommentOpen := by
  induction ts with
  | nil => simp
  | cons t ts ih =>
      simp only [List.all_cons, Bool.and_eq_true] at hts
      simp only [List.map_cons, List.flatten_cons, List.append_assoc]
      rw [cO_writeReviewThread t _ hts.1, ih hts.2]
      simp only [List.length_cons]
      omega

end writer

namespace writer

open GoStrings parser github

/-- The part of a serialized discussussion comment before its reply
placeholder. -/
def discussionCommentBlock (c : DiscussionComment) (parentID : Str) : Str :=
  lit "<!-- gh-md:comment\n" ++ lit "id: " ++ c.ID ++ lit "\n" ++
  lit "author: " ++ c.Author ++ lit "\n" ++
  (if parentID ≠ [] then lit "parent: " ++ parentID ++ lit "\n" else []) ++
  lit "created: " ++ c.CreatedAt.rfc3339 ++ lit "\n" ++ lit "-->\n" ++
  (if parentID ≠ [] then lit "####" else lit "###") ++
  lit " @" ++ c.Author ++ lit " (" ++ c.CreatedAt.day ++ lit ")\n\n" ++
  c.Body ++ lit "\n<!-- /gh-md:comment -->\n\n"

/-- The part of a serialized review thread before its reply
placeholder. -/
def reviewThreadBlock (t : ReviewThread) : Str :=
  lit "<!-- gh-md:review-thread\n" ++ lit "id: " ++ t.ID ++ lit "\n" ++
  lit "path: " ++ t.Path ++ lit "\n" ++ lit "line: " ++ t.Line ++ lit "\n" ++
  lit "-->\n" ++ lit "### `" ++ t.Path ++ lit ":" ++ t.Line ++ lit "`" ++
  (if t.IsResolved then lit " (resolved)" else []) ++
  (if t.IsOutdated then lit " (outdated)" else []) ++ lit "\n\n" ++
  (t.Comments.map writeReviewComment).flatten

theorem writeDiscussionComment_decomp (c : DiscussionComment) (parentID : Str) :
    writeDiscussionComment c parentID =
      discussionCommentBlock c parentID ++
        (lit "<!-- gh-md:new-comment reply_to: " ++ c.ID ++
          lit " -->\n\n<!-- /gh-md:new-comment -->\n\n") ++
        writeDiscussionComments c.Replies c.ID := by
  cases c with
  | mk cid cauthor cbody ccreated creplies =>
      rw [writeDiscussionComment]
      unfold discussionCommentBlock
      simp only [DiscussionComment.ID, DiscussionComment.Author, DiscussionComment.Body,
        DiscussionComment.CreatedAt, DiscussionComment.Replies, List.append_assoc]

theorem writeReviewThread_decomp (t : ReviewThread) :
    writeReviewThread t =
      reviewThreadBlock t ++
        (lit "<!-- gh-md:new-comment reply_to: " ++ t.ID ++
          lit " -->\n\n<!-- /gh-md:new-comment -->\n\n") ++
        lit "<!-- /gh-md:review-thread -->\n\n" := by
  unfold writeReviewThread reviewThreadBlock
  simp only [List.append_assoc]

theorem cO_discussionCommentBlock (c : DiscussionComment) (parentID : Str)
    (hc : dcWFb c = true) (hp : '<' ∉ parentID) :
    countOccur (discussionCommentBlock c parentID) newCommentOpen = 0 := by
  cases c with
  | mk cid cauthor cbody ccreated creplies =>
      unfold dcWFb at hc
      simp only [Bool.and_eq_true] at hc
      obtain ⟨⟨⟨⟨⟨hid, hidne⟩, hauthor⟩, hcreated⟩, hbody⟩, hreplies⟩ := hc
      unfold timeWFb at hcreated
      simp only [Bool.and_eq_true] at hcreated
      rw [← List.append_nil (discussionCommentBlock _ parentID)]
      unfold discussionCommentBlock
      simp only [DiscussionComment.ID, DiscussionComment.Author, DiscussionComment.Body,
        DiscussionComment.CreatedAt, List.append_assoc]
      rw [cO_skip_lit (lit "<!-- gh-md:comment\n") (by decide),
        cO_skip_lit (lit "id: ") (by decide), cO_skip_val cid (noLT_of_valWFb hid),
        cO_skip_lit (lit "\n") (by decide), cO_skip_lit (lit "author: ") (by decide),
        cO_skip_val cauthor (noLT_of_valWFb hauthor),
        cO_skip_lit (lit "\n") (by decide),
        cO_skip_ite (lit "parent: " ++ (parentID ++ lit "\n")) []
          (noLT_append (by decide) (noLT_append hp (by decide))) (by decide),
        cO_skip_lit (lit "created: ") (by decide),
        cO_skip_val ccreated.rfc3339 (noLT_of_valWFb hcreated.1),
        cO_skip_lit (lit "\n") (by decide), cO_skip_lit (lit "-->\n") (by decide),
        cO_skip_ite (lit "####") (lit "###") (by decide) (by decide),
        cO_skip_lit (lit " @") (by decide),
        cO_skip_val cauthor (noLT_of_valWFb hauthor),
        cO_skip_lit (lit " (") (by decide),
        cO_skip_val ccreated.day (noLT_of_valWFb hcreated.2),
        cO_skip_lit (lit ")\n\n") (by decide),
        cO_skip_val cbody (noLT_of_bodyWFb hbody),
        cO_skip_lit (lit "\n<!-- /gh-md:comment -->\n\n") (by decide)]
      decide

theorem cO_reviewThreadBlock (t : ReviewThread) (ht : reviewThreadWFb t = true) :
    countOccur (reviewThreadBlock t) newCommentOpen = 0 := by
  unfold reviewThreadWFb at ht
  simp only [Bool.and_eq_true] at ht
  obtain ⟨⟨⟨⟨hid, hidne⟩, hpath⟩, hline⟩, hcs⟩ := ht
  rw [← List.append_nil (reviewThreadBlock t)]
  unfold reviewThreadBlock
  simp only [List.append_assoc]
  rw [cO_skip_lit (lit "<!-- gh-md:review-thread\n") (by decide),
    cO_skip_lit (lit "id: ") (by decide), cO_skip_val t.ID (noLT_of_valWFb hid),
    cO_skip_lit (lit "\n") (by decide), cO_skip_lit (lit "path: ") (by decide),
    cO_skip_val t.Path (noLT_of_valWFb hpath),
    cO_skip_lit (lit "\n") (by decide), cO_skip_lit (lit "line: ") (by decide),
    cO_skip_val t.Line (noLT_of_valWFb hline),
    cO_skip_lit (lit "\n") (by decide), cO_skip_lit (lit "-->\n") (by decide),
    cO_skip_lit (lit "### `") (by decide),
    cO_skip_val t.Path (noLT_of_valWFb hpath),
    cO_skip_lit (lit ":") (by decide),
    cO_skip_val t.Line (noLT_of_valWFb hline),
    cO_skip_lit (lit "`") (by decide),
    cO_skip_ite (lit " (resolved)") [] (by decide) (by decide),
    cO_skip_ite (lit " (outdated)") [] (by decide) (by decide),
    cO_skip_lit (lit "\n\n") (by decide),
    cO_writeReviewComments t.Comments _ hcs]
  decide

theorem cO_DiscussionToMarkdown (d : Discussion) (now : GoTime)
    (hd : discussionWFb d = true) (hn : timeWFb now = true) :
    countOccur (DiscussionToMarkdown d now) newCommentOpen = sizeDCs d.Comments + 1 := by
  have hfm := noLT_DiscussionFrontmatterText hd hn
  unfold discussionWFb at hd
  simp only [Bool.and_eq_true] at hd
  obtain ⟨⟨⟨⟨⟨⟨⟨⟨⟨⟨⟨⟨⟨hID, hURL⟩, hNum⟩, hOwn⟩, hRepo⟩, hTitle⟩, hTne⟩, hCat⟩,
    hAuth⟩, hAns⟩, hCr⟩, hUp⟩, hBody⟩, hCs⟩ := hd
  simp only [DiscussionToMarkdown, finishMarkdown]
  by_cases hlen : 0 < d.Comments.length
  · rw [if_pos hlen]
    simp only [List.append_assoc]
    rw [cO_buildMarkdown _ _ _ _ hfm (noLT_of_valWFb hTitle) (noLT_of_bodyWFb hBody),
      cO_skip_lit (lit "\n---\n\n") (by decide),
      cO_writeDiscussionComments d.Comments [] _ hCs (by decide),
      cO_trail]
  · rw [if_neg hlen]
    have hnil : d.Comments = [] := by
      cases hcs2 : d.Comments with
      | nil => rfl
      | cons x xs => rw [hcs2] at hlen; simp at hlen
    rw [cO_buildMarkdown _ _ _ _ hfm (noLT_of_valWFb hTitle) (noLT_of_bodyWFb hBody),
      cO_trail, hnil]
    rfl

theorem cO_IssueToMarkdown (i : Issue) (now : GoTime)
    (hi : issueWFb i = true) (hn : timeWFb now = true) :
    countOccur (IssueToMarkdown i now) newCommentOpen = 1 := by
  have hfm := noLT_IssueFrontmatterText hi hn
  unfold issueWFb at hi
  simp only [Bool.and_eq_true] at hi
  obtain ⟨⟨⟨⟨⟨⟨⟨⟨⟨⟨⟨⟨hID, hURL⟩, hNum⟩, hOwn⟩, hRepo⟩, hTitle⟩, hTne⟩, hState⟩,
    hAuth⟩, hCr⟩, hUp⟩, hBody⟩, hCs⟩ := hi
  simp only [IssueToMarkdown, finishMarkdown]
  by_cases hlen : 0 < i.Comments.length
  · rw [if_pos hlen]
    simp only [List.append_assoc]
    rw [cO_buildMarkdown _ _ _ _ hfm (noLT_of_valWFb hTitle) (noLT_of_bodyWFb hBody),
      cO_skip_lit (lit "\n---\n\n") (by decide),
      cO_writeComments i.Comments _ hCs, cO_trail]
  · rw [if_neg hlen]
    rw [cO_buildMarkdown _ _ _ _ hfm (noLT_of_valWFb hTitle) (noLT_of_bodyWFb hBody),
      cO_trail]

theorem cO_PullRequestToMarkdown (pr : PullRequest) (now : GoTime)
    (hpr : pullRequestWFb pr = true) (hn : timeWFb now = true) :
    countOccur (PullRequestToMarkdown pr now) newCommentOpen =
      pr.ReviewThreads.length + 1 := by
  have hfm := noLT_PullRequestFrontmatterText hpr hn
  unfold pullRequestWFb at hpr
  simp only [Bool.and_eq_true] at hpr
  obtain ⟨⟨⟨⟨⟨⟨⟨⟨⟨⟨⟨⟨⟨⟨⟨⟨⟨hID, hURL⟩, hNum⟩, hOwn⟩, hRepo⟩, hTitle⟩, hTne⟩, hState⟩,
    hAuth⟩, hHead⟩, hBase⟩, hMC⟩, hCr⟩, hUp⟩, hMA⟩, hBody⟩, hCs⟩, hTs⟩ := hpr
  simp only [PullRequestToMarkdown, finishMarkdown]
  by_cases hc : 0 < pr.Comments.length <;> by_cases ht : 0 < pr.ReviewThreads.length
  · rw [if_pos hc, if_pos ht]
    simp only [List.append_assoc]
    rw [cO_buildMarkdown _ _ _ _ hfm (noLT_of_valWFb hTitle) (noLT_of_bodyWFb hBody),
      cO_skip_lit (lit "\n---\n\n") (by decide),
      cO_writeComments pr.Comments _ hCs,
      cO_skip_lit (lit "\n## Review Threads\n\n") (by decide),
      cO_writeReviewThreads pr.ReviewThreads _ hTs, cO_trail]
  · rw [if_pos hc, if_neg ht]
    simp only [List.append_assoc]
    rw [cO_buildMarkdown _ _ _ _ hfm (noLT_of_valWFb hTitle) (noLT_of_bodyWFb hBody),
      cO_skip_lit (lit "\n---\n\n") (by decide),
      cO_writeComments pr.Comments _ hCs, cO_trail]
    have hnil : pr.ReviewThreads = [] := by
      cases hts2 : pr.ReviewThreads with
      | nil => rfl
      | cons x xs => rw [hts2] at ht; simp at ht
    rw [hnil]
    rfl
  · rw [if_neg hc, if_pos ht]
    simp only [List.append_assoc]
    rw [cO_buildMarkdown _ _ _ _ hfm (noLT_of_valWFb hTitle) (noLT_of_bodyWFb hBody),
      cO_skip_lit (lit "\n## Review Threads\n\n") (by decide),
      cO_writeReviewThreads pr.ReviewThreads _ hTs, cO_trail]
  · rw [if_neg hc, if_neg ht]
    rw [cO_buildMarkdown _ _ _ _ hfm (noLT_of_valWFb hTitle) (noLT_of_bodyWFb hBody),
      cO_trail]
    have hnil : pr.ReviewThreads = [] := by
      cases hts2 : pr.ReviewThreads with
      | nil => rfl
      | cons x xs => rw [hts2] at ht; simp at ht
    rw [hnil]
    rfl

end writer

namespace writer

open GoStrings parser github

/-- C5 (amended).  Placeholder emission: a serialized discussion carries
exactly one new-comment placeholder per comment (each emitted
immediately after that comment's block, with a `reply_to` attribute
naming that comment's ID) plus the single trailing top-level
placeholder; a serialized pull request carries exactly one placeholder
per review thread (emitted after the thread's comments, with `reply_to`
naming the thread's ID) plus the trailing one; but a serialized issue
carries only the single trailing placeholder — flat issue/PR comments
are not followed by per-comment placeholders. -/
theorem c5_placeholder_emission (d : Discussion) (i : Issue) (pr : PullRequest)
    (now : GoTime) (hd : discussionWFb d = true) (hi : issueWFb i = true)
    (hpr : pullRequestWFb pr = true) (hn : timeWFb now = true) :
    countOccur (DiscussionToMarkdown d now) newCommentOpen = sizeDCs d.Comments + 1 ∧
    (∀ c parentID, dcWFb c = true → '<' ∉ parentID →
      writeDiscussionComment c parentID =
        discussionCommentBlock c parentID ++
          (lit "<!-- gh-md:new-comment reply_to: " ++ c.ID ++
            lit " -->\n\n<!-- /gh-md:new-comment -->\n\n") ++
          writeDiscussionComments c.Replies c.ID ∧
      countOccur (discussionCommentBlock c parentID) newCommentOpen = 0) ∧
    countOccur (IssueToMarkdown i now) newCommentOpen = 1 ∧
    countOccur (PullRequestToMarkdown pr now) newCommentOpen =
      pr.ReviewThreads.length + 1 ∧
    (∀ t, reviewThreadWFb t = true →
      writeReviewThread t =
        reviewThreadBlock t ++
          (lit "<!-- gh-md:new-comment reply_to: " ++ t.ID ++
            lit " -->\n\n<!-- /gh-md:new-comment -->\n\n") ++
          lit "<!-- /gh-md:review-thread -->\n\n" ∧
      countOccur (reviewThreadBlock t) newCommentOpen = 0) := by
  refine ⟨cO_DiscussionToMarkdown d now hd hn, ?_, cO_IssueToMarkdown i now hi hn,
    cO_PullRequestToMarkdown pr now hpr hn, ?_⟩
  · intro c parentID hc hp
    exact ⟨writeDiscussionComment_decomp c parentID,
      cO_discussionCommentBlock c parentID hc hp⟩
  · intro t ht
    exact ⟨writeReviewThread_decomp t, cO_reviewThreadBlock t ht⟩

/-- Witness issue for C5. -/
def exIssue5 : Issue :=
  { ID := lit "I_1", URL := lit "u", Number := lit "3", Owner := lit "o",
    Repo := lit "r", Title := lit "T", Body := lit "B", State := lit "open",
    Author := lit "a", CreatedAt := ⟨lit "t", lit "d"⟩, UpdatedAt := ⟨lit "t", lit "d"⟩,
    Comments := [⟨lit "IC_1", lit "u1", lit "one", ⟨lit "t", lit "d"⟩⟩,
                 ⟨lit "IC_2", lit "u2", lit "two", ⟨lit "t", lit "d"⟩⟩] }

/-- Witness discussion for C5. -/
def exDisc5 : Discussion :=
  { ID := lit "D_1", URL := lit "u", Number := lit "4", Owner := lit "o",
    Repo := lit "r", Title := lit "T", Body := lit "B", State := lit "open",
    Category := lit "G", Author := lit "s", AnswerID := [], Locked := false,
    CreatedAt := ⟨lit "t", lit "d"⟩, UpdatedAt := ⟨lit "t", lit "d"⟩,
    Comments := [.mk (lit "DC_1") (lit "c1") (lit "top") ⟨lit "t", lit "d"⟩
                   [.mk (lit "DC_2") (lit "c2") (lit "reply") ⟨lit "t", lit "d"⟩ []]] }

/-- Witness pull request for C5. -/
def exPR5 : PullRequest :=
  { ID := lit "PR_1", URL := lit "u", Number := lit "5", Owner := lit "o",
    Repo := lit "r", Title := lit "T", Body := lit "B", State := lit "open",
    Author := lit "a", Draft := false, HeadRef := lit "h", BaseRef := lit "b",
    MergeCommit := [], CreatedAt := ⟨lit "t", lit "d"⟩, UpdatedAt := ⟨lit "t", lit "d"⟩,
    MergedAt := none,
    Comments := [⟨lit "IC_9", lit "u", lit "flat", ⟨lit "t", lit "d"⟩⟩],
    ReviewThreads := [⟨lit "PRRT_1", lit "main.go", lit "42", false, false,
      [⟨lit "PRRC_1", lit "rev", lit "why", ⟨lit "t", lit "d"⟩⟩]⟩] }

/-- Witness for the amended C5: at these concrete documents the
discussion has 2 + 1 placeholders, the issue (with two comments) a
single one, and the pull request (one thread) 1 + 1. -/
theorem c5_placeholder_emission_witness :
    (discussionWFb exDisc5 = true ∧ issueWFb exIssue5 = true ∧
      pullRequestWFb exPR5 = true ∧ timeWFb ⟨lit "t", lit "d"⟩ = true) ∧
    countOccur (DiscussionToMarkdown exDisc5 ⟨lit "t", lit "d"⟩) newCommentOpen =
      sizeDCs exDisc5.Comments + 1 ∧
    countOccur (IssueToMarkdown exIssue5 ⟨lit "t", lit "d"⟩) newCommentOpen = 1 ∧
    countOccur (PullRequestToMarkdown exPR5 ⟨lit "t", lit "d"⟩) newCommentOpen =
      exPR5.ReviewThreads.length + 1 := by
  have h := c5_placeholder_emission exDisc5 exIssue5 exPR5 ⟨lit "t", lit "d"⟩
    (by decide) (by decide) (by decide) (by decide)
  exact ⟨⟨by decide, by decide, by decide, by decide⟩, h.1, h.2.2.1, h.2.2.2.1⟩

set_option maxRecDepth 100000 in
/-- Counterexample to C5 as stated: this issue has two existing
comments, yet its serialization contains exactly one new-comment
placeholder (the trailing top-level one) — not one after every
comment. -/
theorem c5_counterexample :
    exIssue5.Comments.length = 2 ∧
    countOccur (IssueToMarkdown exIssue5 ⟨lit "t", lit "d"⟩) newCommentOpen = 1 := by
  constructor
  · decide
  · decide

end writer

/-! ## String toolbox for the round-trip proof (claim C1) -/

namespace GoStrings

theorem trimLeftStr_cons_space {c : Char} (h : isSpaceChar c = true) (s : Str) :
    trimLeftStr (c :: s) = trimLeftStr s := by
  simp [trimLeftStr, List.dropWhile_cons, h]

theorem trimLeftStr_cons_nonspace {c : Char} (h : isSpaceChar c = false) (s : Str) :
    trimLeftStr (c :: s) = c :: s := by
  simp [trimLeftStr, List.dropWhile_cons, h]

theorem trimSpace_cons_space {c : Char} (h : isSpaceChar c = true) (s : Str) :
    trimSpace (c :: s) = trimSpace s := by
  unfold trimSpace
  rw [trimLeftStr_cons_space h]

theorem trimRightStr_concat_space {c : Char} (h : isSpaceChar c = true) (s : Str) :
    trimRightStr (s ++ [c]) = trimRightStr s := by
  unfold trimRightStr
  exact List.rdropWhile_concat_pos isSpaceChar s c h

theorem trimRightStr_concat_nonspace {c : Char} (h : isSpaceChar c = false) (s : Str) :
    trimRightStr (s ++ [c]) = s ++ [c] := by
  unfold trimRightStr
  exact List.rdropWhile_concat_neg isSpaceChar s c (by simp [h])

theorem trimRightStr_append {a b : Str} (hb : trimRightStr b ≠ []) :
    trimRightStr (a ++ b) = a ++ trimRightStr b := by
  unfold trimRightStr List.rdropWhile at *
  rw [List.reverse_append, List.dropWhile_append]
  have hne : (List.dropWhile isSpaceChar b.reverse).isEmpty = false := by
    rcases h : List.dropWhile isSpaceChar b.reverse with _ | ⟨x, xs⟩
    · exact absurd (by rw [h]; rfl) hb
    · rfl
  rw [hne]
  simp

theorem trimRightStr_append_nil {a b : Str} (hb : trimRightStr b = []) :
    trimRightStr (a ++ b) = trimRightStr a := by
  unfold trimRightStr List.rdropWhile at *
  rw [List.reverse_append, List.dropWhile_append]
  have hne : (List.dropWhile isSpaceChar b.reverse).isEmpty = true := by
    have : List.dropWhile isSpaceChar b.reverse = [] := by
      have := congrArg List.reverse hb
      simpa using this
    rw [this]; rfl
  rw [hne]
  simp

theorem trimSpace_head_nonspace {c : Char} (h : isSpaceChar c = false) (s : Str) :
    trimSpace (c :: s) = trimRightStr (c :: s) := by
  unfold trimSpace
  rw [trimLeftStr_cons_nonspace h]

/-- An occurrence of `pat` cannot start inside `v` when `v` itself has no
occurrence and the continuation starts with a character not in `pat`. -/
theorem cleanBefore_of_cleanAll_break {pat v : Str} {c : Char} (b : Str)
    (hv : cleanAll pat v) (hc : c ∉ pat) : cleanBefore pat v (c :: b) := by
  intro i hi hpre
  rw [drop_append_of_lt (Nat.le_of_lt hi)] at hpre
  obtain ⟨t, ht⟩ := List.isPrefixOf_iff_prefix.mp hpre
  rcases le_or_lt pat.length (v.drop i).length with hlen | hlen
  · have hpre2 : pat.isPrefixOf (v.drop i) := by
      have h1 : pat = ((v.drop i) ++ c :: b).take pat.length := by
        rw [← ht]
        simp
      rw [List.take_append_eq_append_take, Nat.sub_eq_zero_of_le hlen] at h1
      simp only [List.take_zero, List.append_nil] at h1
      exact List.isPrefixOf_iff_prefix.mpr (h1 ▸ List.take_prefix _ _)
    exact hv i hpre2
  · have hgetr : (pat ++ t)[(v.drop i).length]? = some c := by
      rw [ht, List.getElem?_append_right (Nat.le_refl _)]
      simp
    rw [List.getElem?_append_left hlen] at hgetr
    exact hc (List.getElem?_mem hgetr)

theorem strIndex_boundary (pat a b : Str) (h : cleanBefore pat a (pat ++ b)) :
    strIndex (a ++ (pat ++ b)) pat = some a.length := by
  rw [strIndex_append_clean h,
    strIndex_of_isPrefixOf (writer.isPrefixOf_append_left b
      (List.isPrefixOf_iff_prefix.mpr (List.prefix_refl pat)))]
  simp

theorem getD_drop (l : Str) (n i : Nat) (d : Char) :
    (l.drop n).getD i d = l.getD (n + i) d := by
  simp [List.getD_eq_getElem?_getD, List.getElem?_drop]

theorem splitNl_append_newline (a b : Str) (ha : '\n' ∉ a) :
    splitNl (a ++ '\n' :: b) = a :: splitNl b := by
  unfold splitNl List.splitOn
  exact List.splitOnP_first _ a
    (fun x hx => by simp only [beq_iff_eq]; exact fun e => ha (e ▸ hx)) '\n' (by simp) b

theorem splitNl_no_newline (a : Str) (ha : '\n' ∉ a) : splitNl a = [a] := by
  unfold splitNl List.splitOn
  exact List.splitOnP_eq_single _ a
    (fun x hx => by simp only [beq_iff_eq]; exact fun e => ha (e ▸ hx))

theorem joinNl_splitNl (s : Str) : joinNl (splitNl s) = s := by
  unfold joinNl splitNl
  exact List.intercalate_splitOn s '\n'

theorem joinNl_cons_cons (a x : Str) (xs : List Str) :
    joinNl (a :: x :: xs) = a ++ '\n' :: joinNl (x :: xs) := by
  simp [joinNl, List.intercalate, List.intersperse]

end GoStrings

namespace GoStrings

theorem trim_stable_parts {v : Str} (h : trimSpace v = v) :
    trimLeftStr v = v ∧ trimRightStr v = v := by
  have hsuf : trimLeftStr v <:+ v := List.dropWhile_suffix _
  have hpfx : trimRightStr (trimLeftStr v) <+: trimLeftStr v := List.rdropWhile_prefix _ _
  have hlen1 : (trimRightStr (trimLeftStr v)).length ≤ (trimLeftStr v).length :=
    hpfx.length_le
  have hlen2 : (trimLeftStr v).length ≤ v.length := hsuf.length_le
  have hlen0 : (trimRightStr (trimLeftStr v)).length = v.length := by
    rw [show trimRightStr (trimLeftStr v) = v from h]
  have hL : trimLeftStr v = v := hsuf.eq_of_length (by omega)
  refine ⟨hL, ?_⟩
  rw [← hL]
  rw [hL]
  calc trimRightStr v = trimRightStr (trimLeftStr v) := by rw [hL]
    _ = v := h

theorem cleanBefore_append_right {pat a rest c : Str}
    (h1 : ∀ b, cleanBefore pat a b) (h2 : cleanBefore pat rest c) :
    cleanBefore pat (a ++ rest) c :=
  cleanBefore_append (h1 _) h2

/-- `trimSpace` of a writer metadata line `K ++ " " ++ v`. -/
theorem trimSpace_key_val (K : Str) (c0 : Char) (K0 : Str) (v : Str)
    (hK : K = c0 :: K0) (h0 : isSpaceChar c0 = false)
    (hKr : trimRightStr K = K) (hv : trimSpace v = v) :
    trimSpace ((K ++ [' ']) ++ v) = if v.isEmpty then K else (K ++ [' ']) ++ v := by
  have hhead : trimSpace ((K ++ [' ']) ++ v) = trimRightStr ((K ++ [' ']) ++ v) := by
    rw [hK]
    show trimSpace (c0 :: (K0 ++ [' '] ++ v)) = _
    rw [trimSpace_head_nonspace h0]
    rfl
  rw [hhead]
  by_cases hve : v.isEmpty
  · have hv0 : v = [] := by
      cases v with
      | nil => rfl
      | cons x xs => simp at hve
    subst hv0
    simp only [hve, if_pos]
    rw [List.append_nil, trimRightStr_concat_space (by decide), hKr]
  · simp only [hve, if_neg, Bool.false_eq_true, not_false_iff]
    have hvr : trimRightStr v = v := (trim_stable_parts hv).2
    have hvne : trimRightStr v ≠ [] := by
      rw [hvr]
      cases v with
      | nil => simp at hve
      | cons x xs => simp
    rw [trimRightStr_append hvne, hvr]

end GoStrings

namespace parser

open GoStrings

theorem valWFb_parts {s : Str} (h : writer.valWFb s = true) :
    '<' ∉ s ∧ '\n' ∉ s ∧ trimSpace s = s ∧ strIndex s (lit "-->") = none := by
  unfold writer.valWFb at h
  simp only [Bool.and_eq_true, decide_eq_true_eq, Bool.not_eq_true] at h
  obtain ⟨⟨⟨h1, h2⟩, h3⟩, h4⟩ := h
  refine ⟨h1, h2, h3, ?_⟩
  unfold containsStr at h4
  cases ho : strIndex s (lit "-->") with
  | none => rfl
  | some k => rw [ho] at h4; simp at h4

theorem parseMetaLine_id (acc : Str × Str × Str) (v : Str) (hv : trimSpace v = v) :
    parseMetaLine acc (lit "id: " ++ v) = (v, acc.2.1, acc.2.2) := by
  have ht : trimSpace (lit "id: " ++ v) = if v.isEmpty then lit "id:" else lit "id: " ++ v := by
    have := trimSpace_key_val (lit "id:") 'i' (lit "d:") v rfl (by decide) (by decide) hv
    simpa using this
  unfold parseMetaLine
  by_cases hve : v.isEmpty
  · have hv0 : v = [] := by
      cases v with
      | nil => rfl
      | cons x xs => simp at hve
    subst hv0
    show parseMetaLine acc (lit "id: " ++ []) = _
    rw [List.append_nil]
    rfl
  · rw [ht]
    simp only [hve, Bool.false_eq_true, if_neg, not_false_iff]
    have hpos : (lit "id:").isPrefixOf (lit "id: " ++ v) = true := by
      simp [List.isPrefixOf, lit]
    rw [if_pos hpos]
    have hdrop : trimPrefixStr (lit "id: " ++ v) (lit "id:") = ' ' :: v := by
      unfold trimPrefixStr
      rw [if_pos hpos]
      rfl
    rw [hdrop, trimSpace_cons_space (by decide), hv]

theorem parseMetaLine_author (acc : Str × Str × Str) (v : Str) (hv : trimSpace v = v) :
    parseMetaLine acc (lit "author: " ++ v) = (acc.1, v, acc.2.2) := by
  have ht : trimSpace (lit "author: " ++ v) =
      if v.isEmpty then lit "author:" else lit "author: " ++ v := by
    have := trimSpace_key_val (lit "author:") 'a' (lit "uthor:") v rfl (by decide) (by decide) hv
    simpa using this
  unfold parseMetaLine
  by_cases hve : v.isEmpty
  · have hv0 : v = [] := by
      cases v with
      | nil => rfl
      | cons x xs => simp at hve
    subst hv0
    show parseMetaLine acc (lit "author: " ++ []) = _
    rw [List.append_nil]
    rfl
  · rw [ht]
    simp only [hve, Bool.false_eq_true, if_neg, not_false_iff]
    have hneg1 : (lit "id:").isPrefixOf (lit "author: " ++ v) = false := by
      simp [List.isPrefixOf, lit]
    have hpos : (lit "author:").isPrefixOf (lit "author: " ++ v) = true := by
      simp [List.isPrefixOf, lit]
    rw [hneg1]
    simp only [Bool.false_eq_true, if_neg, not_false_iff]
    rw [if_pos hpos]
    have hdrop : trimPrefixStr (lit "author: " ++ v) (lit "author:") = ' ' :: v := by
      unfold trimPrefixStr
      rw [if_pos hpos]
      rfl
    rw [hdrop, trimSpace_cons_space (by decide), hv]

theorem parseMetaLine_parent (acc : Str × Str × Str) (v : Str) (hv : trimSpace v = v) :
    parseMetaLine acc (lit "parent: " ++ v) = (acc.1, acc.2.1, v) := by
  have ht : trimSpace (lit "parent: " ++ v) =
      if v.isEmpty then lit "parent:" else lit "parent: " ++ v := by
    have := trimSpace_key_val (lit "parent:") 'p' (lit "arent:") v rfl (by decide) (by decide) hv
    simpa using this
  unfold parseMetaLine
  by_cases hve : v.isEmpty
  · have hv0 : v = [] := by
      cases v with
      | nil => rfl
      | cons x xs => simp at hve
    subst hv0
    show parseMetaLine acc (lit "parent: " ++ []) = _
    rw [List.append_nil]
    rfl
  · rw [ht]
    simp only [hve, Bool.false_eq_true, if_neg, not_false_iff]
    have hneg1 : (lit "id:").isPrefixOf (lit "parent: " ++ v) = false := by
      simp [List.isPrefixOf, lit]
    have hneg2 : (lit "author:").isPrefixOf (lit "parent: " ++ v) = false := by
      simp [List.isPrefixOf, lit]
    have hpos : (lit "parent:").isPrefixOf (lit "parent: " ++ v) = true := by
      simp [List.isPrefixOf, lit]
    rw [hneg1]
    simp only [Bool.false_eq_true, if_neg, not_false_iff]
    rw [hneg2]
    simp only [Bool.false_eq_true, if_neg, not_false_iff]
    rw [if_pos hpos]
    have hdrop : trimPrefixStr (lit "parent: " ++ v) (lit "parent:") = ' ' :: v := by
      unfold trimPrefixStr
      rw [if_pos hpos]
      rfl
    rw [hdrop, trimSpace_cons_space (by decide), hv]

theorem parseMetaLine_created (acc : Str × Str × Str) (v : Str) (hv : trimSpace v = v)
    (hvne : v ≠ []) :
    parseMetaLine acc (lit "created: " ++ v) = acc := by
  have ht : trimSpace (lit "created: " ++ v) = lit "created: " ++ v := by
    have := trimSpace_key_val (lit "created:") 'c' (lit "reated:") v rfl (by decide) (by decide) hv
    have hve : v.isEmpty = false := by
      cases v with
      | nil => exact absurd rfl hvne
      | cons x xs => rfl
    simpa [hve] using this
  unfold parseMetaLine
  rw [ht]
  have hneg1 : (lit "id:").isPrefixOf (lit "created: " ++ v) = false := by
    simp [List.isPrefixOf, lit]
  have hneg2 : (lit "author:").isPrefixOf (lit "created: " ++ v) = false := by
    simp [List.isPrefixOf, lit]
  have hneg3 : (lit "parent:").isPrefixOf (lit "created: " ++ v) = false := by
    simp [List.isPrefixOf, lit]
  simp [hneg1, hneg2, hneg3]

end parser

namespace GoStrings

theorem notMem_append {c : Char} {a b : Str} (ha : c ∉ a) (hb : c ∉ b) : c ∉ a ++ b := by
  intro h
  rcases List.mem_append.mp h with h1 | h1
  · exact ha h1
  · exact hb h1

end GoStrings

namespace parser

open GoStrings

theorem calculateIndentation_after_newline (content : Str) (p : Nat)
    (h : content.getD p ' ' = '\n') :
    calculateIndentation content (p + 1) = 0 := by
  unfold calculateIndentation
  have hls : lineStartAt content (p + 1) = p + 1 := by
    unfold lineStartAt
    rw [h]
    simp
  rw [hls]
  simp [countIndent]

/-- `extractCommentBody` on the exact body shape emitted by the writer:
newline, heading line, blank line, body, newline. -/
theorem extractCommentBody_core (HD au D B : Str)
    (hhd : ∃ t, HD = '#' :: t) (hHDnl : '\n' ∉ HD)
    (hpre3 : (lit "###").isPrefixOf (HD ++ (au ++ (lit " (" ++ (D ++ [')'])))) = true)
    (hau : '\n' ∉ au) (hD : '\n' ∉ D) (hB : trimSpace B = B) :
    extractCommentBody
      ('\n' :: (HD ++ (au ++ (lit " (" ++ (D ++ (lit ")\n\n" ++ (B ++ lit "\n"))))))) = B := by
  obtain ⟨t, ht⟩ := hhd
  have hHLnl : '\n' ∉ HD ++ (au ++ (lit " (" ++ (D ++ [')']))) := by
    refine notMem_append hHDnl (notMem_append hau (notMem_append (by decide)
      (notMem_append hD (by decide))))
  have hHL : trimSpace (HD ++ (au ++ (lit " (" ++ (D ++ [')'])))) =
      HD ++ (au ++ (lit " (" ++ (D ++ [')']))) := by
    subst ht
    rw [show ('#' :: t) ++ (au ++ (lit " (" ++ (D ++ [')']))) =
        '#' :: (t ++ (au ++ (lit " (" ++ (D ++ [')'])))) from rfl]
    rw [trimSpace_head_nonspace (by decide)]
    rw [show '#' :: (t ++ (au ++ (lit " (" ++ (D ++ [')'])))) =
        ('#' :: (t ++ (au ++ (lit " (" ++ D)))) ++ [')'] from by simp]
    exact trimRightStr_concat_nonspace (by decide) _
  have harg : trimSpace
      ('\n' :: (HD ++ (au ++ (lit " (" ++ (D ++ (lit ")\n\n" ++ (B ++ lit "\n"))))))) =
      if B.isEmpty then HD ++ (au ++ (lit " (" ++ (D ++ [')'])))
      else (HD ++ (au ++ (lit " (" ++ (D ++ [')'])))) ++ ('\n' :: '\n' :: B) := by
    rw [trimSpace_cons_space (by decide)]
    by_cases hBe : B.isEmpty
    · have hB0 : B = [] := by
        cases B with
        | nil => rfl
        | cons x xs => simp at hBe
      subst hB0
      simp only [hBe, if_pos]
      subst ht
      rw [show ('#' :: t) ++ (au ++ (lit " (" ++ (D ++ (lit ")\n\n" ++ ([] ++ lit "\n"))))) =
          '#' :: (t ++ (au ++ (lit " (" ++ (D ++ (lit ")\n\n" ++ ([] ++ lit "\n")))))) from rfl]
      rw [trimSpace_head_nonspace (by decide)]
      rw [show '#' :: (t ++ (au ++ (lit " (" ++ (D ++ (lit ")\n\n" ++ ([] ++ lit "\n")))))) =
          (('#' :: (t ++ (au ++ (lit " (" ++ (D ++ [')']))))) ++ lit "\n\n\n") from by
        simp
        decide]
      rw [trimRightStr_append_nil (by decide)]
      rw [show ('#' :: (t ++ (au ++ (lit " (" ++ (D ++ [')']))))) =
          (('#' :: (t ++ (au ++ (lit " (" ++ D)))) ++ [')']) from by simp]
      rw [trimRightStr_concat_nonspace (by decide)]
      simp
    · have hBr : trimRightStr B = B := (trim_stable_parts hB).2
      have hBnnil : B ≠ [] := by
        cases B with
        | nil => simp at hBe
        | cons x xs => simp
      simp only [hBe, Bool.false_eq_true, if_neg, not_false_iff]
      subst ht
      rw [show ('#' :: t) ++ (au ++ (lit " (" ++ (D ++ (lit ")\n\n" ++ (B ++ lit "\n"))))) =
          '#' :: (t ++ (au ++ (lit " (" ++ (D ++ (lit ")\n\n" ++ (B ++ lit "\n")))))) from rfl]
      rw [trimSpace_head_nonspace (by decide)]
      have h1 : trimRightStr (B ++ ['\n']) ≠ [] := by
        rw [trimRightStr_concat_space (by decide), hBr]
        exact hBnnil
      rw [show '#' :: (t ++ (au ++ (lit " (" ++ (D ++ (lit ")\n\n" ++ (B ++ lit "\n")))))) =
          (('#' :: (t ++ (au ++ (lit " (" ++ (D ++ [')']))))) ++ ('\n' :: '\n' :: [])) ++
            (B ++ ['\n']) from by
        simp
        rfl]
      rw [trimRightStr_append h1, trimRightStr_concat_space (by decide), hBr]
      simp
  unfold extractCommentBody
  rw [harg]
  by_cases hBe : B.isEmpty
  · have hB0 : B = [] := by
      cases B with
      | nil => rfl
      | cons x xs => simp at hBe
    subst hB0
    simp only [hBe, if_pos]
    rw [splitNl_no_newline _ hHLnl]
    have hskip : headingSkip [HD ++ (au ++ (lit " (" ++ (D ++ [')'])))] = 1 := by
      unfold headingSkip
      simp [hHL, hpre3]
    rw [hskip]
    simp
  · have hBnnil : B ≠ [] := by
      cases B with
      | nil => simp at hBe
      | cons x xs => simp
    simp only [hBe, Bool.false_eq_true, if_neg, not_false_iff]
    have hsp1 : splitNl ((HD ++ (au ++ (lit " (" ++ (D ++ [')'])))) ++ ('\n' :: '\n' :: B)) =
        (HD ++ (au ++ (lit " (" ++ (D ++ [')'])))) :: [] :: splitNl B := by
      rw [splitNl_append_newline _ _ hHLnl]
      have h2 : splitNl ('\n' :: B) = [] :: splitNl B := splitNl_append_newline [] B (by simp)
      rw [h2]
    rw [hsp1]
    have hskip : headingSkip ((HD ++ (au ++ (lit " (" ++ (D ++ [')'])))) :: [] :: splitNl B) = 1 := by
      unfold headingSkip
      simp [hHL, hpre3]
    rw [hskip]
    have hlen : ¬ ((HD ++ (au ++ (lit " (" ++ (D ++ [')'])))) :: [] :: splitNl B).length ≤ 1 := by
      simp
    rw [if_neg hlen]
    obtain ⟨x, xs, hx⟩ := List.exists_cons_of_ne_nil
      (show splitNl B ≠ [] from by unfold splitNl List.splitOn; exact List.splitOnP_ne_nil _ B)
    rw [show ((HD ++ (au ++ (lit " (" ++ (D ++ [')'])))) :: [] :: splitNl B).drop 1 =
        [] :: splitNl B from rfl]
    rw [hx, joinNl_cons_cons, ← hx, joinNl_splitNl]
    rw [show ([] : Str) ++ '\n' :: B = '\n' :: B from rfl]
    rw [trimSpace_cons_space (by decide), hB]

end parser

namespace parser

open GoStrings

/-- The metadata-plus-body segment of a serialized flat comment (between
the opening sentinel and the closing sentinel). -/
def midFlat (id au B : Str) (t : GoTime) : Str :=
  lit "id: " ++ (id ++ (lit "\nauthor: " ++ (au ++ (lit "\ncreated: " ++ (t.rfc3339 ++
    (lit "\n-->\n### @" ++ (au ++ (lit " (" ++ (t.day ++ (lit ")\n\n" ++ (B ++ lit "\n")))))))))))

/-- The same segment for a serialized reply (with a `parent:` line and a
level-4 heading). -/
def midReply (id au B : Str) (t : GoTime) (p : Str) : Str :=
  lit "id: " ++ (id ++ (lit "\nauthor: " ++ (au ++ (lit "\nparent: " ++ (p ++
    (lit "\ncreated: " ++ (t.rfc3339 ++
    (lit "\n-->\n#### @" ++ (au ++ (lit " (" ++ (t.day ++ (lit ")\n\n" ++ (B ++ lit "\n")))))))))))))

/-- Pre-`-->` part of a flat comment block. -/
def blkP (id au T : Str) : Str :=
  commentStart ++ (lit "id: " ++ (id ++ (lit "\nauthor: " ++ (au ++
    (lit "\ncreated: " ++ (T ++ lit "\n"))))))

/-- Post-`-->` body part of a flat comment block (before the closing
sentinel). -/
def blkQ (au D B : Str) : Str :=
  lit "\n### @" ++ (au ++ (lit " (" ++ (D ++ (lit ")\n\n" ++ (B ++ lit "\n")))))

/-- Pre-`-->` part of a reply comment block. -/
def blkPr (id au p T : Str) : Str :=
  commentStart ++ (lit "id: " ++ (id ++ (lit "\nauthor: " ++ (au ++ (lit "\nparent: " ++ (p ++
    (lit "\ncreated: " ++ (T ++ lit "\n"))))))))

/-- Post-`-->` body part of a reply comment block. -/
def blkQr (au D B : Str) : Str :=
  lit "\n#### @" ++ (au ++ (lit " (" ++ (D ++ (lit ")\n\n" ++ (B ++ lit "\n")))))

theorem block_flat_shape (id au B : Str) (t : GoTime) :
    commentStart ++ (midFlat id au B t ++ commentEnd) =
      blkP id au t.rfc3339 ++ (lit "-->" ++ (blkQ au t.day B ++ commentEnd)) := by
  simp only [midFlat, blkP, blkQ, List.append_assoc]
  rfl

theorem block_reply_shape (id au B : Str) (t : GoTime) (p : Str) :
    commentStart ++ (midReply id au B t p ++ commentEnd) =
      blkPr id au p t.rfc3339 ++ (lit "-->" ++ (blkQr au t.day B ++ commentEnd)) := by
  simp only [midReply, blkPr, blkQr, List.append_assoc]
  rfl

end parser

namespace parser

open GoStrings

set_option maxHeartbeats 1000000 in
theorem parseCommentBlock_flat (id au B : Str) (t : GoTime)
    (hid : writer.valWFb id = true) (hau : writer.valWFb au = true)
    (ht : writer.timeWFb t = true) (htne : t.rfc3339 ≠ [])
    (hB : '<' ∉ B) (hBt : trimSpace B = B) :
    parseCommentBlock (commentStart ++ (midFlat id au B t ++ commentEnd)) =
      some { ID := id, Author := au, Body := B, ParentID := [] } := by
  obtain ⟨hidLT, hidNL, hidTS, hidAR⟩ := valWFb_parts hid
  obtain ⟨hauLT, hauNL, hauTS, hauAR⟩ := valWFb_parts hau
  have htparts : writer.valWFb t.rfc3339 = true ∧ writer.valWFb t.day = true := by
    unfold writer.timeWFb at ht
    simpa [Bool.and_eq_true] using ht
  obtain ⟨hTLT, hTNL, hTTS, hTAR⟩ := valWFb_parts htparts.1
  obtain ⟨hDLT, hDNL, hDTS, hDAR⟩ := valWFb_parts htparts.2
  rw [block_flat_shape]
  have hcb1 : cleanBefore (lit "-->") (blkP id au t.rfc3339)
      (lit "-->" ++ (blkQ au t.day B ++ commentEnd)) := by
    unfold blkP
    refine cleanBefore_append_right (cleanBefore_of_litClean (by decide)) ?_
    refine cleanBefore_append_right
      (fun b => cleanBefore_of_headNotMem (show lit "-->" = '-' :: lit "->" from rfl)
        (by decide)) ?_
    refine cleanBefore_append
      (cleanBefore_of_cleanAll_break _ (strIndex_none_cleanAll hidAR) (by decide)) ?_
    refine cleanBefore_append_right
      (fun b => cleanBefore_of_headNotMem (show lit "-->" = '-' :: lit "->" from rfl)
        (by decide)) ?_
    refine cleanBefore_append
      (cleanBefore_of_cleanAll_break _ (strIndex_none_cleanAll hauAR) (by decide)) ?_
    refine cleanBefore_append_right
      (fun b => cleanBefore_of_headNotMem (show lit "-->" = '-' :: lit "->" from rfl)
        (by decide)) ?_
    refine cleanBefore_append
      (cleanBefore_of_cleanAll_break _ (strIndex_none_cleanAll hTAR) (by decide)) ?_
    exact cleanBefore_of_headNotMem (show lit "-->" = '-' :: lit "->" from rfl) (by decide)
  have hstr1 : strIndex (blkP id au t.rfc3339 ++ (lit "-->" ++ (blkQ au t.day B ++ commentEnd)))
      (lit "-->") = some (blkP id au t.rfc3339).length :=
    strIndex_boundary _ _ _ hcb1
  have hmidLT : '<' ∉ midFlat id au B t := by
    unfold midFlat
    refine notMem_append (by decide) (notMem_append hidLT (notMem_append (by decide)
      (notMem_append hauLT (notMem_append (by decide) (notMem_append hTLT
        (notMem_append (by decide) (notMem_append hauLT (notMem_append (by decide)
          (notMem_append hDLT (notMem_append (by decide)
            (notMem_append hB (by decide))))))))))))
  have hA2 : blkP id au t.rfc3339 ++ (lit "-->" ++ (blkQ au t.day B ++ commentEnd)) =
      (commentStart ++ midFlat id au B t) ++ (commentEnd ++ []) := by
    rw [← block_flat_shape]
    simp [List.append_assoc]
  have hcb2 : cleanBefore commentEnd (commentStart ++ midFlat id au B t) (commentEnd ++ []) := by
    refine cleanBefore_append_right (cleanBefore_of_litClean (by decide)) ?_
    exact cleanBefore_of_headNotMem
      (show commentEnd = '<' :: lit "!-- /gh-md:comment -->" from rfl) hmidLT
  have hstr2 : strIndex (blkP id au t.rfc3339 ++ (lit "-->" ++ (blkQ au t.day B ++ commentEnd)))
      commentEnd = some (commentStart ++ midFlat id au B t).length := by
    rw [hA2]
    exact strIndex_boundary _ _ _ hcb2
  have hms : ((blkP id au t.rfc3339 ++ (lit "-->" ++ (blkQ au t.day B ++ commentEnd))).drop
        commentStart.length).take ((blkP id au t.rfc3339).length - commentStart.length) =
      lit "id: " ++ (id ++ (lit "\nauthor: " ++ (au ++ (lit "\ncreated: " ++
        (t.rfc3339 ++ lit "\n"))))) := by
    rw [show blkP id au t.rfc3339 ++ (lit "-->" ++ (blkQ au t.day B ++ commentEnd)) =
        commentStart ++ ((lit "id: " ++ (id ++ (lit "\nauthor: " ++ (au ++ (lit "\ncreated: " ++
          (t.rfc3339 ++ lit "\n")))))) ++ (lit "-->" ++ (blkQ au t.day B ++ commentEnd)))
      from by simp [blkP, List.append_assoc]]
    rw [List.drop_left]
    rw [show (blkP id au t.rfc3339).length - commentStart.length =
        (lit "id: " ++ (id ++ (lit "\nauthor: " ++ (au ++ (lit "\ncreated: " ++
          (t.rfc3339 ++ lit "\n")))))).length from by
      simp only [blkP, List.length_append]
      omega]
    rw [List.take_left]
  have hM : trimSpace (lit "id: " ++ (id ++ (lit "\nauthor: " ++ (au ++ (lit "\ncreated: " ++
        (t.rfc3339 ++ lit "\n")))))) =
      lit "id: " ++ (id ++ (lit "\nauthor: " ++ (au ++ (lit "\ncreated: " ++ t.rfc3339)))) := by
    rw [show lit "id: " ++ (id ++ (lit "\nauthor: " ++ (au ++ (lit "\ncreated: " ++
        (t.rfc3339 ++ lit "\n"))))) =
      'i' :: ((lit "d: " ++ (id ++ (lit "\nauthor: " ++ (au ++ lit "\ncreated: ")))) ++
        (t.rfc3339 ++ ['\n'])) from by
      simp only [List.append_assoc]
      rfl]
    rw [trimSpace_head_nonspace (by decide)]
    have h1 : trimRightStr (t.rfc3339 ++ ['\n']) ≠ [] := by
      rw [trimRightStr_concat_space (by decide), (trim_stable_parts hTTS).2]
      exact htne
    rw [show ('i' :: ((lit "d: " ++ (id ++ (lit "\nauthor: " ++ (au ++ lit "\ncreated: ")))) ++
        (t.rfc3339 ++ ['\n']))) =
      (lit "id: " ++ (id ++ (lit "\nauthor: " ++ (au ++ lit "\ncreated: ")))) ++
        (t.rfc3339 ++ ['\n']) from rfl]
    rw [trimRightStr_append h1, trimRightStr_concat_space (by decide),
      (trim_stable_parts hTTS).2]
    simp [List.append_assoc]
  have hsp : splitNl (lit "id: " ++ (id ++ (lit "\nauthor: " ++ (au ++ (lit "\ncreated: " ++
        t.rfc3339))))) =
      [lit "id: " ++ id, lit "author: " ++ au, lit "created: " ++ t.rfc3339] := by
    rw [show lit "id: " ++ (id ++ (lit "\nauthor: " ++ (au ++ (lit "\ncreated: " ++
        t.rfc3339)))) =
      (lit "id: " ++ id) ++ ('\n' :: (lit "author: " ++ (au ++ (lit "\ncreated: " ++
        t.rfc3339)))) from by
      simp only [List.append_assoc]
      rfl]
    rw [splitNl_append_newline _ _ (notMem_append (by decide) hidNL)]
    rw [show lit "author: " ++ (au ++ (lit "\ncreated: " ++ t.rfc3339)) =
      (lit "author: " ++ au) ++ ('\n' :: (lit "created: " ++ t.rfc3339)) from by
        simp only [List.append_assoc]
        rfl]
    rw [splitNl_append_newline _ _ (notMem_append (by decide) hauNL)]
    rw [splitNl_no_newline _ (notMem_append (by decide) hTNL)]
  have hfold : List.foldl parseMetaLine (([] : Str), ([] : Str), ([] : Str))
      [lit "id: " ++ id, lit "author: " ++ au, lit "created: " ++ t.rfc3339] =
      (id, au, ([] : Str)) := by
    simp only [List.foldl_cons, List.foldl_nil]
    rw [parseMetaLine_id _ _ hidTS, parseMetaLine_author _ _ hauTS,
      parseMetaLine_created _ _ hTTS htne]
  have hbc : ((blkP id au t.rfc3339 ++ (lit "-->" ++ (blkQ au t.day B ++ commentEnd))).drop
        ((blkP id au t.rfc3339).length + 3)).take
        ((commentStart ++ midFlat id au B t).length - ((blkP id au t.rfc3339).length + 3)) =
      blkQ au t.day B := by
    rw [show blkP id au t.rfc3339 ++ (lit "-->" ++ (blkQ au t.day B ++ commentEnd)) =
        (blkP id au t.rfc3339 ++ lit "-->") ++ (blkQ au t.day B ++ commentEnd)
      from by simp [List.append_assoc]]
    rw [List.drop_left' (by
      have h3 : (lit "-->").length = 3 := rfl
      simp [h3])]
    have hlen := congrArg List.length (block_flat_shape id au B t)
    simp only [List.length_append] at hlen
    have h3 : (lit "-->").length = 3 := rfl
    rw [show (commentStart ++ midFlat id au B t).length -
        ((blkP id au t.rfc3339).length + 3) = (blkQ au t.day B).length from by
      simp only [List.length_append]
      omega]
    rw [List.take_left]
  have hex : extractCommentBody (blkQ au t.day B) = B :=
    extractCommentBody_core (lit "### @") au t.day B ⟨lit "## @", rfl⟩ (by decide)
      (by simp [List.isPrefixOf, lit]) hauNL hDNL hBt
  unfold parseCommentBlock
  simp only [hstr1, hstr2]
  rw [hms, hM, hsp]
  rw [hfold, hbc, hex]

set_option maxHeartbeats 1000000 in
theorem parseCommentBlock_reply (id au B : Str) (t : GoTime) (p : Str)
    (hid : writer.valWFb id = true) (hau : writer.valWFb au = true)
    (ht : writer.timeWFb t = true) (htne : t.rfc3339 ≠ [])
    (hp : writer.valWFb p = true)
    (hB : '<' ∉ B) (hBt : trimSpace B = B) :
    parseCommentBlock (commentStart ++ (midReply id au B t p ++ commentEnd)) =
      some { ID := id, Author := au, Body := B, ParentID := p } := by
  obtain ⟨hidLT, hidNL, hidTS, hidAR⟩ := valWFb_parts hid
  obtain ⟨hauLT, hauNL, hauTS, hauAR⟩ := valWFb_parts hau
  obtain ⟨hpLT, hpNL, hpTS, hpAR⟩ := valWFb_parts hp
  have htparts : writer.valWFb t.rfc3339 = true ∧ writer.valWFb t.day = true := by
    unfold writer.timeWFb at ht
    simpa [Bool.and_eq_true] using ht
  obtain ⟨hTLT, hTNL, hTTS, hTAR⟩ := valWFb_parts htparts.1
  obtain ⟨hDLT, hDNL, hDTS, hDAR⟩ := valWFb_parts htparts.2
  rw [block_reply_shape]
  have hcb1 : cleanBefore (lit "-->") (blkPr id au p t.rfc3339)
      (lit "-->" ++ (blkQr au t.day B ++ commentEnd)) := by
    unfold blkPr
    refine cleanBefore_append_right (cleanBefore_of_litClean (by decide)) ?_
    refine cleanBefore_append_right
      (fun b => cleanBefore_of_headNotMem (show lit "-->" = '-' :: lit "->" from rfl)
        (by decide)) ?_
    refine cleanBefore_append
      (cleanBefore_of_cleanAll_break _ (strIndex_none_cleanAll hidAR) (by decide)) ?_
    refine cleanBefore_append_right
      (fun b => cleanBefore_of_headNotMem (show lit "-->" = '-' :: lit "->" from rfl)
        (by decide)) ?_
    refine cleanBefore_append
      (cleanBefore_of_cleanAll_break _ (strIndex_none_cleanAll hauAR) (by decide)) ?_
    refine cleanBefore_append_right
      (fun b => cleanBefore_of_headNotMem (show lit "-->" = '-' :: lit "->" from rfl)
        (by decide)) ?_
    refine cleanBefore_append
      (cleanBefore_of_cleanAll_break _ (strIndex_none_cleanAll hpAR) (by decide)) ?_
    refine cleanBefore_append_right
      (fun b => cleanBefore_of_headNotMem (show lit "-->" = '-' :: lit "->" from rfl)
        (by decide)) ?_
    refine cleanBefore_append
      (cleanBefore_of_cleanAll_break _ (strIndex_none_cleanAll hTAR) (by decide)) ?_
    exact cleanBefore_of_headNotMem (show lit "-->" = '-' :: lit "->" from rfl) (by decide)
  have hstr1 : strIndex (blkPr id au p t.rfc3339 ++
      (lit "-->" ++ (blkQr au t.day B ++ commentEnd)))
      (lit "-->") = some (blkPr id au p t.rfc3339).length :=
    strIndex_boundary _ _ _ hcb1
  have hmidLT : '<' ∉ midReply id au B t p := by
    unfold midReply
    refine notMem_append (by decide) (notMem_append hidLT (notMem_append (by decide)
      (notMem_append hauLT (notMem_append (by decide) (notMem_append hpLT
        (notMem_append (by decide) (notMem_append hTLT (notMem_append (by decide)
          (notMem_append hauLT (notMem_append (by decide) (notMem_append hDLT
            (notMem_append (by decide) (notMem_append hB (by decide))))))))))))))
  have hA2 : blkPr id au p t.rfc3339 ++ (lit "-->" ++ (blkQr au t.day B ++ commentEnd)) =
      (commentStart ++ midReply id au B t p) ++ (commentEnd ++ []) := by
    rw [← block_reply_shape]
    simp [List.append_assoc]
  have hcb2 : cleanBefore commentEnd (commentStart ++ midReply id au B t p)
      (commentEnd ++ []) := by
    refine cleanBefore_append_right (cleanBefore_of_litClean (by decide)) ?_
    exact cleanBefore_of_headNotMem
      (show commentEnd = '<' :: lit "!-- /gh-md:comment -->" from rfl) hmidLT
  have hstr2 : strIndex (blkPr id au p t.rfc3339 ++
      (lit "-->" ++ (blkQr au t.day B ++ commentEnd)))
      commentEnd = some (commentStart ++ midReply id au B t p).length := by
    rw [hA2]
    exact strIndex_boundary _ _ _ hcb2
  have hms : ((blkPr id au p t.rfc3339 ++ (lit "-->" ++ (blkQr au t.day B ++ commentEnd))).drop
        commentStart.length).take ((blkPr id au p t.rfc3339).length - commentStart.length) =
      lit "id: " ++ (id ++ (lit "\nauthor: " ++ (au ++ (lit "\nparent: " ++ (p ++
        (lit "\ncreated: " ++ (t.rfc3339 ++ lit "\n"))))))) := by
    rw [show blkPr id au p t.rfc3339 ++ (lit "-->" ++ (blkQr au t.day B ++ commentEnd)) =
        commentStart ++ ((lit "id: " ++ (id ++ (lit "\nauthor: " ++ (au ++ (lit "\nparent: " ++
          (p ++ (lit "\ncreated: " ++ (t.rfc3339 ++ lit "\n")))))))) ++
          (lit "-->" ++ (blkQr au t.day B ++ commentEnd)))
      from by simp [blkPr, List.append_assoc]]
    rw [List.drop_left]
    rw [show (blkPr id au p t.rfc3339).length - commentStart.length =
        (lit "id: " ++ (id ++ (lit "\nauthor: " ++ (au ++ (lit "\nparent: " ++ (p ++
          (lit "\ncreated: " ++ (t.rfc3339 ++ lit "\n")))))))).length from by
      simp only [blkPr, List.length_append]
      omega]
    rw [List.take_left]
  have hM : trimSpace (lit "id: " ++ (id ++ (lit "\nauthor: " ++ (au ++ (lit "\nparent: " ++
        (p ++ (lit "\ncreated: " ++ (t.rfc3339 ++ lit "\n")))))))) =
      lit "id: " ++ (id ++ (lit "\nauthor: " ++ (au ++ (lit "\nparent: " ++ (p ++
        (lit "\ncreated: " ++ t.rfc3339)))))) := by
    rw [show lit "id: " ++ (id ++ (lit "\nauthor: " ++ (au ++ (lit "\nparent: " ++ (p ++
        (lit "\ncreated: " ++ (t.rfc3339 ++ lit "\n"))))))) =
      'i' :: ((lit "d: " ++ (id ++ (lit "\nauthor: " ++ (au ++ (lit "\nparent: " ++ (p ++
        lit "\ncreated: ")))))) ++ (t.rfc3339 ++ ['\n'])) from by
      simp only [List.append_assoc]
      rfl]
    rw [trimSpace_head_nonspace (by decide)]
    have h1 : trimRightStr (t.rfc3339 ++ ['\n']) ≠ [] := by
      rw [trimRightStr_concat_space (by decide), (trim_stable_parts hTTS).2]
      exact htne
    rw [show ('i' :: ((lit "d: " ++ (id ++ (lit "\nauthor: " ++ (au ++ (lit "\nparent: " ++
        (p ++ lit "\ncreated: ")))))) ++ (t.rfc3339 ++ ['\n']))) =
      (lit "id: " ++ (id ++ (lit "\nauthor: " ++ (au ++ (lit "\nparent: " ++ (p ++
        lit "\ncreated: ")))))) ++ (t.rfc3339 ++ ['\n']) from rfl]
    rw [trimRightStr_append h1, trimRightStr_concat_space (by decide),
      (trim_stable_parts hTTS).2]
    simp [List.append_assoc]
  have hsp : splitNl (lit "id: " ++ (id ++ (lit "\nauthor: " ++ (au ++ (lit "\nparent: " ++
        (p ++ (lit "\ncreated: " ++ t.rfc3339))))))) =
      [lit "id: " ++ id, lit "author: " ++ au, lit "parent: " ++ p,
        lit "created: " ++ t.rfc3339] := by
    rw [show lit "id: " ++ (id ++ (lit "\nauthor: " ++ (au ++ (lit "\nparent: " ++ (p ++
        (lit "\ncreated: " ++ t.rfc3339)))))) =
      (lit "id: " ++ id) ++ ('\n' :: (lit "author: " ++ (au ++ (lit "\nparent: " ++ (p ++
        (lit "\ncreated: " ++ t.rfc3339)))))) from by
      simp only [List.append_assoc]
      rfl]
    rw [splitNl_append_newline _ _ (notMem_append (by decide) hidNL)]
    rw [show lit "author: " ++ (au ++ (lit "\nparent: " ++ (p ++ (lit "\ncreated: " ++
        t.rfc3339)))) =
      (lit "author: " ++ au) ++ ('\n' :: (lit "parent: " ++ (p ++ (lit "\ncreated: " ++
        t.rfc3339)))) from by
        simp only [List.append_assoc]
        rfl]
    rw [splitNl_append_newline _ _ (notMem_append (by decide) hauNL)]
    rw [show lit "parent: " ++ (p ++ (lit "\ncreated: " ++ t.rfc3339)) =
      (lit "parent: " ++ p) ++ ('\n' :: (lit "created: " ++ t.rfc3339)) from by
        simp only [List.append_assoc]
        rfl]
    rw [splitNl_append_newline _ _ (notMem_append (by decide) hpNL)]
    rw [splitNl_no_newline _ (notMem_append (by decide) hTNL)]
  have hfold : List.foldl parseMetaLine (([] : Str), ([] : Str), ([] : Str))
      [lit "id: " ++ id, lit "author: " ++ au, lit "parent: " ++ p,
        lit "created: " ++ t.rfc3339] =
      (id, au, p) := by
    simp only [List.foldl_cons, List.foldl_nil]
    rw [parseMetaLine_id _ _ hidTS, parseMetaLine_author _ _ hauTS,
      parseMetaLine_parent _ _ hpTS, parseMetaLine_created _ _ hTTS htne]
  have hbc : ((blkPr id au p t.rfc3339 ++ (lit "-->" ++ (blkQr au t.day B ++ commentEnd))).drop
        ((blkPr id au p t.rfc3339).length + 3)).take
        ((commentStart ++ midReply id au B t p).length -
          ((blkPr id au p t.rfc3339).length + 3)) =
      blkQr au t.day B := by
    rw [show blkPr id au p t.rfc3339 ++ (lit "-->" ++ (blkQr au t.day B ++ commentEnd)) =
        (blkPr id au p t.rfc3339 ++ lit "-->") ++ (blkQr au t.day B ++ commentEnd)
      from by simp [List.append_assoc]]
    rw [List.drop_left' (by
      have h3 : (lit "-->").length = 3 := rfl
      simp [h3])]
    have hlen := congrArg List.length (block_reply_shape id au B t p)
    simp only [List.length_append] at hlen
    have h3 : (lit "-->").length = 3 := rfl
    rw [show (commentStart ++ midReply id au B t p).length -
        ((blkPr id au p t.rfc3339).length + 3) = (blkQr au t.day B).length from by
      simp only [List.length_append]
      omega]
    rw [List.take_left]
  have hex : extractCommentBody (blkQr au t.day B) = B :=
    extractCommentBody_core (lit "#### @") au t.day B ⟨lit "### @", rfl⟩ (by decide)
      (by simp [List.isPrefixOf, lit]) hauNL hDNL hBt
  unfold parseCommentBlock
  simp only [hstr1, hstr2]
  rw [hms, hM, hsp]
  rw [hfold, hbc, hex]

end parser

namespace parser

open GoStrings

/-- A serialized comment region: gaps interleaved with writer-shaped
comment blocks, each block given by its mid part plus its parsed form. -/
def blockStream : List (Str × Str × ParsedComment) → Str → Str
  | [], tail => tail
  | seg :: rest, tail =>
      seg.1 ++ ((commentStart ++ (seg.2.1 ++ commentEnd)) ++ blockStream rest tail)

set_option maxHeartbeats 1000000 in
/-- The marker-comment scanning loop on a stream of writer-shaped blocks:
it finds exactly the blocks, parses each, and records depth 0 (every
block starts right after a newline at column 0). -/
theorem parseMarkerLoop_stream (content : Str) (segs : List (Str × Str × ParsedComment))
    (tail : Str) (offset fuel : Nat)
    (hcontent : content.drop offset = blockStream segs tail)
    (hfuel : (blockStream segs tail).length < fuel)
    (hgaps : ∀ seg ∈ segs, (∀ b, cleanBefore commentStart seg.1 b) ∧
      seg.1.getLast? = some '\n')
    (hmids : ∀ seg ∈ segs, '<' ∉ seg.2.1)
    (hparse : ∀ seg ∈ segs, parseCommentBlock (commentStart ++ (seg.2.1 ++ commentEnd)) =
      some seg.2.2)
    (htail : cleanAll commentStart tail) :
    (parseMarkerLoop fuel content (blockStream segs tail) offset).map
        (fun c => (c.comment, c.depth)) =
      segs.map (fun seg => (seg.2.2, 0)) := by
  induction segs generalizing offset fuel with
  | nil =>
      cases fuel with
      | zero => simp [blockStream] at hfuel
      | succ fuel =>
          unfold parseMarkerLoop
          rw [show blockStream [] tail = tail from rfl, strIndex_eq_none htail]
          rfl
  | cons seg rest ih =>
      obtain ⟨gap, mid, pc⟩ := seg
      cases fuel with
      | zero => simp at hfuel
      | succ fuel =>
        have hg := hgaps _ (List.mem_cons_self _ _)
        have hmid := hmids _ (List.mem_cons_self _ _)
        have hgne : gap ≠ [] := by
          intro h
          rw [h] at hg
          simp at hg
        have hstream : blockStream ((gap, mid, pc) :: rest) tail =
            gap ++ ((commentStart ++ (mid ++ commentEnd)) ++ blockStream rest tail) := rfl
        have hstr1 : strIndex (blockStream ((gap, mid, pc) :: rest) tail) commentStart =
            some gap.length := by
          rw [hstream]
          rw [show (commentStart ++ (mid ++ commentEnd)) ++ blockStream rest tail =
              commentStart ++ ((mid ++ commentEnd) ++ blockStream rest tail) from by
            simp [List.append_assoc]]
          exact strIndex_boundary _ _ _ (hg.1 _)
        have hdropg : (blockStream ((gap, mid, pc) :: rest) tail).drop gap.length =
            (commentStart ++ mid) ++ (commentEnd ++ blockStream rest tail) := by
          rw [hstream, List.drop_left]
          simp [List.append_assoc]
        have hcb2 : cleanBefore commentEnd (commentStart ++ mid)
            (commentEnd ++ blockStream rest tail) := by
          refine cleanBefore_append_right (cleanBefore_of_litClean (by decide)) ?_
          exact cleanBefore_of_headNotMem
            (show commentEnd = '<' :: lit "!-- /gh-md:comment -->" from rfl) hmid
        have hstr2 : strIndex ((blockStream ((gap, mid, pc) :: rest) tail).drop gap.length)
            commentEnd = some (commentStart ++ mid).length := by
          rw [hdropg]
          exact strIndex_boundary _ _ _ hcb2
        have hgd : content.getD (offset + gap.length - 1) ' ' = '\n' := by
          have h1 : (content.drop offset).getD (gap.length - 1) ' ' =
              content.getD (offset + (gap.length - 1)) ' ' := getD_drop _ _ _ _
          have h2 : (blockStream ((gap, mid, pc) :: rest) tail).getD (gap.length - 1) ' ' =
              gap.getD (gap.length - 1) ' ' := by
            rw [hstream]
            have hlt : gap.length - 1 < gap.length := by
              have := List.length_pos.mpr hgne
              omega
            simp [List.getD_eq_getElem?_getD, List.getElem?_append_left hlt]
          have h3 : gap.getD (gap.length - 1) ' ' = '\n' := by
            have := List.getLast?_eq_getElem? gap
            rw [hg.2] at this
            simp [List.getD_eq_getElem?_getD, ← this]
          rw [show offset + gap.length - 1 = offset + (gap.length - 1) from by
            have := List.length_pos.mpr hgne
            omega]
          rw [← h1, hcontent, h2, h3]
        have hdep : calculateIndentation content (offset + gap.length) = 0 := by
          rw [show offset + gap.length = (offset + gap.length - 1) + 1 from by
            have := List.length_pos.mpr hgne
            omega]
          exact calculateIndentation_after_newline _ _ hgd
        have hblock : ((blockStream ((gap, mid, pc) :: rest) tail).drop gap.length).take
            ((commentStart ++ mid).length + commentEnd.length) =
            commentStart ++ (mid ++ commentEnd) := by
          rw [hdropg]
          rw [show (commentStart ++ mid) ++ (commentEnd ++ blockStream rest tail) =
              ((commentStart ++ mid) ++ commentEnd) ++ blockStream rest tail from by
            simp [List.append_assoc]]
          rw [List.take_left' (by simp [List.length_append]; omega)]
          simp [List.append_assoc]
        have hrest : (blockStream ((gap, mid, pc) :: rest) tail).drop
            ((commentStart ++ mid).length + gap.length + commentEnd.length) =
            blockStream rest tail := by
          rw [hstream]
          rw [show gap ++ ((commentStart ++ (mid ++ commentEnd)) ++ blockStream rest tail) =
              (gap ++ (commentStart ++ (mid ++ commentEnd))) ++ blockStream rest tail from by
            simp [List.append_assoc]]
          rw [List.drop_left' (by simp [List.length_append]; omega)]
        have hfuel2 : (blockStream rest tail).length < fuel := by
          rw [hstream] at hfuel
          simp only [List.length_append] at hfuel
          have := List.length_pos.mpr hgne
          omega
        have hcontent2 : content.drop
            (offset + ((commentStart ++ mid).length + gap.length) + commentEnd.length) =
            blockStream rest tail := by
          rw [show offset + ((commentStart ++ mid).length + gap.length) + commentEnd.length =
              offset + ((commentStart ++ mid).length + gap.length + commentEnd.length) from by
            omega]
          rw [← List.drop_drop, hcontent, hrest]
        unfold parseMarkerLoop
        simp only [hstr1, hstr2, hdep, hblock, hrest, hcontent2]
        rw [hparse _ (List.mem_cons_self _ _)]
        simp only [List.map_cons]
        refine congrArg₂ _ rfl ?_
        exact ih _ _ hcontent2 hfuel2
          (fun s hs => hgaps s (List.mem_cons_of_mem _ hs))
          (fun s hs => hmids s (List.mem_cons_of_mem _ hs))
          (fun s hs => hparse s (List.mem_cons_of_mem _ hs))

end parser

namespace GoStrings

/-- An occurrence of `pat` cannot start inside `v` when `v` has no
occurrence and ends with a character not in `pat` (so no spill into any
continuation can begin inside `v` either). -/
theorem cleanBefore_all_of_lastNot {pat v : Str} {c : Char}
    (hv : cleanAll pat v) (hl : v.getLast? = some c) (hc : c ∉ pat) :
    ∀ b, cleanBefore pat v b := by
  intro b i hi hpre
  rw [drop_append_of_lt (Nat.le_of_lt hi)] at hpre
  obtain ⟨t, ht⟩ := List.isPrefixOf_iff_prefix.mp hpre
  rcases le_or_lt pat.length (v.drop i).length with hlen | hlen
  · have hpre2 : pat.isPrefixOf (v.drop i) := by
      have h1 : pat = ((v.drop i) ++ b).take pat.length := by
        rw [← ht]
        simp
      rw [List.take_append_eq_append_take, Nat.sub_eq_zero_of_le hlen] at h1
      simp only [List.take_zero, List.append_nil] at h1
      exact List.isPrefixOf_iff_prefix.mpr (h1 ▸ List.take_prefix _ _)
    exact hv i hpre2
  · have hk : (v.drop i).length - 1 < pat.length := by omega
    have hdne : (v.drop i).length ≠ 0 := by
      rw [List.length_drop]
      omega
    have hgetr : (pat ++ t)[(v.drop i).length - 1]? = some c := by
      rw [ht, List.getElem?_append_left (by omega)]
      rw [List.getElem?_drop]
      have := List.getLast?_eq_getElem? v
      rw [hl] at this
      rw [show i + ((v.drop i).length - 1) = v.length - 1 from by
        rw [List.length_drop]
        omega]
      exact this.symm
    rw [List.getElem?_append_left hk] at hgetr
    exact hc (List.getElem?_mem hgetr)

end GoStrings

namespace parser

open GoStrings

/-- A serialized document seen as placeholder units (the writer's
new-comment markers, all with empty bodies) interleaved with gaps. -/
def phStream : List (Str × Str) → Str → Str
  | [], tail => tail
  | seg :: rest, tail =>
      seg.1 ++ ((newCommentOpen ++ (seg.2 ++ (lit "-->\n\n" ++ newCommentEnd))) ++
        phStream rest tail)

set_option maxHeartbeats 1000000 in
/-- The new-comment scanning loop on writer output: every placeholder
has an empty body, so no new comment is recorded. -/
theorem parseNewCommentLoop_stream (segs : List (Str × Str)) (tail : Str) (fuel : Nat)
    (hfuel : (phStream segs tail).length < fuel)
    (hgaps : ∀ seg ∈ segs, ∀ b, cleanBefore newCommentOpen seg.1 b)
    (hattrs : ∀ seg ∈ segs, strIndex seg.2 (lit "-->") = none ∧
      seg.2.getLast? = some ' ')
    (htail : cleanAll newCommentOpen tail) :
    parseNewCommentLoop fuel (phStream segs tail) = [] := by
  induction segs generalizing fuel with
  | nil =>
      cases fuel with
      | zero => simp [phStream] at hfuel
      | succ fuel =>
          unfold parseNewCommentLoop
          rw [show phStream [] tail = tail from rfl, strIndex_eq_none htail]
  | cons seg rest ih =>
      obtain ⟨gap, attrs⟩ := seg
      cases fuel with
      | zero => simp at hfuel
      | succ fuel =>
        have hg := hgaps _ (List.mem_cons_self _ _)
        have ha := hattrs _ (List.mem_cons_self _ _)
        have hstream : phStream ((gap, attrs) :: rest) tail =
            gap ++ ((newCommentOpen ++ (attrs ++ (lit "-->\n\n" ++ newCommentEnd))) ++
              phStream rest tail) := rfl
        have hstr1 : strIndex (phStream ((gap, attrs) :: rest) tail) newCommentOpen =
            some gap.length := by
          rw [hstream]
          rw [show (newCommentOpen ++ (attrs ++ (lit "-->\n\n" ++ newCommentEnd))) ++
              phStream rest tail =
              newCommentOpen ++ ((attrs ++ (lit "-->\n\n" ++ newCommentEnd)) ++
                phStream rest tail) from by simp [List.append_assoc]]
          exact strIndex_boundary _ _ _ (hg _)
        have hdropg : (phStream ((gap, attrs) :: rest) tail).drop gap.length =
            (newCommentOpen ++ attrs) ++ (lit "-->" ++ (lit "\n\n" ++ (newCommentEnd ++
              phStream rest tail))) := by
          rw [hstream, List.drop_left]
          simp only [List.append_assoc]
          rfl
        have hcb2 : cleanBefore (lit "-->") (newCommentOpen ++ attrs)
            (lit "-->" ++ (lit "\n\n" ++ (newCommentEnd ++ phStream rest tail))) := by
          refine cleanBefore_append_right (cleanBefore_of_litClean (by decide)) ?_
          exact cleanBefore_all_of_lastNot (strIndex_none_cleanAll ha.1) ha.2 (by decide) _
        have hstr2 : strIndex ((phStream ((gap, attrs) :: rest) tail).drop gap.length)
            (lit "-->") = some (newCommentOpen ++ attrs).length := by
          rw [hdropg]
          exact strIndex_boundary _ _ _ hcb2
        have hdropt : (phStream ((gap, attrs) :: rest) tail).drop
            ((newCommentOpen ++ attrs).length + gap.length) =
            lit "-->\n\n" ++ (newCommentEnd ++ phStream rest tail) := by
          rw [hstream]
          rw [show gap ++ ((newCommentOpen ++ (attrs ++ (lit "-->\n\n" ++ newCommentEnd))) ++
              phStream rest tail) =
              (gap ++ (newCommentOpen ++ attrs)) ++ (lit "-->\n\n" ++ (newCommentEnd ++
                phStream rest tail)) from by simp [List.append_assoc]]
          rw [List.drop_left' (by simp [List.length_append]; omega)]
        have hstr3 : strIndex ((phStream ((gap, attrs) :: rest) tail).drop
            ((newCommentOpen ++ attrs).length + gap.length)) newCommentEnd =
            some (lit "-->\n\n").length := by
          rw [hdropt]
          exact strIndex_boundary _ _ _
            (cleanBefore_of_headNotMem
              (show newCommentEnd = '<' :: lit "!-- /gh-md:new-comment -->" from rfl)
              (by decide))
        have hbody : ((phStream ((gap, attrs) :: rest) tail).drop
              ((newCommentOpen ++ attrs).length + gap.length + 3)).take
              ((lit "-->\n\n").length + ((newCommentOpen ++ attrs).length + gap.length) -
                ((newCommentOpen ++ attrs).length + gap.length + 3)) =
            lit "\n\n" := by
          rw [hstream]
          rw [show gap ++ ((newCommentOpen ++ (attrs ++ (lit "-->\n\n" ++ newCommentEnd))) ++
              phStream rest tail) =
              ((gap ++ (newCommentOpen ++ attrs)) ++ lit "-->") ++ (lit "\n\n" ++
                (newCommentEnd ++ phStream rest tail)) from by
            simp only [List.append_assoc]
            rfl]
          have h3 : (lit "-->").length = 3 := rfl
          rw [List.drop_left' (by simp [List.length_append, h3]; omega)]
          have h5 : (lit "-->\n\n").length = 5 := rfl
          have h2 : (lit "\n\n").length = 2 := rfl
          rw [show (lit "-->\n\n").length + ((newCommentOpen ++ attrs).length + gap.length) -
              ((newCommentOpen ++ attrs).length + gap.length + 3) = (lit "\n\n").length from by
            simp only [List.length_append, h5, h2]
            omega]
          exact List.take_left _ _
        have hrest : (phStream ((gap, attrs) :: rest) tail).drop
            ((lit "-->\n\n").length + ((newCommentOpen ++ attrs).length + gap.length) +
              newCommentEnd.length) = phStream rest tail := by
          rw [hstream]
          rw [show gap ++ ((newCommentOpen ++ (attrs ++ (lit "-->\n\n" ++ newCommentEnd))) ++
              phStream rest tail) =
              (((gap ++ (newCommentOpen ++ attrs)) ++ lit "-->\n\n") ++ newCommentEnd) ++
                phStream rest tail from by
            simp only [List.append_assoc]]
          rw [List.drop_left' (by simp [List.length_append]; omega)]
        have hfuel2 : (phStream rest tail).length < fuel := by
          rw [hstream] at hfuel
          simp only [List.length_append] at hfuel
          have h0 : 0 < newCommentOpen.length := by decide
          omega
        unfold parseNewCommentLoop
        simp only [hstr1, hstr2, hstr3, hbody, hrest]
        rw [show trimSpace (lit "\n\n") = [] from by decide]
        simp only [ne_eq, not_true_eq_false, if_neg, not_false_iff, ite_false]
        exact ih fuel hfuel2
          (fun s hs => hgaps s (List.mem_cons_of_mem _ hs))
          (fun s hs => hattrs s (List.mem_cons_of_mem _ hs))

end parser

namespace writer

open GoStrings github parser

/-- Rendering of a list of frontmatter scalar pairs, one `key: value`
line each, as `yaml.Marshal` emits them. -/
def yamlLines : List (Str × Str) → Str
  | [] => []
  | p :: rest => yamlLine p.1 p.2 ++ yamlLines rest

/-- A usable frontmatter key: non-empty, not starting with a dash, no
newline. -/
def keyOK (k : Str) : Bool :=
  (match k with
   | [] => false
   | c :: _ => c != '-') && decide ('\n' ∉ k)

theorem yamlLines_append (a b : List (Str × Str)) :
    yamlLines (a ++ b) = yamlLines a ++ yamlLines b := by
  induction a with
  | nil => rfl
  | cons p rest ih => simp [yamlLines, ih]

theorem yamlLines_concat (ps : List (Str × Str)) (k v : Str) :
    yamlLines (ps ++ [(k, v)]) = (yamlLines ps ++ (k ++ (lit ": " ++ v))) ++ lit "\n" := by
  rw [yamlLines_append]
  simp [yamlLines, yamlLine, List.append_assoc]

theorem cleanBefore_nlLine (L b : Str) (hL : '\n' ∉ L)
    (hb : ¬ (lit "---").isPrefixOf b = true) :
    cleanBefore (lit "\n---\n") (L ++ ['\n']) b := by
  intro i hi hpre
  simp only [List.length_append, List.length_cons, List.length_nil] at hi
  rcases Nat.lt_or_ge i L.length with hlt | hge
  · have h := cleanBefore_of_headNotMem
      (show lit "\n---\n" = '\n' :: lit "---\n" from rfl) hL (b := '\n' :: b) i hlt
    apply h
    rw [show (L ++ ['\n']) ++ b = L ++ ('\n' :: b) from by simp] at hpre
    exact hpre
  · have hieq : i = L.length := by omega
    subst hieq
    rw [show (L ++ ['\n']) ++ b = L ++ ('\n' :: b) from by simp, List.drop_left] at hpre
    have h2 : lit "---\n" <+: b := by
      have hp := List.isPrefixOf_iff_prefix.mp hpre
      rw [show lit "\n---\n" = '\n' :: lit "---\n" from rfl] at hp
      exact (List.cons_prefix_cons.mp hp).2
    apply hb
    have hp1 : lit "---" <+: lit "---\n" := ⟨['\n'], rfl⟩
    exact List.isPrefixOf_iff_prefix.mpr (hp1.trans h2)

theorem notPrefix_dash_yamlLines (ps : List (Str × Str)) (b : Str)
    (hkeys : ∀ p ∈ ps, keyOK p.1 = true)
    (hb : ¬ (lit "---").isPrefixOf b = true) :
    ¬ (lit "---").isPrefixOf (yamlLines ps ++ b) = true := by
  cases ps with
  | nil => simpa using hb
  | cons p rest =>
      have hk := hkeys p (List.mem_cons_self _ _)
      unfold keyOK at hk
      intro hcon
      cases hp1 : p.1 with
      | nil => rw [hp1] at hk; simp at hk
      | cons c t =>
          rw [hp1] at hk
          simp only [Bool.and_eq_true, bne_iff_ne, ne_eq, decide_eq_true_eq] at hk
          have hshape : yamlLines (p :: rest) ++ b =
              c :: ((t ++ (lit ": " ++ p.2 ++ lit "\n")) ++ (yamlLines rest ++ b)) := by
            simp [yamlLines, yamlLine, hp1, List.append_assoc]
          rw [hshape] at hcon
          have := (List.cons_prefix_cons.mp (List.isPrefixOf_iff_prefix.mp hcon)).1
          exact hk.1 this.symm

theorem cleanBefore_yamlLines (ps : List (Str × Str)) (b : Str)
    (hkeys : ∀ p ∈ ps, keyOK p.1 = true ∧ '\n' ∉ p.2)
    (hb : ¬ (lit "---").isPrefixOf b = true) :
    cleanBefore (lit "\n---\n") (yamlLines ps) b := by
  induction ps with
  | nil => exact cleanBefore_nil _ _
  | cons p rest ih =>
      have hk := hkeys p (List.mem_cons_self _ _)
      have hkey := hk.1
      have hknl : '\n' ∉ p.1 := by
        unfold keyOK at hkey
        rcases hp1 : p.1 with _ | ⟨c, t⟩
        · rw [hp1] at hkey; simp at hkey
        · rw [hp1] at hkey
          simp only [Bool.and_eq_true, decide_eq_true_eq] at hkey
          exact hkey.2
      show cleanBefore (lit "\n---\n") (yamlLine p.1 p.2 ++ yamlLines rest) b
      refine cleanBefore_append ?_ (ih (fun q hq => hkeys q (List.mem_cons_of_mem _ hq)))
      have hline : yamlLine p.1 p.2 = ((p.1 ++ lit ": ") ++ p.2) ++ ['\n'] := by
        simp only [yamlLine, List.append_assoc]
        rfl
      rw [hline]
      refine cleanBefore_nlLine _ _ ?_ ?_
      · exact notMem_append (notMem_append hknl (by decide)) hk.2
      · exact notPrefix_dash_yamlLines rest b
          (fun q hq => (hkeys q (List.mem_cons_of_mem _ hq)).1) hb

end writer

namespace writer

open GoStrings github parser

theorem notPrefix_dash_key (k X : Str) (hk : keyOK k = true) :
    ¬ (lit "---").isPrefixOf (k ++ X) = true := by
  rcases hk1 : k with _ | ⟨c, t⟩
  · rw [hk1] at hk; simp [keyOK] at hk
  · rw [hk1] at hk
    simp only [keyOK, Bool.and_eq_true, bne_iff_ne, ne_eq, decide_eq_true_eq] at hk
    intro hcon
    rw [show (c :: t) ++ X = c :: (t ++ X) from rfl] at hcon
    have := (List.cons_prefix_cons.mp (List.isPrefixOf_iff_prefix.mp hcon)).1
    exact hk.1 this.symm

theorem keyOK_noNl {k : Str} (hk : keyOK k = true) : '\n' ∉ k := by
  rcases hk1 : k with _ | ⟨c, t⟩
  · simp
  · rw [hk1] at hk
    simp only [keyOK, Bool.and_eq_true, decide_eq_true_eq] at hk
    exact hk1 ▸ hk.2

set_option maxHeartbeats 1000000 in
theorem extractFrontmatter_writer (ps : List (Str × Str)) (k v rest : Str)
    (hkeys : ∀ p ∈ ps, keyOK p.1 = true ∧ '\n' ∉ p.2)
    (hk : keyOK k = true) (hv : '\n' ∉ v) :
    extractFrontmatter (lit "---\n" ++ (yamlLines (ps ++ [(k, v)]) ++ (lit "---\n\n" ++ rest))) =
      some ({ id := yamlScalar (yamlLines ps ++ (k ++ (lit ": " ++ v))) (lit "id"),
              owner := yamlScalar (yamlLines ps ++ (k ++ (lit ": " ++ v))) (lit "owner"),
              repo := yamlScalar (yamlLines ps ++ (k ++ (lit ": " ++ v))) (lit "repo"),
              number := yamlScalar (yamlLines ps ++ (k ++ (lit ": " ++ v))) (lit "number"),
              updated := yamlScalar (yamlLines ps ++ (k ++ (lit ": " ++ v))) (lit "updated"),
              state := yamlScalar (yamlLines ps ++ (k ++ (lit ": " ++ v))) (lit "state") },
            '\n' :: rest) := by
  have hknl : '\n' ∉ k := keyOK_noNl hk
  have hX : yamlLines (ps ++ [(k, v)]) ++ (lit "---\n\n" ++ rest) =
      (yamlLines ps ++ (k ++ (lit ": " ++ v))) ++ (lit "\n---\n" ++ ('\n' :: rest)) := by
    rw [yamlLines_concat]
    simp only [List.append_assoc]
    rfl
  have hcb : cleanBefore (lit "\n---\n") (yamlLines ps ++ (k ++ (lit ": " ++ v)))
      (lit "\n---\n" ++ ('\n' :: rest)) := by
    refine cleanBefore_append ?_ ?_
    · refine cleanBefore_yamlLines ps _ hkeys ?_
      rw [show (k ++ (lit ": " ++ v)) ++ (lit "\n---\n" ++ ('\n' :: rest)) =
          k ++ ((lit ": " ++ v) ++ (lit "\n---\n" ++ ('\n' :: rest))) from by
        simp [List.append_assoc]]
      exact notPrefix_dash_key _ _ hk
    · exact cleanBefore_of_headNotMem
        (show lit "\n---\n" = '\n' :: lit "---\n" from rfl)
        (notMem_append hknl (notMem_append (by decide) hv))
  have hstr : strIndex ((yamlLines ps ++ (k ++ (lit ": " ++ v))) ++
      (lit "\n---\n" ++ ('\n' :: rest))) (lit "\n---\n") =
      some (yamlLines ps ++ (k ++ (lit ": " ++ v))).length :=
    strIndex_boundary _ _ _ hcb
  have hpre2 : (lit "---\n").isPrefixOf (lit "---\n" ++ (yamlLines (ps ++ [(k, v)]) ++
      (lit "---\n\n" ++ rest))) = true :=
    isPrefixOf_append_left _ (List.isPrefixOf_iff_prefix.mpr (List.prefix_refl _))
  have hdrop4 : (lit "---\n" ++ (yamlLines (ps ++ [(k, v)]) ++ (lit "---\n\n" ++ rest))).drop 4 =
      (yamlLines ps ++ (k ++ (lit ": " ++ v))) ++ (lit "\n---\n" ++ ('\n' :: rest)) := by
    rw [List.drop_left' (show (lit "---\n").length = 4 from rfl), hX]
  have hdropR : (lit "---\n" ++ (yamlLines (ps ++ [(k, v)]) ++ (lit "---\n\n" ++ rest))).drop
      (4 + (yamlLines ps ++ (k ++ (lit ": " ++ v))).length + 5) = '\n' :: rest := by
    rw [show lit "---\n" ++ (yamlLines (ps ++ [(k, v)]) ++ (lit "---\n\n" ++ rest)) =
        (lit "---\n" ++ ((yamlLines ps ++ (k ++ (lit ": " ++ v))) ++ lit "\n---\n")) ++
          ('\n' :: rest) from by
      rw [yamlLines_concat]
      simp only [List.append_assoc]
      rfl]
    rw [List.drop_left' (by
      have h4 : (lit "---\n").length = 4 := rfl
      have h5 : (lit "\n---\n").length = 5 := rfl
      simp only [List.length_append, h4, h5]
      omega)]
  unfold extractFrontmatter
  rw [if_neg (fun hcon => hcon hpre2)]
  rw [hdrop4, hstr]
  simp only [List.take_left]
  rw [hdropR]

end writer

namespace writer

open GoStrings github parser

theorem splitNl_yamlLines (ps : List (Str × Str)) (kv : Str)
    (hkeys : ∀ p ∈ ps, keyOK p.1 = true ∧ '\n' ∉ p.2)
    (hkv : '\n' ∉ kv) :
    splitNl (yamlLines ps ++ kv) = ps.map (fun p => p.1 ++ (lit ": " ++ p.2)) ++ [kv] := by
  induction ps with
  | nil => simpa using splitNl_no_newline kv hkv
  | cons p rest ih =>
      have hk := hkeys p (List.mem_cons_self _ _)
      rw [show yamlLines (p :: rest) ++ kv =
          (p.1 ++ (lit ": " ++ p.2)) ++ ('\n' :: (yamlLines rest ++ kv)) from by
        simp only [yamlLines, yamlLine, List.append_assoc]
        rfl]
      rw [splitNl_append_newline _ _
        (notMem_append (keyOK_noNl hk.1) (notMem_append (by decide) hk.2))]
      rw [ih (fun q hq => hkeys q (List.mem_cons_of_mem _ hq))]
      simp

theorem yamlScalar_id_first (ID : Str) (rest : List (Str × Str)) (kv : Str)
    (hID : trimSpace ID = ID)
    (hrest : ∀ p ∈ rest, keyOK p.1 = true ∧ '\n' ∉ p.2)
    (hIDnl : '\n' ∉ ID) (hkv : '\n' ∉ kv) :
    yamlScalar (yamlLines ((lit "id", ID) :: rest) ++ kv) (lit "id") = ID := by
  unfold yamlScalar
  rw [splitNl_yamlLines _ _ (by
    intro p hp
    rcases List.mem_cons.mp hp with h | h
    · subst h
      exact ⟨show keyOK (lit "id") = true from by decide, hIDnl⟩
    · exact hrest p h) hkv]
  simp only [List.map_cons, List.cons_append]
  rw [List.find?_cons_of_pos _ (by simp [List.isPrefixOf, lit])]
  show trimSpace ((lit "id" ++ (lit ": " ++ ID)).drop ((lit "id").length + 1)) = ID
  rw [show (lit "id" ++ (lit ": " ++ ID)).drop ((lit "id").length + 1) = ' ' :: ID from rfl]
  rw [trimSpace_cons_space (by decide), hID]

end writer

namespace writer

open GoStrings github parser

/-- The scalar pairs of the issue frontmatter, in struct order, except
the final `last_pulled` entry. -/
def issuePairs (i : Issue) : List (Str × Str) :=
  (lit "id", i.ID) :: (lit "url", i.URL) :: (lit "number", i.Number) :: (lit "owner", i.Owner) ::
    (lit "repo", i.Repo) :: (lit "title", i.Title) :: (lit "state", i.State) ::
    ((if i.Author ≠ [] then [(lit "author", i.Author)] else []) ++
     [(lit "created", i.CreatedAt.rfc3339), (lit "updated", i.UpdatedAt.rfc3339)])

/-- The scalar pairs of the discussion frontmatter, except the final
`last_pulled` entry. -/
def discussionPairs (d : Discussion) : List (Str × Str) :=
  (lit "id", d.ID) :: (lit "url", d.URL) :: (lit "number", d.Number) :: (lit "owner", d.Owner) ::
    (lit "repo", d.Repo) :: (lit "title", d.Title) :: (lit "category", d.Category) ::
    (lit "author", d.Author) ::
    ((if d.AnswerID ≠ [] then [(lit "answer_id", d.AnswerID)] else []) ++
     ((if d.Locked then [(lit "locked", lit "true")] else []) ++
      [(lit "created", d.CreatedAt.rfc3339), (lit "updated", d.UpdatedAt.rfc3339)]))

theorem IssueFrontmatterText_eq (i : Issue) (now : GoTime) :
    IssueFrontmatterText i now =
      yamlLines (issuePairs i ++ [(lit "last_pulled", now.rfc3339)]) := by
  unfold IssueFrontmatterText issuePairs
  by_cases h : i.Author ≠ [] <;>
    simp [h, yamlLines, yamlLines_append, List.append_assoc]

theorem DiscussionFrontmatterText_eq (d : Discussion) (now : GoTime) :
    DiscussionFrontmatterText d now =
      yamlLines (discussionPairs d ++ [(lit "last_pulled", now.rfc3339)]) := by
  unfold DiscussionFrontmatterText discussionPairs
  by_cases h1 : d.AnswerID ≠ [] <;> by_cases h2 : d.Locked <;>
    simp [h1, h2, yamlLines, yamlLines_append, List.append_assoc]

theorem issuePairs_ok (i : Issue) (hWF : issueWFb i = true) :
    ∀ p ∈ issuePairs i, keyOK p.1 = true ∧ '\n' ∉ p.2 := by
  unfold issueWFb at hWF
  simp only [Bool.and_eq_true] at hWF
  obtain ⟨⟨⟨⟨⟨⟨⟨⟨⟨⟨⟨⟨hID, hURL⟩, hNum⟩, hOwn⟩, hRepo⟩, hTitle⟩, hTne⟩, hState⟩,
    hAu⟩, hCr⟩, hUp⟩, hBody⟩, hCom⟩ := hWF
  have hCr2 : valWFb i.CreatedAt.rfc3339 = true ∧ valWFb i.CreatedAt.day = true := by
    unfold timeWFb at hCr
    simpa [Bool.and_eq_true] using hCr
  have hUp2 : valWFb i.UpdatedAt.rfc3339 = true ∧ valWFb i.UpdatedAt.day = true := by
    unfold timeWFb at hUp
    simpa [Bool.and_eq_true] using hUp
  intro p hp
  simp only [issuePairs, List.mem_cons, List.mem_append, List.mem_singleton] at hp
  rcases hp with h | h | h | h | h | h | h | h
  · subst h
    exact ⟨show keyOK (lit "id") = true from by decide, (valWFb_parts hID).2.1⟩
  · subst h
    exact ⟨show keyOK (lit "url") = true from by decide, (valWFb_parts hURL).2.1⟩
  · subst h
    exact ⟨show keyOK (lit "number") = true from by decide, (valWFb_parts hNum).2.1⟩
  · subst h
    exact ⟨show keyOK (lit "owner") = true from by decide, (valWFb_parts hOwn).2.1⟩
  · subst h
    exact ⟨show keyOK (lit "repo") = true from by decide, (valWFb_parts hRepo).2.1⟩
  · subst h
    exact ⟨show keyOK (lit "title") = true from by decide, (valWFb_parts hTitle).2.1⟩
  · subst h
    exact ⟨show keyOK (lit "state") = true from by decide, (valWFb_parts hState).2.1⟩
  · rcases h with h | h | h
    · by_cases ha : i.Author ≠ []
      · rw [if_pos ha] at h
        simp only [List.mem_singleton] at h
        subst h
        exact ⟨show keyOK (lit "author") = true from by decide, (valWFb_parts hAu).2.1⟩
      · rw [if_neg ha] at h
        simp at h
    · subst h
      exact ⟨show keyOK (lit "created") = true from by decide, (valWFb_parts hCr2.1).2.1⟩
    · rcases h with h | h
      · subst h
        exact ⟨show keyOK (lit "updated") = true from by decide, (valWFb_parts hUp2.1).2.1⟩
      · simp at h

theorem discussionPairs_ok (d : Discussion) (hWF : discussionWFb d = true) :
    ∀ p ∈ discussionPairs d, keyOK p.1 = true ∧ '\n' ∉ p.2 := by
  unfold discussionWFb at hWF
  simp only [Bool.and_eq_true] at hWF
  obtain ⟨⟨⟨⟨⟨⟨⟨⟨⟨⟨⟨⟨⟨hID, hURL⟩, hNum⟩, hOwn⟩, hRepo⟩, hTitle⟩, hTne⟩, hCat⟩,
    hAu⟩, hAns⟩, hCr⟩, hUp⟩, hBody⟩, hCom⟩ := hWF
  have hCr2 : valWFb d.CreatedAt.rfc3339 = true ∧ valWFb d.CreatedAt.day = true := by
    unfold timeWFb at hCr
    simpa [Bool.and_eq_true] using hCr
  have hUp2 : valWFb d.UpdatedAt.rfc3339 = true ∧ valWFb d.UpdatedAt.day = true := by
    unfold timeWFb at hUp
    simpa [Bool.and_eq_true] using hUp
  intro p hp
  simp only [discussionPairs, List.mem_cons, List.mem_append, List.mem_singleton] at hp
  rcases hp with h | h | h | h | h | h | h | h | h
  · subst h
    exact ⟨show keyOK (lit "id") = true from by decide, (valWFb_parts hID).2.1⟩
  · subst h
    exact ⟨show keyOK (lit "url") = true from by decide, (valWFb_parts hURL).2.1⟩
  · subst h
    exact ⟨show keyOK (lit "number") = true from by decide, (valWFb_parts hNum).2.1⟩
  · subst h
    exact ⟨show keyOK (lit "owner") = true from by decide, (valWFb_parts hOwn).2.1⟩
  · subst h
    exact ⟨show keyOK (lit "repo") = true from by decide, (valWFb_parts hRepo).2.1⟩
  · subst h
    exact ⟨show keyOK (lit "title") = true from by decide, (valWFb_parts hTitle).2.1⟩
  · subst h
    exact ⟨show keyOK (lit "category") = true from by decide, (valWFb_parts hCat).2.1⟩
  · subst h
    exact ⟨show keyOK (lit "author") = true from by decide, (valWFb_parts hAu).2.1⟩
  · rcases h with h | h
    · by_cases ha : d.AnswerID ≠ []
      · rw [if_pos ha] at h
        simp only [List.mem_singleton] at h
        subst h
        exact ⟨show keyOK (lit "answer_id") = true from by decide, (valWFb_parts hAns).2.1⟩
      · rw [if_neg ha] at h
        simp at h
    · rcases h with h | h | h
      · by_cases hl : d.Locked
        · rw [if_pos hl] at h
          simp only [List.mem_singleton] at h
          subst h
          exact ⟨show keyOK (lit "locked") = true from by decide,
            show '\n' ∉ lit "true" from by decide⟩
        · rw [if_neg hl] at h
          simp at h
      · subst h
        exact ⟨show keyOK (lit "created") = true from by decide, (valWFb_parts hCr2.1).2.1⟩
      · rcases h with h | h
        · subst h
          exact ⟨show keyOK (lit "updated") = true from by decide, (valWFb_parts hUp2.1).2.1⟩
        · simp at h

end writer

namespace parser

open GoStrings

set_option maxHeartbeats 1000000 in
/-- `extractTitleAndBody` on the exact shape produced by
`buildMarkdownWithFrontmatter` (after the frontmatter has been
stripped, which leaves a leading newline). -/
theorem extractTitleAndBody_writer (title body TAIL2 : Str)
    (htNL : '\n' ∉ title) (htTS : trimSpace title = title) (htNE : title ≠ [])
    (htLT : '<' ∉ title)
    (hbLT : '<' ∉ body) (hbTS : trimSpace body = body) :
    extractTitleAndBody ('\n' :: (contentStart ++ (lit "\n# " ++ (title ++ (lit "\n\n" ++
      (body ++ (lit "\n" ++ (contentEnd ++ TAIL2)))))))) = (title, body) := by
  have hshape1 : ('\n' :: (contentStart ++ (lit "\n# " ++ (title ++ (lit "\n\n" ++
      (body ++ (lit "\n" ++ (contentEnd ++ TAIL2)))))))) =
      ['\n'] ++ (contentStart ++ (lit "\n# " ++ (title ++ (lit "\n\n" ++
      (body ++ (lit "\n" ++ (contentEnd ++ TAIL2))))))) := rfl
  have hstr1 : strIndex ('\n' :: (contentStart ++ (lit "\n# " ++ (title ++ (lit "\n\n" ++
      (body ++ (lit "\n" ++ (contentEnd ++ TAIL2)))))))) contentStart = some 1 := by
    rw [hshape1]
    exact strIndex_boundary _ _ _
      (cleanBefore_of_headNotMem
        (show contentStart = '<' :: lit "!-- gh-md:content -->" from rfl) (by decide))
  have hcbW : cleanBefore contentEnd
      (['\n'] ++ (contentStart ++ (lit "\n# " ++ (title ++ (lit "\n\n" ++
        (body ++ lit "\n")))))) (contentEnd ++ TAIL2) := by
    have hpat : contentEnd = '<' :: lit "!-- /gh-md:content -->" := rfl
    refine cleanBefore_append_right
      (fun b => cleanBefore_of_headNotMem hpat (by decide)) ?_
    refine cleanBefore_append_right (cleanBefore_of_litClean (by decide)) ?_
    refine cleanBefore_append_right
      (fun b => cleanBefore_of_headNotMem hpat (by decide)) ?_
    refine cleanBefore_append_right
      (fun b => cleanBefore_of_headNotMem hpat htLT) ?_
    refine cleanBefore_append_right
      (fun b => cleanBefore_of_headNotMem hpat (by decide)) ?_
    refine cleanBefore_append_right
      (fun b => cleanBefore_of_headNotMem hpat hbLT) ?_
    exact cleanBefore_of_headNotMem hpat (by decide)
  have hstr2 : strIndex ('\n' :: (contentStart ++ (lit "\n# " ++ (title ++ (lit "\n\n" ++
      (body ++ (lit "\n" ++ (contentEnd ++ TAIL2)))))))) contentEnd =
      some (['\n'] ++ (contentStart ++ (lit "\n# " ++ (title ++ (lit "\n\n" ++
        (body ++ lit "\n")))))).length := by
    rw [show ('\n' :: (contentStart ++ (lit "\n# " ++ (title ++ (lit "\n\n" ++
        (body ++ (lit "\n" ++ (contentEnd ++ TAIL2)))))))) =
      (['\n'] ++ (contentStart ++ (lit "\n# " ++ (title ++ (lit "\n\n" ++
        (body ++ lit "\n")))))) ++ (contentEnd ++ TAIL2) from by
      simp only [List.append_assoc]
      rfl]
    exact strIndex_boundary _ _ _ hcbW
  have hC22 : contentStart.length = 22 := rfl
  have hnotle : ¬ (['\n'] ++ (contentStart ++ (lit "\n# " ++ (title ++ (lit "\n\n" ++
      (body ++ lit "\n")))))).length ≤ 1 := by
    simp only [List.length_append, List.length_cons, List.length_nil, hC22]
    omega
  have hdropC : ('\n' :: (contentStart ++ (lit "\n# " ++ (title ++ (lit "\n\n" ++
      (body ++ (lit "\n" ++ (contentEnd ++ TAIL2)))))))).drop (1 + contentStart.length) =
      lit "\n# " ++ (title ++ (lit "\n\n" ++ (body ++ (lit "\n" ++
        (contentEnd ++ TAIL2))))) := by
    rw [show ('\n' :: (contentStart ++ (lit "\n# " ++ (title ++ (lit "\n\n" ++
        (body ++ (lit "\n" ++ (contentEnd ++ TAIL2)))))))) =
      ('\n' :: contentStart) ++ (lit "\n# " ++ (title ++ (lit "\n\n" ++
        (body ++ (lit "\n" ++ (contentEnd ++ TAIL2)))))) from rfl]
    rw [List.drop_left' (by simp [hC22])]
  have htake : (lit "\n# " ++ (title ++ (lit "\n\n" ++ (body ++ (lit "\n" ++
      (contentEnd ++ TAIL2)))))).take
      ((['\n'] ++ (contentStart ++ (lit "\n# " ++ (title ++ (lit "\n\n" ++
        (body ++ lit "\n")))))).length - (1 + contentStart.length)) =
      lit "\n# " ++ (title ++ (lit "\n\n" ++ (body ++ lit "\n"))) := by
    rw [show lit "\n# " ++ (title ++ (lit "\n\n" ++ (body ++ (lit "\n" ++
        (contentEnd ++ TAIL2))))) =
      (lit "\n# " ++ (title ++ (lit "\n\n" ++ (body ++ lit "\n")))) ++
        (contentEnd ++ TAIL2) from by
      simp only [List.append_assoc]]
    rw [List.take_left' (by
      simp only [List.length_append, List.length_cons, List.length_nil, hC22]
      omega)]
  have htrim : trimSpace (lit "\n# " ++ (title ++ (lit "\n\n" ++ (body ++ lit "\n")))) =
      if body.isEmpty then lit "# " ++ title
      else (lit "# " ++ title) ++ ('\n' :: ('\n' :: body)) := by
    rw [show lit "\n# " ++ (title ++ (lit "\n\n" ++ (body ++ lit "\n"))) =
      '\n' :: ('#' :: (lit " " ++ (title ++ (lit "\n\n" ++ (body ++ lit "\n"))))) from rfl]
    rw [trimSpace_cons_space (by decide), trimSpace_head_nonspace (by decide)]
    by_cases hbe : body.isEmpty
    · have hb0 : body = [] := by
        cases body with
        | nil => rfl
        | cons x xs => simp at hbe
      subst hb0
      simp only [hbe, if_pos]
      rw [show '#' :: (lit " " ++ (title ++ (lit "\n\n" ++ ([] ++ lit "\n")))) =
        (('#' :: (lit " " ++ title)) ++ lit "\n\n\n") from by
        simp
        rfl]
      rw [trimRightStr_append_nil (by decide)]
      have htr : trimRightStr title = title := (trim_stable_parts htTS).2
      rw [show ('#' :: (lit " " ++ title)) = (lit "# ") ++ title from rfl]
      rw [trimRightStr_append (by rw [htr]; exact htNE), htr]
    · have hbne : body ≠ [] := by
        cases body with
        | nil => simp at hbe
        | cons x xs => simp
      simp only [hbe, Bool.false_eq_true, if_neg, not_false_iff]
      have hbr : trimRightStr body = body := (trim_stable_parts hbTS).2
      have h1 : trimRightStr (body ++ ['\n']) ≠ [] := by
        rw [trimRightStr_concat_space (by decide), hbr]
        exact hbne
      rw [show '#' :: (lit " " ++ (title ++ (lit "\n\n" ++ (body ++ lit "\n")))) =
        ((lit "# " ++ title) ++ ('\n' :: '\n' :: [])) ++ (body ++ ['\n']) from by
        simp only [List.append_assoc]
        rfl]
      rw [trimRightStr_append h1, trimRightStr_concat_space (by decide), hbr]
      simp [List.append_assoc]
  unfold extractTitleAndBody
  simp only [hstr1, hstr2]
  rw [if_neg (by
    intro hcon
    exact hnotle hcon)]
  rw [hdropC, htake, htrim]
  by_cases hbe : body.isEmpty
  · have hb0 : body = [] := by
      cases body with
      | nil => rfl
      | cons x xs => simp at hbe
    subst hb0
    simp only [hbe, if_pos]
    have hpre : (lit "# ").isPrefixOf (lit "# " ++ title) = true :=
      writer.isPrefixOf_append_left _ (List.isPrefixOf_iff_prefix.mpr (List.prefix_refl _))
    rw [if_neg (by
      intro hcon
      exact hcon hpre)]
    have hnl : strIndex (lit "# " ++ title) (lit "\n") = none :=
      strIndex_eq_none (cleanAll_of_headNotMem
        (show lit "\n" = '\n' :: ([] : Str) from rfl)
        (notMem_append (by decide) htNL))
    simp only [hnl]
    rw [show trimPrefixStr (lit "# " ++ title) (lit "# ") = title from by
      unfold trimPrefixStr
      rw [if_pos hpre]
      rfl]
  · simp only [hbe, Bool.false_eq_true, if_neg, not_false_iff]
    have hpre : (lit "# ").isPrefixOf ((lit "# " ++ title) ++ ('\n' :: ('\n' :: body))) =
        true := by
      rw [show (lit "# " ++ title) ++ ('\n' :: ('\n' :: body)) =
        lit "# " ++ (title ++ ('\n' :: ('\n' :: body))) from by simp]
      exact writer.isPrefixOf_append_left _
        (List.isPrefixOf_iff_prefix.mpr (List.prefix_refl _))
    rw [if_neg (by
      intro hcon
      exact hcon hpre)]
    rw [show ((lit "# " ++ title) ++ ('\n' :: ('\n' :: body))) =
      (lit "# " ++ title) ++ (lit "\n" ++ ('\n' :: body)) from rfl]
    have hstrNl : strIndex ((lit "# " ++ title) ++ (lit "\n" ++ ('\n' :: body)))
        (lit "\n") = some (lit "# " ++ title).length :=
      strIndex_boundary _ _ _
        (cleanBefore_of_headNotMem (show lit "\n" = '\n' :: ([] : Str) from rfl)
          (notMem_append (by decide) htNL))
    simp only [hstrNl]
    rw [List.take_left]
    rw [show trimPrefixStr (lit "# " ++ title) (lit "# ") = title from by
      unfold trimPrefixStr
      rw [if_pos (writer.isPrefixOf_append_left _
        (List.isPrefixOf_iff_prefix.mpr (List.prefix_refl _)))]
      rfl]
    rw [show ((lit "# " ++ title) ++ (lit "\n" ++ ('\n' :: body))).drop
        ((lit "# " ++ title).length + 1) = '\n' :: body from by
      rw [show (lit "# " ++ title) ++ (lit "\n" ++ ('\n' :: body)) =
        ((lit "# " ++ title) ++ lit "\n") ++ ('\n' :: body) from by
        simp only [List.append_assoc]]
      rw [List.drop_left' (by
        have h1 : (lit "\n").length = 1 := rfl
        simp [List.length_append, h1]
        omega)]]
    rw [trimSpace_cons_space (by decide), hbTS]

end parser

namespace writer

open GoStrings github parser

theorem writeComment_block (c : Comment) :
    writeComment c =
      (commentStart ++ (midFlat c.ID c.Author c.Body c.CreatedAt ++ commentEnd)) ++
        lit "\n\n" := by
  unfold writeComment writeCommentHeader writeCommentBody midFlat
  rw [show commentStart = lit "<!-- gh-md:" ++ (lit "comment" ++ lit "\n") from by decide]
  rw [show commentEnd = lit "<!-- /gh-md:" ++ (lit "comment" ++ lit " -->") from by decide]
  rw [show lit "\nauthor: " = lit "\n" ++ lit "author: " from by decide]
  rw [show lit "\ncreated: " = lit "\n" ++ lit "created: " from by decide]
  rw [show lit "\n-->\n### @" = lit "\n" ++ (lit "-->\n" ++ (lit "###" ++ lit " @"))
    from by decide]
  rw [show lit "\n<!-- /gh-md:" = lit "\n" ++ lit "<!-- /gh-md:" from by decide]
  rw [show lit " -->\n\n" = lit " -->" ++ lit "\n\n" from by decide]
  simp only [List.append_assoc]

theorem writeDiscussionComment_block (id au B : Str) (t : GoTime)
    (rs : List DiscussionComment) (p : Str) :
    writeDiscussionComment (.mk id au B t rs) p =
      (commentStart ++ ((if p.isEmpty then midFlat id au B t else midReply id au B t p) ++
        commentEnd)) ++
      (lit "\n\n" ++ ((newCommentOpen ++ ((lit " reply_to: " ++ (id ++ lit " ")) ++
        (lit "-->\n\n" ++ newCommentEnd))) ++ (lit "\n\n" ++
        writeDiscussionComments rs id))) := by
  have hsplit1 : lit "\nauthor: " = lit "\n" ++ lit "author: " := by decide
  have hsplit2 : lit "\ncreated: " = lit "\n" ++ lit "created: " := by decide
  have hsplit3 : lit "\nparent: " = lit "\n" ++ lit "parent: " := by decide
  have hsplit4 : lit "\n-->\n### @" =
      lit "\n" ++ (lit "-->\n" ++ (lit "###" ++ lit " @")) := by decide
  have hsplit5 : lit "\n-->\n#### @" =
      lit "\n" ++ (lit "-->\n" ++ (lit "####" ++ lit " @")) := by decide
  have hsplit6 : lit "\n<!-- /gh-md:comment -->\n\n" =
      lit "\n" ++ (commentEnd ++ lit "\n\n") := by decide
  have hsplit7 : lit "<!-- gh-md:new-comment reply_to: " =
      newCommentOpen ++ lit " reply_to: " := by decide
  have hsplit8 : lit " -->\n\n<!-- /gh-md:new-comment -->\n\n" =
      lit " " ++ (lit "-->\n\n" ++ (newCommentEnd ++ lit "\n\n")) := by decide
  by_cases hp : p = []
  · subst hp
    rw [if_pos (show ([] : Str).isEmpty = true from rfl)]
    rw [writeDiscussionComment]
    simp only [ne_eq, not_true_eq_false, if_neg, not_false_iff, ite_false]
    rw [show midFlat id au B t =
      lit "id: " ++ (id ++ (lit "\nauthor: " ++ (au ++ (lit "\ncreated: " ++ (t.rfc3339 ++
        (lit "\n-->\n### @" ++ (au ++ (lit " (" ++ (t.day ++ (lit ")\n\n" ++
          (B ++ lit "\n"))))))))))) from rfl]
    rw [hsplit4, hsplit6, hsplit7, hsplit8, hsplit1, hsplit2]
    rw [show commentStart = lit "<!-- gh-md:comment\n" from rfl]
    simp only [List.append_assoc, List.nil_append]
  · rw [if_neg (by
      intro hcon
      exact hp (by
        cases hpv : p with
        | nil => rfl
        | cons x xs => rw [hpv] at hcon; simp at hcon))]
    rw [writeDiscussionComment]
    rw [if_pos hp, if_pos hp]
    rw [show midReply id au B t p =
      lit "id: " ++ (id ++ (lit "\nauthor: " ++ (au ++ (lit "\nparent: " ++ (p ++
        (lit "\ncreated: " ++ (t.rfc3339 ++ (lit "\n-->\n#### @" ++ (au ++ (lit " (" ++
          (t.day ++ (lit ")\n\n" ++ (B ++ lit "\n"))))))))))))) from rfl]
    rw [hsplit5, hsplit6, hsplit7, hsplit8, hsplit1, hsplit2, hsplit3]
    rw [show commentStart = lit "<!-- gh-md:comment\n" from rfl]
    simp only [List.append_assoc]

end writer

namespace parser

theorem blockStream_append (s1 s2 : List (Str × Str × ParsedComment)) (tail : Str) :
    blockStream (s1 ++ s2) tail = blockStream s1 (blockStream s2 tail) := by
  induction s1 with
  | nil => rfl
  | cons seg rest ih => simp [blockStream, ih]

theorem phStream_append (s1 s2 : List (Str × Str)) (tail : Str) :
    phStream (s1 ++ s2) tail = phStream s1 (phStream s2 tail) := by
  induction s1 with
  | nil => rfl
  | cons seg rest ih => simp [phStream, ih]

end parser

namespace writer

open GoStrings github parser

/-- Marker-view segments of a serialized flat comment list, threading
the pending gap before the next block. -/
def flatSegs : List Comment → Str → List (Str × Str × ParsedComment) × Str
  | [], g => ([], g)
  | c :: rest, g =>
      let r := flatSegs rest (lit "\n\n")
      ((g, midFlat c.ID c.Author c.Body c.CreatedAt,
        { ID := c.ID, Author := c.Author, Body := c.Body, ParentID := [] }) :: r.1, r.2)

theorem flat_stream (cs : List Comment) (g tail : Str) :
    g ++ ((cs.map writeComment).flatten ++ tail) =
      blockStream (flatSegs cs g).1 ((flatSegs cs g).2 ++ tail) := by
  induction cs generalizing g with
  | nil => simp [flatSegs, blockStream]
  | cons c rest ih =>
      simp only [List.map_cons, List.flatten_cons, flatSegs, blockStream]
      rw [writeComment_block c]
      rw [← ih (lit "\n\n")]
      simp [List.append_assoc]

mutual

/-- Marker-view segments of a serialized discussion comment subtree,
given the pending gap before its first block; also returns the trailing
pending gap. -/
def segsDC : DiscussionComment → Str → Str → List (Str × Str × ParsedComment) × Str
  | .mk id au B t rs, p, g =>
      let r := segsDCs rs id (lit "\n\n" ++ ((newCommentOpen ++ ((lit " reply_to: " ++
        (id ++ lit " ")) ++ (lit "-->\n\n" ++ newCommentEnd))) ++ lit "\n\n"))
      ((g, (if p.isEmpty then midFlat id au B t else midReply id au B t p),
        { ID := id, Author := au, Body := B, ParentID := p }) :: r.1, r.2)

/-- Marker-view segments of a serialized discussion comment forest. -/
def segsDCs : List DiscussionComment → Str → Str → List (Str × Str × ParsedComment) × Str
  | [], _, g => ([], g)
  | c :: rest, p, g =>
      let r1 := segsDC c p g
      let r2 := segsDCs rest p r1.2
      (r1.1 ++ r2.1, r2.2)

end

mutual

theorem writeDC_stream (c : DiscussionComment) (p g tail : Str) :
    g ++ (writeDiscussionComment c p ++ tail) =
      blockStream (segsDC c p g).1 ((segsDC c p g).2 ++ tail) := by
  cases c with
  | mk id au B t rs =>
      rw [writeDiscussionComment_block]
      simp only [segsDC]
      rw [blockStream]
      dsimp only
      rw [← writeDCs_stream rs id (lit "\n\n" ++ ((newCommentOpen ++ ((lit " reply_to: " ++
        (id ++ lit " ")) ++ (lit "-->\n\n" ++ newCommentEnd))) ++ lit "\n\n")) tail]
      simp only [List.append_assoc]

theorem writeDCs_stream (cs : List DiscussionComment) (p g tail : Str) :
    g ++ (writeDiscussionComments cs p ++ tail) =
      blockStream (segsDCs cs p g).1 ((segsDCs cs p g).2 ++ tail) := by
  cases cs with
  | nil => simp [writeDiscussionComments, segsDCs, blockStream]
  | cons c rest =>
      rw [writeDiscussionComments]
      simp only [segsDCs]
      rw [blockStream_append]
      rw [← writeDCs_stream rest p (segsDC c p g).2 tail]
      rw [← writeDC_stream c p g (writeDiscussionComments rest p ++ tail)]
      simp only [List.append_assoc]

end

end writer

namespace writer

open GoStrings github parser

mutual

/-- Placeholder-view segments of a serialized discussion comment
subtree: each unit is the comment's reply placeholder, its gap holding
the pending text plus the comment block. -/
def phSegsDC : DiscussionComment → Str → Str → List (Str × Str) × Str
  | .mk id au B t rs, p, g =>
      let r := phSegsDCs rs id (lit "\n\n")
      ((g ++ ((commentStart ++ ((if p.isEmpty then midFlat id au B t
          else midReply id au B t p) ++ commentEnd)) ++ lit "\n\n"),
        lit " reply_to: " ++ (id ++ lit " ")) :: r.1, r.2)

/-- Placeholder-view segments of a forest. -/
def phSegsDCs : List DiscussionComment → Str → Str → List (Str × Str) × Str
  | [], _, g => ([], g)
  | c :: rest, p, g =>
      let r1 := phSegsDC c p g
      let r2 := phSegsDCs rest p r1.2
      (r1.1 ++ r2.1, r2.2)

end

mutual

theorem phDC_stream (c : DiscussionComment) (p g tail : Str) :
    g ++ (writeDiscussionComment c p ++ tail) =
      phStream (phSegsDC c p g).1 ((phSegsDC c p g).2 ++ tail) := by
  cases c with
  | mk id au B t rs =>
      rw [writeDiscussionComment_block]
      simp only [phSegsDC]
      rw [phStream]
      dsimp only
      rw [← phDCs_stream rs id (lit "\n\n") tail]
      simp only [List.append_assoc]

theorem phDCs_stream (cs : List DiscussionComment) (p g tail : Str) :
    g ++ (writeDiscussionComments cs p ++ tail) =
      phStream (phSegsDCs cs p g).1 ((phSegsDCs cs p g).2 ++ tail) := by
  cases cs with
  | nil => simp [writeDiscussionComments, phSegsDCs, phStream]
  | cons c rest =>
      rw [writeDiscussionComments]
      simp only [phSegsDCs]
      rw [phStream_append]
      rw [← phDCs_stream rest p (phSegsDC c p g).2 tail]
      rw [← phDC_stream c p g (writeDiscussionComments rest p ++ tail)]
      simp only [List.append_assoc]

end

mutual

/-- The expected parse of a serialized discussion comment subtree:
preorder, each node paired with its structural parent id. -/
def flattenDC : DiscussionComment → Str → List ParsedComment
  | .mk id au B _ rs, p =>
      { ID := id, Author := au, Body := B, ParentID := p } :: flattenDCs rs id

/-- The expected parse of a forest. -/
def flattenDCs : List DiscussionComment → Str → List ParsedComment
  | [], _ => []
  | c :: rest, p => flattenDC c p ++ flattenDCs rest p

end

mutual

theorem segsDC_map (c : DiscussionComment) (p g : Str) :
    (segsDC c p g).1.map (fun s => s.2.2) = flattenDC c p := by
  cases c with
  | mk id au B t rs =>
      simp only [segsDC, flattenDC, List.map_cons]
      rw [segsDCs_map rs id]

theorem segsDCs_map (cs : List DiscussionComment) (p g : Str) :
    (segsDCs cs p g).1.map (fun s => s.2.2) = flattenDCs cs p := by
  cases cs with
  | nil => simp [segsDCs, flattenDCs]
  | cons c rest =>
      simp only [segsDCs, flattenDCs, List.map_append]
      rw [segsDC_map c p g, segsDCs_map rest p]

end

theorem flatSegs_map (cs : List Comment) (g : Str) :
    (flatSegs cs g).1.map (fun s => s.2.2) =
      cs.map (fun c =>
        ({ ID := c.ID, Author := c.Author, Body := c.Body, ParentID := [] } : ParsedComment)) := by
  induction cs generalizing g with
  | nil => simp [flatSegs]
  | cons c rest ih => simp [flatSegs, ih]

end writer

namespace writer

open GoStrings github parser

mutual

/-- Round-trip well-formedness of a discussion comment tree: plain
ids/authors/times (non-empty id, non-empty RFC3339 rendering) and
sentinel-free trim-stable bodies. -/
def dcWF1 : DiscussionComment → Bool
  | .mk id au B t rs =>
      valWFb id && !id.isEmpty && valWFb au && timeWFb t && !t.rfc3339.isEmpty &&
        decide ('<' ∉ B) && decide (trimSpace B = B) && dcsWF1 rs

/-- Round-trip well-formedness of a forest. -/
def dcsWF1 : List DiscussionComment → Bool
  | [] => true
  | c :: rest => dcWF1 c && dcsWF1 rest

end

/-- Round-trip well-formedness of a flat comment. -/
def commentWF1 (c : Comment) : Bool :=
  valWFb c.ID && !c.ID.isEmpty && valWFb c.Author && timeWFb c.CreatedAt &&
    !c.CreatedAt.rfc3339.isEmpty && decide ('<' ∉ c.Body) &&
    decide (trimSpace c.Body = c.Body)

/-- Round-trip well-formedness of an issue document. -/
def issueWF1 (i : Issue) : Bool :=
  issueWFb i && decide (trimSpace i.Body = i.Body) && i.Comments.all commentWF1

/-- Round-trip well-formedness of a discussion document. -/
def discussionWF1 (d : Discussion) : Bool :=
  discussionWFb d && decide (trimSpace d.Body = d.Body) && dcsWF1 d.Comments

/-- A usable gap before a marker comment block: no occurrence of the
opening sentinel can start inside it, and it ends with a newline. -/
def MGapOK (g : Str) : Prop :=
  (∀ b, cleanBefore commentStart g b) ∧ g.getLast? = some '\n'

/-- A usable gap before a new-comment placeholder. -/
def PGapOK (g : Str) : Prop := ∀ b, cleanBefore newCommentOpen g b

theorem midFlat_noLT {id au B : Str} {t : GoTime} (hid : '<' ∉ id) (hau : '<' ∉ au)
    (hT : '<' ∉ t.rfc3339) (hD : '<' ∉ t.day) (hB : '<' ∉ B) :
    '<' ∉ midFlat id au B t := by
  unfold midFlat
  refine notMem_append (by decide) (notMem_append hid (notMem_append (by decide)
    (notMem_append hau (notMem_append (by decide) (notMem_append hT
      (notMem_append (by decide) (notMem_append hau (notMem_append (by decide)
        (notMem_append hD (notMem_append (by decide)
          (notMem_append hB (by decide))))))))))))

theorem midReply_noLT {id au B p : Str} {t : GoTime} (hid : '<' ∉ id) (hau : '<' ∉ au)
    (hT : '<' ∉ t.rfc3339) (hD : '<' ∉ t.day) (hB : '<' ∉ B) (hp : '<' ∉ p) :
    '<' ∉ midReply id au B t p := by
  unfold midReply
  refine notMem_append (by decide) (notMem_append hid (notMem_append (by decide)
    (notMem_append hau (notMem_append (by decide) (notMem_append hp
      (notMem_append (by decide) (notMem_append hT (notMem_append (by decide)
        (notMem_append hau (notMem_append (by decide) (notMem_append hD
          (notMem_append (by decide) (notMem_append hB (by decide))))))))))))))

theorem innerGap_MGapOK (id : Str) (hid : '<' ∉ id) :
    MGapOK (lit "\n\n" ++ ((newCommentOpen ++ ((lit " reply_to: " ++ (id ++ lit " ")) ++
      (lit "-->\n\n" ++ newCommentEnd))) ++ lit "\n\n")) := by
  have hpat : commentStart = '<' :: lit "!-- gh-md:comment\n" := rfl
  constructor
  · intro b
    refine cleanBefore_append_right
      (fun b2 => cleanBefore_of_headNotMem hpat (by decide)) ?_
    refine cleanBefore_append_right ?_
      (cleanBefore_of_headNotMem hpat (by decide))
    intro b2
    refine cleanBefore_append_right (cleanBefore_of_litClean (by decide)) ?_
    refine cleanBefore_append_right ?_ ?_
    · intro b3
      refine cleanBefore_append_right
        (fun b4 => cleanBefore_of_headNotMem hpat (by decide)) ?_
      refine cleanBefore_append_right
        (fun b4 => cleanBefore_of_headNotMem hpat hid) ?_
      exact cleanBefore_of_headNotMem hpat (by decide)
    · refine cleanBefore_append_right
        (fun b3 => cleanBefore_of_headNotMem hpat (by decide)) ?_
      exact cleanBefore_of_litClean (by decide) _
  · rw [show lit "\n\n" ++ ((newCommentOpen ++ ((lit " reply_to: " ++ (id ++ lit " ")) ++
      (lit "-->\n\n" ++ newCommentEnd))) ++ lit "\n\n") =
      ((lit "\n\n" ++ ((newCommentOpen ++ ((lit " reply_to: " ++ (id ++ lit " ")) ++
        (lit "-->\n\n" ++ newCommentEnd))) ++ lit "\n")) ++ ['\n']) from by
      simp only [List.append_assoc]
      rfl]
    exact List.getLast?_concat _

theorem nlnl_MGapOK : MGapOK (lit "\n\n") := by
  constructor
  · intro b
    exact cleanBefore_of_headNotMem (show commentStart = '<' :: lit "!-- gh-md:comment\n"
      from rfl) (by decide)
  · rfl

end writer

namespace writer

open GoStrings github parser

theorem dcWF1_parts {id au B : Str} {t : GoTime} {rs : List DiscussionComment}
    (h : dcWF1 (.mk id au B t rs) = true) :
    valWFb id = true ∧ id ≠ [] ∧ valWFb au = true ∧ timeWFb t = true ∧
      t.rfc3339 ≠ [] ∧ '<' ∉ B ∧ trimSpace B = B ∧ dcsWF1 rs = true := by
  rw [dcWF1] at h
  simp only [Bool.and_eq_true, decide_eq_true_eq, Bool.not_eq_true'] at h
  obtain ⟨⟨⟨⟨⟨⟨⟨h1, h2⟩, h3⟩, h4⟩, h5⟩, h6⟩, h7⟩, h8⟩ := h
  refine ⟨h1, ?_, h3, h4, ?_, h6, h7, h8⟩
  · intro h0
    subst h0
    simp at h2
  · intro h0
    rw [h0] at h5
    simp at h5

theorem commentWF1_parts {c : Comment} (h : commentWF1 c = true) :
    valWFb c.ID = true ∧ c.ID ≠ [] ∧ valWFb c.Author = true ∧
      timeWFb c.CreatedAt = true ∧ c.CreatedAt.rfc3339 ≠ [] ∧ '<' ∉ c.Body ∧
      trimSpace c.Body = c.Body := by
  rw [commentWF1] at h
  simp only [Bool.and_eq_true, decide_eq_true_eq, Bool.not_eq_true'] at h
  obtain ⟨⟨⟨⟨⟨⟨h1, h2⟩, h3⟩, h4⟩, h5⟩, h6⟩, h7⟩ := h
  refine ⟨h1, ?_, h3, h4, ?_, h6, h7⟩
  · intro h0
    rw [h0] at h2
    simp at h2
  · intro h0
    rw [h0] at h5
    simp at h5

mutual

theorem segsDC_props (c : DiscussionComment) (p g : Str) (hc : dcWF1 c = true)
    (hpv : valWFb p = true) (hg : MGapOK g) :
    (∀ seg ∈ (segsDC c p g).1, MGapOK seg.1 ∧ '<' ∉ seg.2.1 ∧
      parseCommentBlock (commentStart ++ (seg.2.1 ++ commentEnd)) = some seg.2.2) ∧
    MGapOK (segsDC c p g).2 := by
  cases c with
  | mk id au B t rs =>
      obtain ⟨h1, h2, h3, h4, h5, h6, h7, h8⟩ := dcWF1_parts hc
      have hrec := segsDCs_props rs id
        (lit "\n\n" ++ ((newCommentOpen ++ ((lit " reply_to: " ++ (id ++ lit " ")) ++
          (lit "-->\n\n" ++ newCommentEnd))) ++ lit "\n\n")) h8 h1
        (innerGap_MGapOK id (valWFb_parts h1).1)
      constructor
      · intro seg hseg
        simp only [segsDC] at hseg
        rcases List.mem_cons.mp hseg with he | he
        · subst he
          refine ⟨hg, ?_, ?_⟩
          · by_cases hp : p.isEmpty
            · rw [if_pos hp]
              exact midFlat_noLT (valWFb_parts h1).1 (valWFb_parts h3).1
                (valWFb_parts (by
                  unfold timeWFb at h4
                  simp only [Bool.and_eq_true] at h4
                  exact h4.1)).1
                (valWFb_parts (by
                  unfold timeWFb at h4
                  simp only [Bool.and_eq_true] at h4
                  exact h4.2)).1 h6
            · rw [if_neg hp]
              exact midReply_noLT (valWFb_parts h1).1 (valWFb_parts h3).1
                (valWFb_parts (by
                  unfold timeWFb at h4
                  simp only [Bool.and_eq_true] at h4
                  exact h4.1)).1
                (valWFb_parts (by
                  unfold timeWFb at h4
                  simp only [Bool.and_eq_true] at h4
                  exact h4.2)).1 h6 (valWFb_parts hpv).1
          · by_cases hp : p.isEmpty
            · rw [if_pos hp]
              have hp0 : p = [] := by
                cases p with
                | nil => rfl
                | cons x xs => simp at hp
              rw [hp0]
              exact parseCommentBlock_flat id au B t h1 h3 h4 h5 h6 h7
            · rw [if_neg hp]
              exact parseCommentBlock_reply id au B t p h1 h3 h4 h5 hpv h6 h7
        · exact hrec.1 seg he
      · simpa only [segsDC] using hrec.2

theorem segsDCs_props (cs : List DiscussionComment) (p g : Str) (hcs : dcsWF1 cs = true)
    (hpv : valWFb p = true) (hg : MGapOK g) :
    (∀ seg ∈ (segsDCs cs p g).1, MGapOK seg.1 ∧ '<' ∉ seg.2.1 ∧
      parseCommentBlock (commentStart ++ (seg.2.1 ++ commentEnd)) = some seg.2.2) ∧
    MGapOK (segsDCs cs p g).2 := by
  cases cs with
  | nil =>
      constructor
      · intro seg hseg
        simp [segsDCs] at hseg
      · simpa only [segsDCs] using hg
  | cons c rest =>
      have hparts : dcWF1 c = true ∧ dcsWF1 rest = true := by
        rw [dcsWF1] at hcs
        simpa [Bool.and_eq_true] using hcs
      have hr1 := segsDC_props c p g hparts.1 hpv hg
      have hr2 := segsDCs_props rest p (segsDC c p g).2 hparts.2 hpv hr1.2
      constructor
      · intro seg hseg
        simp only [segsDCs] at hseg
        rcases List.mem_append.mp hseg with he | he
        · exact hr1.1 seg he
        · exact hr2.1 seg he
      · simpa only [segsDCs] using hr2.2

end

theorem flatSegs_props (cs : List Comment) (g : Str) (hcs : cs.all commentWF1 = true)
    (hg : MGapOK g) :
    (∀ seg ∈ (flatSegs cs g).1, MGapOK seg.1 ∧ '<' ∉ seg.2.1 ∧
      parseCommentBlock (commentStart ++ (seg.2.1 ++ commentEnd)) = some seg.2.2) ∧
    MGapOK (flatSegs cs g).2 := by
  induction cs generalizing g with
  | nil =>
      constructor
      · intro seg hseg
        simp [flatSegs] at hseg
      · simpa only [flatSegs] using hg
  | cons c rest ih =>
      have hparts : commentWF1 c = true ∧ rest.all commentWF1 = true := by
        simpa [List.all_cons, Bool.and_eq_true] using hcs
      obtain ⟨h1, h2, h3, h4, h5, h6, h7⟩ := commentWF1_parts hparts.1
      have hrec := ih (lit "\n\n") hparts.2 nlnl_MGapOK
      constructor
      · intro seg hseg
        simp only [flatSegs] at hseg
        rcases List.mem_cons.mp hseg with he | he
        · subst he
          refine ⟨hg, ?_, ?_⟩
          · exact midFlat_noLT (valWFb_parts h1).1 (valWFb_parts h3).1
              (valWFb_parts (by
                unfold timeWFb at h4
                simp only [Bool.and_eq_true] at h4
                exact h4.1)).1
              (valWFb_parts (by
                unfold timeWFb at h4
                simp only [Bool.and_eq_true] at h4
                exact h4.2)).1 h6
          · exact parseCommentBlock_flat c.ID c.Author c.Body c.CreatedAt h1 h3 h4 h5 h6 h7
        · exact hrec.1 seg he
      · simpa only [flatSegs] using hrec.2

end writer

namespace writer

open GoStrings github parser

theorem nlnl_PGapOK : PGapOK (lit "\n\n") := by
  intro b
  exact cleanBefore_of_headNotMem
    (show newCommentOpen = '<' :: lit "!-- gh-md:new-comment" from rfl) (by decide)

/-- The reply placeholder attributes are free of the tag delimiter and
end in a blank. -/
theorem attrs_ok (id : Str) (hid : strIndex id (lit "-->") = none) :
    strIndex (lit " reply_to: " ++ (id ++ lit " ")) (lit "-->") = none ∧
      (lit " reply_to: " ++ (id ++ lit " ")).getLast? = some ' ' := by
  constructor
  · apply strIndex_eq_none
    refine cleanAll_append ?_ ?_
    · exact cleanBefore_of_headNotMem (show lit "-->" = '-' :: lit "->" from rfl) (by decide)
    · refine cleanAll_append ?_ ?_
      · exact cleanBefore_of_cleanAll_break _ (strIndex_none_cleanAll hid) (by decide)
      · exact cleanAll_of_headNotMem (show lit "-->" = '-' :: lit "->" from rfl) (by decide)
  · rw [show lit " reply_to: " ++ (id ++ lit " ") =
      ((lit " reply_to: " ++ id) ++ [' ']) from by
      simp [List.append_assoc]
      rfl]
    exact List.getLast?_concat _

/-- A serialized comment block followed by a blank line cannot start a
placeholder occurrence. -/
theorem blockGap_PGapOK (mid g : Str) (hmid : '<' ∉ mid) (hg : PGapOK g) :
    PGapOK (g ++ ((commentStart ++ (mid ++ commentEnd)) ++ lit "\n\n")) := by
  have hpat : newCommentOpen = '<' :: lit "!-- gh-md:new-comment" := rfl
  intro b
  refine cleanBefore_append_right hg ?_
  refine cleanBefore_append_right ?_ (cleanBefore_of_headNotMem hpat (by decide))
  intro b2
  refine cleanBefore_append_right (cleanBefore_of_litClean (by decide)) ?_
  refine cleanBefore_append_right (fun b3 => cleanBefore_of_headNotMem hpat hmid) ?_
  exact cleanBefore_of_litClean
    (show litClean newCommentOpen commentEnd = true from by decide) _

mutual

theorem phSegsDC_props (c : DiscussionComment) (p g : Str) (hc : dcWF1 c = true)
    (hpv : valWFb p = true) (hg : PGapOK g) :
    (∀ seg ∈ (phSegsDC c p g).1, (∀ b, cleanBefore newCommentOpen seg.1 b) ∧
      strIndex seg.2 (lit "-->") = none ∧ seg.2.getLast? = some ' ') ∧
    PGapOK (phSegsDC c p g).2 := by
  cases c with
  | mk id au B t rs =>
      obtain ⟨h1, h2, h3, h4, h5, h6, h7, h8⟩ := dcWF1_parts hc
      have hrec := phSegsDCs_props rs id (lit "\n\n") h8 h1 nlnl_PGapOK
      have hmid : '<' ∉ (if p.isEmpty then midFlat id au B t else midReply id au B t p) := by
        have hT4 : valWFb t.rfc3339 = true ∧ valWFb t.day = true := by
          unfold timeWFb at h4
          simpa [Bool.and_eq_true] using h4
        by_cases hp : p.isEmpty
        · rw [if_pos hp]
          exact midFlat_noLT (valWFb_parts h1).1 (valWFb_parts h3).1
            (valWFb_parts hT4.1).1 (valWFb_parts hT4.2).1 h6
        · rw [if_neg hp]
          exact midReply_noLT (valWFb_parts h1).1 (valWFb_parts h3).1
            (valWFb_parts hT4.1).1 (valWFb_parts hT4.2).1 h6 (valWFb_parts hpv).1
      constructor
      · intro seg hseg
        simp only [phSegsDC] at hseg
        rcases List.mem_cons.mp hseg with he | he
        · subst he
          refine ⟨blockGap_PGapOK _ _ hmid hg, ?_, ?_⟩
          · exact (attrs_ok id (valWFb_parts h1).2.2.2).1
          · exact (attrs_ok id (valWFb_parts h1).2.2.2).2
        · exact hrec.1 seg he
      · simpa only [phSegsDC] using hrec.2

theorem phSegsDCs_props (cs : List DiscussionComment) (p g : Str) (hcs : dcsWF1 cs = true)
    (hpv : valWFb p = true) (hg : PGapOK g) :
    (∀ seg ∈ (phSegsDCs cs p g).1, (∀ b, cleanBefore newCommentOpen seg.1 b) ∧
      strIndex seg.2 (lit "-->") = none ∧ seg.2.getLast? = some ' ') ∧
    PGapOK (phSegsDCs cs p g).2 := by
  cases cs with
  | nil =>
      constructor
      · intro seg hseg
        simp [phSegsDCs] at hseg
      · simpa only [phSegsDCs] using hg
  | cons c rest =>
      have hparts : dcWF1 c = true ∧ dcsWF1 rest = true := by
        rw [dcsWF1] at hcs
        simpa [Bool.and_eq_true] using hcs
      have hr1 := phSegsDC_props c p g hparts.1 hpv hg
      have hr2 := phSegsDCs_props rest p (phSegsDC c p g).2 hparts.2 hpv hr1.2
      constructor
      · intro seg hseg
        simp only [phSegsDCs] at hseg
        rcases List.mem_append.mp hseg with he | he
        · exact hr1.1 seg he
        · exact hr2.1 seg he
      · simpa only [phSegsDCs] using hr2.2

end

end writer


namespace parser

/-- A parsed-comment list whose marker scan yields only depth-0 entries
passes through `assignParentIDs` unchanged. -/
theorem comments_of_proj (l : List commentWithDepth) (L : List ParsedComment)
    (h : l.map (fun c => (c.comment, c.depth)) = L.map (fun pc => (pc, 0))) :
    assignParentIDs l = L := by
  have h1 : l.map (fun c => c.comment) = L := by
    have h2 := congrArg (List.map Prod.fst) h
    rw [List.map_map, List.map_map] at h2
    calc l.map (fun c => c.comment)
        = l.map (Prod.fst ∘ fun c => (c.comment, c.depth)) := rfl
      _ = L.map (Prod.fst ∘ fun pc => (pc, 0)) := h2
      _ = L.map (fun pc => pc) := rfl
      _ = L := List.map_id' L
  have hds : ∀ cwd ∈ l, cwd.depth = 0 := by
    intro cwd hc
    have hm : (cwd.comment, cwd.depth) ∈ L.map (fun pc => (pc, 0)) := by
      rw [← h]
      exact List.mem_map_of_mem _ hc
    obtain ⟨pc, hpc, he⟩ := List.mem_map.mp hm
    have h3 := congrArg Prod.snd he
    simpa using h3.symm
  unfold assignParentIDs
  rw [assignGo_depth0 _ _ hds, h1]

/-- `parseContent` projected to the round-trip components, on a content
whose frontmatter extraction is known. -/
theorem parseContent_proj {content : Str} (path : Str) {A B C D E F rest : Str}
    (h : extractFrontmatter content = some ({ id := A, owner := B, repo := C,
                                              number := D, updated := E,
                                              state := F }, rest)) :
    (parseContent content path).map (fun P => (P.ID, P.Title, P.Body, P.Comments)) =
      some (A, (extractTitleAndBody rest).1, (extractTitleAndBody rest).2,
        parseComments rest) := by
  unfold parseContent
  rw [h]
  rfl

end parser

namespace writer

open GoStrings github parser

/-- The trailing top-level new-comment placeholder `finishMarkdown`
appends to every document. -/
def docTrailer : Str :=
  lit "\n<!-- gh-md:new-comment -->\n\n<!-- /gh-md:new-comment -->\n"

/-- The serialized document between the frontmatter's closing marker and
the first comment block (comment-bearing documents): leading newline,
content section, section separator. -/
def headGap (title body : Str) : Str :=
  '\n' :: (contentStart ++ (lit "\n# " ++ (title ++ (lit "\n\n" ++ (body ++ (lit "\n" ++
    (contentEnd ++ (lit "\n" ++ lit "\n---\n\n"))))))))

/-- As `headGap`, for a document without comment section. -/
def headGapE (title body : Str) : Str :=
  '\n' :: (contentStart ++ (lit "\n# " ++ (title ++ (lit "\n\n" ++ (body ++ (lit "\n" ++
    (contentEnd ++ lit "\n")))))))

/-- The serialized document after the frontmatter block, for a document
with comment text `X`. -/
def restPC (title body X : Str) : Str :=
  contentStart ++ (lit "\n# " ++ (title ++ (lit "\n\n" ++ (body ++ (lit "\n" ++
    (contentEnd ++ (lit "\n" ++ (lit "\n---\n\n" ++ (X ++ docTrailer)))))))))

/-- The serialized document after the frontmatter block, comment-free
case. -/
def restPE (title body : Str) : Str :=
  contentStart ++ (lit "\n# " ++ (title ++ (lit "\n\n" ++ (body ++ (lit "\n" ++
    (contentEnd ++ (lit "\n" ++ docTrailer)))))))

theorem restPC_split (title body X : Str) :
    '\n' :: restPC title body X = headGap title body ++ (X ++ docTrailer) := by
  simp only [restPC, headGap, List.cons_append, List.append_assoc]

theorem restPE_split (title body : Str) :
    '\n' :: restPE title body = headGapE title body ++ docTrailer := by
  simp only [restPE, headGapE, List.cons_append, List.append_assoc]

/-- The trailing placeholder contains no comment opening sentinel. -/
theorem trailerM : cleanAll commentStart docTrailer :=
  strIndex_none_cleanAll (by decide)

/-- The trailing placeholder as a one-element placeholder stream. -/
theorem trailer_phStream (g : Str) :
    g ++ docTrailer = phStream [(g ++ lit "\n", lit " ")] (lit "\n") := by
  rw [show phStream [(g ++ lit "\n", lit " ")] (lit "\n") =
    (g ++ lit "\n") ++ ((newCommentOpen ++ (lit " " ++ (lit "-->\n\n" ++ newCommentEnd))) ++
      lit "\n") from rfl]
  rw [show docTrailer = lit "\n" ++ (newCommentOpen ++ (lit " " ++ (lit "-->\n\n" ++
    (newCommentEnd ++ lit "\n")))) from by decide]
  simp only [List.append_assoc]

theorem headGap_MGapOK (title body : Str) (ht : '<' ∉ title) (hb : '<' ∉ body) :
    MGapOK (headGap title body) := by
  have hpat : commentStart = '<' :: lit "!-- gh-md:comment\n" := rfl
  constructor
  · intro b
    rw [show headGap title body = ['\n'] ++ (contentStart ++ (lit "\n# " ++ (title ++
      (lit "\n\n" ++ (body ++ (lit "\n" ++ (contentEnd ++ (lit "\n" ++
        lit "\n---\n\n")))))))) from rfl]
    refine cleanBefore_append_right (fun b2 => cleanBefore_of_headNotMem hpat (by decide)) ?_
    refine cleanBefore_append_right (cleanBefore_of_litClean (by decide)) ?_
    refine cleanBefore_append_right (fun b2 => cleanBefore_of_headNotMem hpat (by decide)) ?_
    refine cleanBefore_append_right (fun b2 => cleanBefore_of_headNotMem hpat ht) ?_
    refine cleanBefore_append_right (fun b2 => cleanBefore_of_headNotMem hpat (by decide)) ?_
    refine cleanBefore_append_right (fun b2 => cleanBefore_of_headNotMem hpat hb) ?_
    refine cleanBefore_append_right (fun b2 => cleanBefore_of_headNotMem hpat (by decide)) ?_
    refine cleanBefore_append_right (cleanBefore_of_litClean (by decide)) ?_
    refine cleanBefore_append_right (fun b2 => cleanBefore_of_headNotMem hpat (by decide)) ?_
    exact cleanBefore_of_headNotMem hpat (by decide)
  · rw [show headGap title body = ('\n' :: (contentStart ++ (lit "\n# " ++ (title ++
      (lit "\n\n" ++ (body ++ (lit "\n" ++ (contentEnd ++ (lit "\n" ++
        lit "\n---\n"))))))))) ++ ['\n'] from by
      simp only [headGap, List.cons_append, List.append_assoc]
      rfl]
    exact List.getLast?_concat _

theorem headGap_PGapOK (title body : Str) (ht : '<' ∉ title) (hb : '<' ∉ body) :
    PGapOK (headGap title body) := by
  have hpat : newCommentOpen = '<' :: lit "!-- gh-md:new-comment" := rfl
  intro b
  rw [show headGap title body = ['\n'] ++ (contentStart ++ (lit "\n# " ++ (title ++
    (lit "\n\n" ++ (body ++ (lit "\n" ++ (contentEnd ++ (lit "\n" ++
      lit "\n---\n\n")))))))) from rfl]
  refine cleanBefore_append_right (fun b2 => cleanBefore_of_headNotMem hpat (by decide)) ?_
  refine cleanBefore_append_right (cleanBefore_of_litClean (by decide)) ?_
  refine cleanBefore_append_right (fun b2 => cleanBefore_of_headNotMem hpat (by decide)) ?_
  refine cleanBefore_append_right (fun b2 => cleanBefore_of_headNotMem hpat ht) ?_
  refine cleanBefore_append_right (fun b2 => cleanBefore_of_headNotMem hpat (by decide)) ?_
  refine cleanBefore_append_right (fun b2 => cleanBefore_of_headNotMem hpat hb) ?_
  refine cleanBefore_append_right (fun b2 => cleanBefore_of_headNotMem hpat (by decide)) ?_
  refine cleanBefore_append_right (cleanBefore_of_litClean (by decide)) ?_
  refine cleanBefore_append_right (fun b2 => cleanBefore_of_headNotMem hpat (by decide)) ?_
  exact cleanBefore_of_headNotMem hpat (by decide)

theorem headGapE_clean (title body : Str) (ht : '<' ∉ title) (hb : '<' ∉ body) :
    ∀ b, cleanBefore commentStart (headGapE title body) b := by
  have hpat : commentStart = '<' :: lit "!-- gh-md:comment\n" := rfl
  intro b
  rw [show headGapE title body = ['\n'] ++ (contentStart ++ (lit "\n# " ++ (title ++
    (lit "\n\n" ++ (body ++ (lit "\n" ++ (contentEnd ++ lit "\n"))))))) from rfl]
  refine cleanBefore_append_right (fun b2 => cleanBefore_of_headNotMem hpat (by decide)) ?_
  refine cleanBefore_append_right (cleanBefore_of_litClean (by decide)) ?_
  refine cleanBefore_append_right (fun b2 => cleanBefore_of_headNotMem hpat (by decide)) ?_
  refine cleanBefore_append_right (fun b2 => cleanBefore_of_headNotMem hpat ht) ?_
  refine cleanBefore_append_right (fun b2 => cleanBefore_of_headNotMem hpat (by decide)) ?_
  refine cleanBefore_append_right (fun b2 => cleanBefore_of_headNotMem hpat hb) ?_
  refine cleanBefore_append_right (fun b2 => cleanBefore_of_headNotMem hpat (by decide)) ?_
  refine cleanBefore_append_right (cleanBefore_of_litClean (by decide)) ?_
  exact cleanBefore_of_headNotMem hpat (by decide)

theorem headGapE_PGapOK (title body : Str) (ht : '<' ∉ title) (hb : '<' ∉ body) :
    PGapOK (headGapE title body) := by
  have hpat : newCommentOpen = '<' :: lit "!-- gh-md:new-comment" := rfl
  intro b
  rw [show headGapE title body = ['\n'] ++ (contentStart ++ (lit "\n# " ++ (title ++
    (lit "\n\n" ++ (body ++ (lit "\n" ++ (contentEnd ++ lit "\n"))))))) from rfl]
  refine cleanBefore_append_right (fun b2 => cleanBefore_of_headNotMem hpat (by decide)) ?_
  refine cleanBefore_append_right (cleanBefore_of_litClean (by decide)) ?_
  refine cleanBefore_append_right (fun b2 => cleanBefore_of_headNotMem hpat (by decide)) ?_
  refine cleanBefore_append_right (fun b2 => cleanBefore_of_headNotMem hpat ht) ?_
  refine cleanBefore_append_right (fun b2 => cleanBefore_of_headNotMem hpat (by decide)) ?_
  refine cleanBefore_append_right (fun b2 => cleanBefore_of_headNotMem hpat hb) ?_
  refine cleanBefore_append_right (fun b2 => cleanBefore_of_headNotMem hpat (by decide)) ?_
  refine cleanBefore_append_right (cleanBefore_of_litClean (by decide)) ?_
  exact cleanBefore_of_headNotMem hpat (by decide)

theorem restPE_cleanAll (title body : Str) (ht : '<' ∉ title) (hb : '<' ∉ body) :
    cleanAll commentStart ('\n' :: restPE title body) := by
  rw [restPE_split]
  exact cleanAll_append (headGapE_clean title body ht hb docTrailer) trailerM

/-- Serialized flat comments never start a placeholder occurrence. -/
theorem flat_PGapOK (cs : List Comment) (g : Str) (hcs : cs.all commentWF1 = true)
    (hg : PGapOK g) : PGapOK (g ++ (cs.map writeComment).flatten) := by
  induction cs generalizing g with
  | nil =>
      simp only [List.map_nil, List.flatten_nil, List.append_nil]
      exact hg
  | cons c rest ih =>
      have hparts : commentWF1 c = true ∧ rest.all commentWF1 = true := by
        simpa [List.all_cons, Bool.and_eq_true] using hcs
      obtain ⟨h1, h2, h3, h4, h5, h6, h7⟩ := commentWF1_parts hparts.1
      have hT4 : valWFb c.CreatedAt.rfc3339 = true ∧ valWFb c.CreatedAt.day = true := by
        unfold timeWFb at h4
        simpa [Bool.and_eq_true] using h4
      have hmid : '<' ∉ midFlat c.ID c.Author c.Body c.CreatedAt :=
        midFlat_noLT (valWFb_parts h1).1 (valWFb_parts h3).1 (valWFb_parts hT4.1).1
          (valWFb_parts hT4.2).1 h6
      have hg2 : PGapOK (g ++ writeComment c) := by
        rw [writeComment_block]
        exact blockGap_PGapOK _ _ hmid hg
      have hind := ih (g ++ writeComment c) hparts.2 hg2
      simp only [List.map_cons, List.flatten_cons]
      rw [show g ++ (writeComment c ++ (rest.map writeComment).flatten) =
        (g ++ writeComment c) ++ (rest.map writeComment).flatten from
        (List.append_assoc _ _ _).symm]
      exact hind

set_option maxHeartbeats 1000000 in
/-- Comment parsing of a serialized comment-free document section. -/
theorem restPE_parse (title body : Str) (ht : '<' ∉ title) (hb : '<' ∉ body) :
    parseComments ('\n' :: restPE title body) = [] := by
  have htail := restPE_cleanAll title body ht hb
  have hmark : (parseMarkerComments ('\n' :: restPE title body)).map
      (fun c => (c.comment, c.depth)) = [] := by
    unfold parseMarkerComments
    show (parseMarkerLoop (('\n' :: restPE title body).length + 1)
      ('\n' :: restPE title body) (blockStream [] ('\n' :: restPE title body)) 0).map
        (fun c => (c.comment, c.depth)) = []
    have h := parseMarkerLoop_stream ('\n' :: restPE title body) []
      ('\n' :: restPE title body) 0 (('\n' :: restPE title body).length + 1)
      (by simp only [List.drop_zero]; rfl) (Nat.lt_succ_self _)
      (by simp) (by simp) (by simp) htail
    simp only [List.map_nil] at h
    exact h
  have hassign : assignParentIDs (parseMarkerComments ('\n' :: restPE title body)) = [] :=
    comments_of_proj _ [] (by simp only [List.map_nil]; exact hmark)
  have hshape2 : ('\n' :: restPE title body) =
      phStream [(headGapE title body ++ lit "\n", lit " ")] (lit "\n") := by
    rw [restPE_split]
    exact trailer_phStream _
  have hph : ∀ X, parseNewCommentMarkers ('\n' :: restPE title body) X = [] := by
    intro X
    unfold parseNewCommentMarkers
    rw [hshape2]
    refine parseNewCommentLoop_stream _ _ _ (Nat.lt_succ_self _) ?_ ?_
      (cleanAll_of_headNotMem (show newCommentOpen = '<' :: lit "!-- gh-md:new-comment"
        from rfl) (by decide))
    · intro seg hs
      simp only [List.mem_singleton] at hs
      subst hs
      intro b
      exact cleanBefore_append_right (headGapE_PGapOK title body ht hb)
        (cleanBefore_of_headNotMem (show newCommentOpen =
          '<' :: lit "!-- gh-md:new-comment" from rfl) (by decide))
    · intro seg hs
      simp only [List.mem_singleton] at hs
      subst hs
      exact ⟨show strIndex (lit " ") (lit "-->") = none from by decide,
        show (lit " ").getLast? = some ' ' from rfl⟩
  rw [parseComments_grouped, hassign, hph]
  simp

set_option maxHeartbeats 1000000 in
/-- Comment parsing of a serialized issue/PR flat-comment section:
exactly the written comments, in order, with empty parents. -/
theorem restPC_parse_flat (cs : List Comment) (title body : Str)
    (hall : cs.all commentWF1 = true) (ht : '<' ∉ title) (hb : '<' ∉ body) :
    parseComments ('\n' :: restPC title body ((cs.map writeComment).flatten)) =
      cs.map (fun c => ({ ID := c.ID, Author := c.Author, Body := c.Body,
                          ParentID := [] } : ParsedComment)) := by
  have hgapM := headGap_MGapOK title body ht hb
  have hprops := flatSegs_props cs (headGap title body) hall hgapM
  have hshape : ('\n' :: restPC title body ((cs.map writeComment).flatten)) =
      blockStream (flatSegs cs (headGap title body)).1
        ((flatSegs cs (headGap title body)).2 ++ docTrailer) := by
    rw [restPC_split]
    exact flat_stream cs (headGap title body) docTrailer
  have hmark : (parseMarkerComments ('\n' :: restPC title body
      ((cs.map writeComment).flatten))).map (fun c => (c.comment, c.depth)) =
      (flatSegs cs (headGap title body)).1.map (fun seg => (seg.2.2, 0)) := by
    unfold parseMarkerComments
    rw [hshape]
    exact parseMarkerLoop_stream _ _ _ 0 _ (by simp only [List.drop_zero])
      (Nat.lt_succ_self _)
      (fun seg hs => (hprops.1 seg hs).1)
      (fun seg hs => (hprops.1 seg hs).2.1)
      (fun seg hs => (hprops.1 seg hs).2.2)
      (cleanAll_append (hprops.2.1 docTrailer) trailerM)
  have hproj : (parseMarkerComments ('\n' :: restPC title body
      ((cs.map writeComment).flatten))).map (fun c => (c.comment, c.depth)) =
      ((flatSegs cs (headGap title body)).1.map (fun s => s.2.2)).map
        (fun pc => (pc, 0)) := by
    rw [hmark, List.map_map]
    rfl
  have hassign := comments_of_proj _ _ hproj
  have hshape2 : ('\n' :: restPC title body ((cs.map writeComment).flatten)) =
      phStream [((headGap title body ++ (cs.map writeComment).flatten) ++ lit "\n",
        lit " ")] (lit "\n") := by
    rw [restPC_split]
    rw [show headGap title body ++ ((cs.map writeComment).flatten ++ docTrailer) =
        (headGap title body ++ (cs.map writeComment).flatten) ++ docTrailer from by
      simp only [List.append_assoc]]
    exact trailer_phStream _
  have hph : ∀ X, parseNewCommentMarkers ('\n' :: restPC title body
      ((cs.map writeComment).flatten)) X = [] := by
    intro X
    unfold parseNewCommentMarkers
    rw [hshape2]
    refine parseNewCommentLoop_stream _ _ _ (Nat.lt_succ_self _) ?_ ?_
      (cleanAll_of_headNotMem (show newCommentOpen = '<' :: lit "!-- gh-md:new-comment"
        from rfl) (by decide))
    · intro seg hs
      simp only [List.mem_singleton] at hs
      subst hs
      intro b
      exact cleanBefore_append_right
        (flat_PGapOK cs (headGap title body) hall (headGap_PGapOK title body ht hb))
        (cleanBefore_of_headNotMem (show newCommentOpen =
          '<' :: lit "!-- gh-md:new-comment" from rfl) (by decide))
    · intro seg hs
      simp only [List.mem_singleton] at hs
      subst hs
      exact ⟨show strIndex (lit " ") (lit "-->") = none from by decide,
        show (lit " ").getLast? = some ' ' from rfl⟩
  rw [parseComments_grouped, hassign, flatSegs_map, hph]
  simp

set_option maxHeartbeats 1000000 in
/-- Comment parsing of a serialized discussion comment section: the
preorder flattening with structural parent ids. -/
theorem restPC_parse_disc (cs : List DiscussionComment) (title body : Str)
    (hcs : dcsWF1 cs = true) (ht : '<' ∉ title) (hb : '<' ∉ body) :
    parseComments ('\n' :: restPC title body (writeDiscussionComments cs [])) =
      flattenDCs cs [] := by
  have hgapM := headGap_MGapOK title body ht hb
  have hprops := segsDCs_props cs [] (headGap title body) hcs (by decide) hgapM
  have hphprops := phSegsDCs_props cs [] (headGap title body) hcs (by decide)
    (headGap_PGapOK title body ht hb)
  have hshape : ('\n' :: restPC title body (writeDiscussionComments cs [])) =
      blockStream (segsDCs cs [] (headGap title body)).1
        ((segsDCs cs [] (headGap title body)).2 ++ docTrailer) := by
    rw [restPC_split]
    exact writeDCs_stream cs [] (headGap title body) docTrailer
  have hmark : (parseMarkerComments ('\n' :: restPC title body
      (writeDiscussionComments cs []))).map (fun c => (c.comment, c.depth)) =
      (segsDCs cs [] (headGap title body)).1.map (fun seg => (seg.2.2, 0)) := by
    unfold parseMarkerComments
    rw [hshape]
    exact parseMarkerLoop_stream _ _ _ 0 _ (by simp only [List.drop_zero])
      (Nat.lt_succ_self _)
      (fun seg hs => (hprops.1 seg hs).1)
      (fun seg hs => (hprops.1 seg hs).2.1)
      (fun seg hs => (hprops.1 seg hs).2.2)
      (cleanAll_append (hprops.2.1 docTrailer) trailerM)
  have hproj : (parseMarkerComments ('\n' :: restPC title body
      (writeDiscussionComments cs []))).map (fun c => (c.comment, c.depth)) =
      ((segsDCs cs [] (headGap title body)).1.map (fun s => s.2.2)).map
        (fun pc => (pc, 0)) := by
    rw [hmark, List.map_map]
    rfl
  have hassign := comments_of_proj _ _ hproj
  have hshape2 : ('\n' :: restPC title body (writeDiscussionComments cs [])) =
      phStream ((phSegsDCs cs [] (headGap title body)).1 ++
        [((phSegsDCs cs [] (headGap title body)).2 ++ lit "\n", lit " ")]) (lit "\n") := by
    rw [restPC_split]
    rw [phDCs_stream cs [] (headGap title body) docTrailer]
    rw [trailer_phStream]
    exact (phStream_append _ _ _).symm
  have hph : ∀ X, parseNewCommentMarkers ('\n' :: restPC title body
      (writeDiscussionComments cs [])) X = [] := by
    intro X
    unfold parseNewCommentMarkers
    rw [hshape2]
    refine parseNewCommentLoop_stream _ _ _ (Nat.lt_succ_self _) ?_ ?_
      (cleanAll_of_headNotMem (show newCommentOpen = '<' :: lit "!-- gh-md:new-comment"
        from rfl) (by decide))
    · intro seg hs
      rcases List.mem_append.mp hs with h | h
      · exact (hphprops.1 seg h).1
      · simp only [List.mem_singleton] at h
        subst h
        intro b
        exact cleanBefore_append_right hphprops.2
          (cleanBefore_of_headNotMem (show newCommentOpen =
            '<' :: lit "!-- gh-md:new-comment" from rfl) (by decide))
    · intro seg hs
      rcases List.mem_append.mp hs with h | h
      · exact (hphprops.1 seg h).2
      · simp only [List.mem_singleton] at h
        subst h
        exact ⟨show strIndex (lit " ") (lit "-->") = none from by decide,
          show (lit " ").getLast? = some ' ' from rfl⟩
  rw [parseComments_grouped, hassign, segsDCs_map, hph]
  simp

end writer


namespace writer

open GoStrings github parser

set_option maxHeartbeats 1000000 in
/-- Parsing the serialization of a well-formed issue document recovers
its id, title, body, and flat comment tuples (empty parents), in
order. -/
theorem issue_roundtrip (i : Issue) (now : GoTime) (path : Str)
    (hWF : issueWF1 i = true) (hnow : timeWFb now = true) :
    (parseContent (IssueToMarkdown i now) path).map
        (fun P => (P.ID, P.Title, P.Body, P.Comments)) =
      some (i.ID, i.Title, i.Body,
        i.Comments.map (fun c => ({ ID := c.ID, Author := c.Author, Body := c.Body,
                                    ParentID := [] } : ParsedComment))) := by
  have hWF3 : issueWFb i = true ∧ trimSpace i.Body = i.Body ∧
      i.Comments.all commentWF1 = true := by
    unfold issueWF1 at hWF
    simp only [Bool.and_eq_true, decide_eq_true_eq] at hWF
    exact ⟨hWF.1.1, hWF.1.2, hWF.2⟩
  obtain ⟨hWFb, hbTS, hall⟩ := hWF3
  have hWFb2 := hWFb
  unfold issueWFb bodyWFb at hWFb2
  simp only [Bool.and_eq_true, Bool.not_eq_true', decide_eq_true_eq] at hWFb2
  obtain ⟨⟨⟨⟨⟨⟨⟨⟨⟨⟨⟨⟨hID, hURL⟩, hNum⟩, hOwn⟩, hRepo⟩, hTitle⟩, hTne⟩, hState⟩, hAu⟩,
    hCr⟩, hUp⟩, hBody⟩, hCom⟩ := hWFb2
  have hTne2 : i.Title ≠ [] := by
    intro h0
    rw [h0] at hTne
    simp at hTne
  obtain ⟨htLT, htNL, htTS, -⟩ := valWFb_parts hTitle
  obtain ⟨-, hIDnl, hIDts, -⟩ := valWFb_parts hID
  have hnow2 : '\n' ∉ now.rfc3339 := by
    unfold timeWFb at hnow
    simp only [Bool.and_eq_true] at hnow
    exact (valWFb_parts hnow.1).2.1
  have hkv : '\n' ∉ lit "last_pulled" ++ (lit ": " ++ now.rfc3339) :=
    notMem_append (by decide) (notMem_append (by decide) hnow2)
  have hid : yamlScalar (yamlLines (issuePairs i) ++ (lit "last_pulled" ++
      (lit ": " ++ now.rfc3339))) (lit "id") = i.ID := by
    unfold issuePairs
    exact yamlScalar_id_first i.ID _ _ hIDts
      (fun p hp => issuePairs_ok i hWFb p (List.mem_cons_of_mem _ hp)) hIDnl hkv
  by_cases hc : i.Comments = []
  · have hlen : ¬ 0 < i.Comments.length := by
      rw [hc]
      simp
    have hdoc : IssueToMarkdown i now = lit "---\n" ++
        (yamlLines (issuePairs i ++ [(lit "last_pulled", now.rfc3339)]) ++
          (lit "---\n\n" ++ restPE i.Title i.Body)) := by
      simp only [IssueToMarkdown]
      rw [if_neg hlen, IssueFrontmatterText_eq]
      simp only [finishMarkdown, buildMarkdownWithFrontmatter, restPE, docTrailer]
      rw [show lit "<!-- gh-md:content -->\n# " = contentStart ++ lit "\n# "
        from by decide]
      rw [show lit "\n<!-- /gh-md:content -->\n" = lit "\n" ++ (contentEnd ++ lit "\n")
        from by decide]
      simp only [List.append_assoc]
    have hfm := extractFrontmatter_writer (issuePairs i) (lit "last_pulled") now.rfc3339
      (restPE i.Title i.Body) (issuePairs_ok i hWFb) (by decide) hnow2
    rw [← hdoc] at hfm
    have htb : extractTitleAndBody ('\n' :: restPE i.Title i.Body) =
        (i.Title, i.Body) := by
      unfold restPE
      exact extractTitleAndBody_writer i.Title i.Body _ htNL htTS hTne2 htLT hBody hbTS
    have hcm : parseComments ('\n' :: restPE i.Title i.Body) = [] :=
      restPE_parse i.Title i.Body htLT hBody
    rw [parseContent_proj path hfm, hid, htb, hcm, hc]
    rfl
  · have hlen : 0 < i.Comments.length := List.length_pos.mpr hc
    have hdoc : IssueToMarkdown i now = lit "---\n" ++
        (yamlLines (issuePairs i ++ [(lit "last_pulled", now.rfc3339)]) ++
          (lit "---\n\n" ++
            restPC i.Title i.Body ((i.Comments.map writeComment).flatten))) := by
      simp only [IssueToMarkdown]
      rw [if_pos hlen, IssueFrontmatterText_eq]
      simp only [finishMarkdown, buildMarkdownWithFrontmatter, restPC, docTrailer]
      rw [show lit "<!-- gh-md:content -->\n# " = contentStart ++ lit "\n# "
        from by decide]
      rw [show lit "\n<!-- /gh-md:content -->\n" = lit "\n" ++ (contentEnd ++ lit "\n")
        from by decide]
      simp only [List.append_assoc]
    have hfm := extractFrontmatter_writer (issuePairs i) (lit "last_pulled") now.rfc3339
      (restPC i.Title i.Body ((i.Comments.map writeComment).flatten))
      (issuePairs_ok i hWFb) (by decide) hnow2
    rw [← hdoc] at hfm
    have htb : extractTitleAndBody ('\n' :: restPC i.Title i.Body
        ((i.Comments.map writeComment).flatten)) = (i.Title, i.Body) := by
      unfold restPC
      exact extractTitleAndBody_writer i.Title i.Body _ htNL htTS hTne2 htLT hBody hbTS
    have hcm := restPC_parse_flat i.Comments i.Title i.Body hall htLT hBody
    rw [parseContent_proj path hfm, hid, htb, hcm]

set_option maxHeartbeats 1000000 in
/-- Parsing the serialization of a well-formed discussion document
recovers its id, title, body, and the preorder flattening of the
comment tree with the writer's structural parent ids, in order. -/
theorem discussion_roundtrip (d : Discussion) (now : GoTime) (path : Str)
    (hWF : discussionWF1 d = true) (hnow : timeWFb now = true) :
    (parseContent (DiscussionToMarkdown d now) path).map
        (fun P => (P.ID, P.Title, P.Body, P.Comments)) =
      some (d.ID, d.Title, d.Body, flattenDCs d.Comments []) := by
  have hWF3 : discussionWFb d = true ∧ trimSpace d.Body = d.Body ∧
      dcsWF1 d.Comments = true := by
    unfold discussionWF1 at hWF
    simp only [Bool.and_eq_true, decide_eq_true_eq] at hWF
    exact ⟨hWF.1.1, hWF.1.2, hWF.2⟩
  obtain ⟨hWFb, hbTS, hdcs⟩ := hWF3
  have hWFb2 := hWFb
  unfold discussionWFb bodyWFb at hWFb2
  simp only [Bool.and_eq_true, Bool.not_eq_true', decide_eq_true_eq] at hWFb2
  obtain ⟨⟨⟨⟨⟨⟨⟨⟨⟨⟨⟨⟨⟨hID, hURL⟩, hNum⟩, hOwn⟩, hRepo⟩, hTitle⟩, hTne⟩, hCat⟩, hAu⟩,
    hAns⟩, hCr⟩, hUp⟩, hBody⟩, hCom⟩ := hWFb2
  have hTne2 : d.Title ≠ [] := by
    intro h0
    rw [h0] at hTne
    simp at hTne
  obtain ⟨htLT, htNL, htTS, -⟩ := valWFb_parts hTitle
  obtain ⟨-, hIDnl, hIDts, -⟩ := valWFb_parts hID
  have hnow2 : '\n' ∉ now.rfc3339 := by
    unfold timeWFb at hnow
    simp only [Bool.and_eq_true] at hnow
    exact (valWFb_parts hnow.1).2.1
  have hkv : '\n' ∉ lit "last_pulled" ++ (lit ": " ++ now.rfc3339) :=
    notMem_append (by decide) (notMem_append (by decide) hnow2)
  have hid : yamlScalar (yamlLines (discussionPairs d) ++ (lit "last_pulled" ++
      (lit ": " ++ now.rfc3339))) (lit "id") = d.ID := by
    unfold discussionPairs
    exact yamlScalar_id_first d.ID _ _ hIDts
      (fun p hp => discussionPairs_ok d hWFb p (List.mem_cons_of_mem _ hp)) hIDnl hkv
  by_cases hc : d.Comments = []
  · have hlen : ¬ 0 < d.Comments.length := by
      rw [hc]
      simp
    have hdoc : DiscussionToMarkdown d now = lit "---\n" ++
        (yamlLines (discussionPairs d ++ [(lit "last_pulled", now.rfc3339)]) ++
          (lit "---\n\n" ++ restPE d.Title d.Body)) := by
      simp only [DiscussionToMarkdown]
      rw [if_neg hlen, DiscussionFrontmatterText_eq]
      simp only [finishMarkdown, buildMarkdownWithFrontmatter, restPE, docTrailer]
      rw [show lit "<!-- gh-md:content -->\n# " = contentStart ++ lit "\n# "
        from by decide]
      rw [show lit "\n<!-- /gh-md:content -->\n" = lit "\n" ++ (contentEnd ++ lit "\n")
        from by decide]
      simp only [List.append_assoc]
    have hfm := extractFrontmatter_writer (discussionPairs d) (lit "last_pulled")
      now.rfc3339 (restPE d.Title d.Body) (discussionPairs_ok d hWFb) (by decide) hnow2
    rw [← hdoc] at hfm
    have htb : extractTitleAndBody ('\n' :: restPE d.Title d.Body) =
        (d.Title, d.Body) := by
      unfold restPE
      exact extractTitleAndBody_writer d.Title d.Body _ htNL htTS hTne2 htLT hBody hbTS
    have hcm : parseComments ('\n' :: restPE d.Title d.Body) = [] :=
      restPE_parse d.Title d.Body htLT hBody
    rw [parseContent_proj path hfm, hid, htb, hcm, hc]
    rfl
  · have hlen : 0 < d.Comments.length := List.length_pos.mpr hc
    have hdoc : DiscussionToMarkdown d now = lit "---\n" ++
        (yamlLines (discussionPairs d ++ [(lit "last_pulled", now.rfc3339)]) ++
          (lit "---\n\n" ++
            restPC d.Title d.Body (writeDiscussionComments d.Comments []))) := by
      simp only [DiscussionToMarkdown]
      rw [if_pos hlen, DiscussionFrontmatterText_eq]
      simp only [finishMarkdown, buildMarkdownWithFrontmatter, restPC, docTrailer]
      rw [show lit "<!-- gh-md:content -->\n# " = contentStart ++ lit "\n# "
        from by decide]
      rw [show lit "\n<!-- /gh-md:content -->\n" = lit "\n" ++ (contentEnd ++ lit "\n")
        from by decide]
      simp only [List.append_assoc]
    have hfm := extractFrontmatter_writer (discussionPairs d) (lit "last_pulled")
      now.rfc3339 (restPC d.Title d.Body (writeDiscussionComments d.Comments []))
      (discussionPairs_ok d hWFb) (by decide) hnow2
    rw [← hdoc] at hfm
    have htb : extractTitleAndBody ('\n' :: restPC d.Title d.Body
        (writeDiscussionComments d.Comments [])) = (d.Title, d.Body) := by
      unfold restPC
      exact extractTitleAndBody_writer d.Title d.Body _ htNL htTS hTne2 htLT hBody hbTS
    have hcm := restPC_parse_disc d.Comments d.Title d.Body hdcs htLT hBody
    rw [parseContent_proj path hfm, hid, htb, hcm]

end writer

namespace parser

open GoStrings

/-- Generic round-trip engine: a content equal to a well-formed block
stream (marker view) and to a placeholder stream of delimiter-free
empty-body units (placeholder view) parses to exactly the blocks'
comments. -/
theorem parse_of_streams (R : Str) (msegs : List (Str × Str × ParsedComment))
    (mtail : Str) (psegs : List (Str × Str))
    (hm : R = blockStream msegs mtail)
    (hgaps : ∀ seg ∈ msegs, (∀ b, cleanBefore commentStart seg.1 b) ∧
      seg.1.getLast? = some '\n')
    (hmids : ∀ seg ∈ msegs, '<' ∉ seg.2.1)
    (hparse : ∀ seg ∈ msegs,
      parseCommentBlock (commentStart ++ (seg.2.1 ++ commentEnd)) = some seg.2.2)
    (hmtail : cleanAll commentStart mtail)
    (hp : R = phStream psegs (lit "\n"))
    (hpgaps : ∀ seg ∈ psegs, ∀ b, cleanBefore newCommentOpen seg.1 b)
    (hpattrs : ∀ seg ∈ psegs, strIndex seg.2 (lit "-->") = none ∧
      seg.2.getLast? = some ' ') :
    parseComments R = msegs.map (fun s => s.2.2) := by
  have hmark : (parseMarkerComments R).map (fun c => (c.comment, c.depth)) =
      msegs.map (fun seg => (seg.2.2, 0)) := by
    unfold parseMarkerComments
    rw [hm]
    exact parseMarkerLoop_stream _ _ _ 0 _ (by simp only [List.drop_zero])
      (Nat.lt_succ_self _) hgaps hmids hparse hmtail
  have hproj : (parseMarkerComments R).map (fun c => (c.comment, c.depth)) =
      (msegs.map (fun s => s.2.2)).map (fun pc => (pc, 0)) := by
    rw [hmark, List.map_map]
    rfl
  have hassign := comments_of_proj _ _ hproj
  have hph : ∀ X, parseNewCommentMarkers R X = [] := by
    intro X
    unfold parseNewCommentMarkers
    rw [hp]
    exact parseNewCommentLoop_stream _ _ _ (Nat.lt_succ_self _) hpgaps hpattrs
      (cleanAll_of_headNotMem (show newCommentOpen =
        '<' :: lit "!-- gh-md:new-comment" from rfl) (by decide))
  rw [parseComments_grouped, hassign, hph]
  simp

end parser

namespace writer

open GoStrings github parser

/-- The scalar pairs of the pull request frontmatter, in struct order,
except the final `last_pulled` entry. -/
def prPairs (pr : PullRequest) : List (Str × Str) :=
  (lit "id", pr.ID) :: (lit "url", pr.URL) :: (lit "number", pr.Number) ::
    (lit "owner", pr.Owner) :: (lit "repo", pr.Repo) :: (lit "title", pr.Title) ::
    (lit "state", pr.State) ::
    ((if pr.Author ≠ [] then [(lit "author", pr.Author)] else []) ++
     ((if pr.Draft then [(lit "draft", lit "true")] else []) ++
      ((lit "head_ref", pr.HeadRef) :: (lit "base_ref", pr.BaseRef) ::
       ((if pr.MergeCommit ≠ [] then [(lit "merge_commit", pr.MergeCommit)] else []) ++
        ((lit "created", pr.CreatedAt.rfc3339) :: (lit "updated", pr.UpdatedAt.rfc3339) ::
         (match pr.MergedAt with
          | some t => [(lit "merged", t.rfc3339)]
          | none => []))))))

theorem PullRequestFrontmatterText_eq (pr : PullRequest) (now : GoTime) :
    PullRequestFrontmatterText pr now =
      yamlLines (prPairs pr ++ [(lit "last_pulled", now.rfc3339)]) := by
  unfold PullRequestFrontmatterText prPairs
  by_cases h1 : pr.Author ≠ [] <;> by_cases h2 : pr.Draft <;>
    by_cases h3 : pr.MergeCommit ≠ [] <;> cases h4 : pr.MergedAt <;>
    simp [h1, h2, h3, h4, yamlLines, yamlLines_append, List.append_assoc]

theorem prPairs_ok (pr : PullRequest) (hWF : pullRequestWFb pr = true) :
    ∀ p ∈ prPairs pr, keyOK p.1 = true ∧ '\n' ∉ p.2 := by
  unfold pullRequestWFb at hWF
  simp only [Bool.and_eq_true] at hWF
  obtain ⟨⟨⟨⟨⟨⟨⟨⟨⟨⟨⟨⟨⟨⟨⟨⟨⟨hID, hURL⟩, hNum⟩, hOwn⟩, hRepo⟩, hTitle⟩, hTne⟩, hState⟩,
    hAu⟩, hHead⟩, hBase⟩, hMC⟩, hCr⟩, hUp⟩, hMA⟩, hBody⟩, hCom⟩, hRT⟩ := hWF
  have hCr2 : valWFb pr.CreatedAt.rfc3339 = true ∧ valWFb pr.CreatedAt.day = true := by
    unfold timeWFb at hCr
    simpa [Bool.and_eq_true] using hCr
  have hUp2 : valWFb pr.UpdatedAt.rfc3339 = true ∧ valWFb pr.UpdatedAt.day = true := by
    unfold timeWFb at hUp
    simpa [Bool.and_eq_true] using hUp
  intro p hp
  simp only [prPairs, List.mem_cons, List.mem_append, List.mem_singleton] at hp
  rcases hp with h | h | h | h | h | h | h | h
  · subst h
    exact ⟨show keyOK (lit "id") = true from by decide, (valWFb_parts hID).2.1⟩
  · subst h
    exact ⟨show keyOK (lit "url") = true from by decide, (valWFb_parts hURL).2.1⟩
  · subst h
    exact ⟨show keyOK (lit "number") = true from by decide, (valWFb_parts hNum).2.1⟩
  · subst h
    exact ⟨show keyOK (lit "owner") = true from by decide, (valWFb_parts hOwn).2.1⟩
  · subst h
    exact ⟨show keyOK (lit "repo") = true from by decide, (valWFb_parts hRepo).2.1⟩
  · subst h
    exact ⟨show keyOK (lit "title") = true from by decide, (valWFb_parts hTitle).2.1⟩
  · subst h
    exact ⟨show keyOK (lit "state") = true from by decide, (valWFb_parts hState).2.1⟩
  · rcases h with h | h
    · by_cases ha : pr.Author ≠ []
      · rw [if_pos ha] at h
        simp only [List.mem_singleton] at h
        subst h
        exact ⟨show keyOK (lit "author") = true from by decide, (valWFb_parts hAu).2.1⟩
      · rw [if_neg ha] at h
        simp at h
    · rcases h with h | h
      · by_cases hdr : pr.Draft
        · rw [if_pos hdr] at h
          simp only [List.mem_singleton] at h
          subst h
          exact ⟨show keyOK (lit "draft") = true from by decide,
            show '\n' ∉ lit "true" from by decide⟩
        · rw [if_neg hdr] at h
          simp at h
      · rcases h with h | h | h
        · subst h
          exact ⟨show keyOK (lit "head_ref") = true from by decide,
            (valWFb_parts hHead).2.1⟩
        · subst h
          exact ⟨show keyOK (lit "base_ref") = true from by decide,
            (valWFb_parts hBase).2.1⟩
        · rcases h with h | h
          · by_cases hmc : pr.MergeCommit ≠ []
            · rw [if_pos hmc] at h
              simp only [List.mem_singleton] at h
              subst h
              exact ⟨show keyOK (lit "merge_commit") = true from by decide,
                (valWFb_parts hMC).2.1⟩
            · rw [if_neg hmc] at h
              simp at h
          · rcases h with h | h | h
            · subst h
              exact ⟨show keyOK (lit "created") = true from by decide,
                (valWFb_parts hCr2.1).2.1⟩
            · subst h
              exact ⟨show keyOK (lit "updated") = true from by decide,
                (valWFb_parts hUp2.1).2.1⟩
            · cases hma : pr.MergedAt with
              | none =>
                  rw [hma] at h
                  simp at h
              | some t =>
                  rw [hma] at h
                  simp only [List.mem_singleton] at h
                  subst h
                  have hMA2 : timeWFb t = true := by
                    rw [hma] at hMA
                    exact hMA
                  have hMA3 : valWFb t.rfc3339 = true ∧ valWFb t.day = true := by
                    unfold timeWFb at hMA2
                    simpa [Bool.and_eq_true] using hMA2
                  exact ⟨show keyOK (lit "merged") = true from by decide,
                    (valWFb_parts hMA3.1).2.1⟩

/-- Round-trip well-formedness of a pull request document. -/
def pullRequestWF1 (pr : PullRequest) : Bool :=
  pullRequestWFb pr && decide (trimSpace pr.Body = pr.Body) &&
    pr.Comments.all commentWF1

/-- The part of a serialized review thread before its reply
placeholder. -/
def threadHead (t : ReviewThread) : Str :=
  lit "<!-- gh-md:review-thread\n" ++ (lit "id: " ++ (t.ID ++ (lit "\n" ++ (lit "path: "
    ++ (t.Path ++ (lit "\n" ++ (lit "line: " ++ (t.Line ++ (lit "\n" ++ (lit "-->\n" ++
    (lit "### `" ++ (t.Path ++ (lit ":" ++ (t.Line ++ (lit "`" ++ ((if t.IsResolved then
    lit " (resolved)" else []) ++ ((if t.IsOutdated then lit " (outdated)" else []) ++
    (lit "\n\n" ++ ((t.Comments.map writeReviewComment).flatten)))))))))))))))))))

/-- The closing tag after a review thread's reply placeholder. -/
def threadTail : Str := lit "\n\n<!-- /gh-md:review-thread -->\n\n"

theorem writeReviewThread_block (t : ReviewThread) :
    writeReviewThread t = threadHead t ++ ((newCommentOpen ++
      ((lit " reply_to: " ++ (t.ID ++ lit " ")) ++ (lit "-->\n\n" ++ newCommentEnd))) ++
        threadTail) := by
  unfold writeReviewThread threadHead threadTail
  rw [show lit "<!-- gh-md:new-comment reply_to: " = newCommentOpen ++ lit " reply_to: "
    from by decide]
  rw [show lit " -->\n\n<!-- /gh-md:new-comment -->\n\n" =
    lit " " ++ (lit "-->\n\n" ++ (newCommentEnd ++ lit "\n\n")) from by decide]
  rw [show lit "\n\n<!-- /gh-md:review-thread -->\n\n" =
    lit "\n\n" ++ lit "<!-- /gh-md:review-thread -->\n\n" from by decide]
  simp only [List.append_assoc]

/-- A serialized review comment starts no occurrence of a `<`-headed
pattern mismatching its two sentinels. -/
theorem writeReviewComment_clean (pat p : Str) (hpat : pat = '<' :: p)
    (hl2 : litClean pat (lit "<!-- gh-md:review-comment\n") = true)
    (hl3 : litClean pat (lit "\n<!-- /gh-md:review-comment -->\n\n") = true)
    (c : ReviewComment) (hWF : reviewCommentWFb c = true) :
    ∀ b, cleanBefore pat (writeReviewComment c) b := by
  have hw := hWF
  unfold reviewCommentWFb bodyWFb at hw
  simp only [Bool.and_eq_true, decide_eq_true_eq] at hw
  obtain ⟨⟨⟨⟨h1v, h2v⟩, h3v⟩, h4v⟩, h5v⟩ := hw
  have hT : valWFb c.CreatedAt.rfc3339 = true ∧ valWFb c.CreatedAt.day = true := by
    unfold timeWFb at h4v
    simpa [Bool.and_eq_true] using h4v
  intro b
  rw [writeReviewComment]
  simp only [List.append_assoc]
  refine cleanBefore_append_right (cleanBefore_of_litClean hl2) ?_
  refine cleanBefore_append_right (fun b2 => cleanBefore_of_headNotMem hpat (by decide)) ?_
  refine cleanBefore_append_right (fun b2 => cleanBefore_of_headNotMem hpat
    (valWFb_parts h1v).1) ?_
  refine cleanBefore_append_right (fun b2 => cleanBefore_of_headNotMem hpat (by decide)) ?_
  refine cleanBefore_append_right (fun b2 => cleanBefore_of_headNotMem hpat (by decide)) ?_
  refine cleanBefore_append_right (fun b2 => cleanBefore_of_headNotMem hpat
    (valWFb_parts h3v).1) ?_
  refine cleanBefore_append_right (fun b2 => cleanBefore_of_headNotMem hpat (by decide)) ?_
  refine cleanBefore_append_right (fun b2 => cleanBefore_of_headNotMem hpat (by decide)) ?_
  refine cleanBefore_append_right (fun b2 => cleanBefore_of_headNotMem hpat
    (valWFb_parts hT.1).1) ?_
  refine cleanBefore_append_right (fun b2 => cleanBefore_of_headNotMem hpat (by decide)) ?_
  refine cleanBefore_append_right (fun b2 => cleanBefore_of_headNotMem hpat (by decide)) ?_
  refine cleanBefore_append_right (fun b2 => cleanBefore_of_headNotMem hpat (by decide)) ?_
  refine cleanBefore_append_right (fun b2 => cleanBefore_of_headNotMem hpat
    (valWFb_parts h3v).1) ?_
  refine cleanBefore_append_right (fun b2 => cleanBefore_of_headNotMem hpat (by decide)) ?_
  refine cleanBefore_append_right (fun b2 => cleanBefore_of_headNotMem hpat
    (valWFb_parts hT.2).1) ?_
  refine cleanBefore_append_right (fun b2 => cleanBefore_of_headNotMem hpat (by decide)) ?_
  refine cleanBefore_append_right (fun b2 => cleanBefore_of_headNotMem hpat h5v) ?_
  exact cleanBefore_of_litClean hl3 _

theorem reviewComments_clean (pat p : Str) (hpat : pat = '<' :: p)
    (hl2 : litClean pat (lit "<!-- gh-md:review-comment\n") = true)
    (hl3 : litClean pat (lit "\n<!-- /gh-md:review-comment -->\n\n") = true)
    (cs : List ReviewComment) (hcs : cs.all reviewCommentWFb = true) :
    ∀ b, cleanBefore pat ((cs.map writeReviewComment).flatten) b := by
  induction cs with
  | nil =>
      intro b
      exact cleanBefore_nil _ _
  | cons c rest ih =>
      have hparts : reviewCommentWFb c = true ∧ rest.all reviewCommentWFb = true := by
        simpa [List.all_cons, Bool.and_eq_true] using hcs
      intro b
      simp only [List.map_cons, List.flatten_cons]
      exact cleanBefore_append_right
        (writeReviewComment_clean pat p hpat hl2 hl3 c hparts.1) (ih hparts.2 b)

theorem threadHead_clean (pat p : Str) (hpat : pat = '<' :: p)
    (hl1 : litClean pat (lit "<!-- gh-md:review-thread\n") = true)
    (hl2 : litClean pat (lit "<!-- gh-md:review-comment\n") = true)
    (hl3 : litClean pat (lit "\n<!-- /gh-md:review-comment -->\n\n") = true)
    (t : ReviewThread) (hWF : reviewThreadWFb t = true) :
    ∀ b, cleanBefore pat (threadHead t) b := by
  have hw := hWF
  unfold reviewThreadWFb at hw
  simp only [Bool.and_eq_true] at hw
  obtain ⟨⟨⟨⟨hIDv, hIDne⟩, hPathv⟩, hLinev⟩, hCsv⟩ := hw
  intro b
  unfold threadHead
  refine cleanBefore_append_right (cleanBefore_of_litClean hl1) ?_
  refine cleanBefore_append_right (fun b2 => cleanBefore_of_headNotMem hpat (by decide)) ?_
  refine cleanBefore_append_right (fun b2 => cleanBefore_of_headNotMem hpat
    (valWFb_parts hIDv).1) ?_
  refine cleanBefore_append_right (fun b2 => cleanBefore_of_headNotMem hpat (by decide)) ?_
  refine cleanBefore_append_right (fun b2 => cleanBefore_of_headNotMem hpat (by decide)) ?_
  refine cleanBefore_append_right (fun b2 => cleanBefore_of_headNotMem hpat
    (valWFb_parts hPathv).1) ?_
  refine cleanBefore_append_right (fun b2 => cleanBefore_of_headNotMem hpat (by decide)) ?_
  refine cleanBefore_append_right (fun b2 => cleanBefore_of_headNotMem hpat (by decide)) ?_
  refine cleanBefore_append_right (fun b2 => cleanBefore_of_headNotMem hpat
    (valWFb_parts hLinev).1) ?_
  refine cleanBefore_append_right (fun b2 => cleanBefore_of_headNotMem hpat (by decide)) ?_
  refine cleanBefore_append_right (fun b2 => cleanBefore_of_headNotMem hpat (by decide)) ?_
  refine cleanBefore_append_right (fun b2 => cleanBefore_of_headNotMem hpat (by decide)) ?_
  refine cleanBefore_append_right (fun b2 => cleanBefore_of_headNotMem hpat
    (valWFb_parts hPathv).1) ?_
  refine cleanBefore_append_right (fun b2 => cleanBefore_of_headNotMem hpat (by decide)) ?_
  refine cleanBefore_append_right (fun b2 => cleanBefore_of_headNotMem hpat
    (valWFb_parts hLinev).1) ?_
  refine cleanBefore_append_right (fun b2 => cleanBefore_of_headNotMem hpat (by decide)) ?_
  refine cleanBefore_append_right (fun b2 => cleanBefore_of_headNotMem hpat
    (noLT_ite (by decide) (by simp))) ?_
  refine cleanBefore_append_right (fun b2 => cleanBefore_of_headNotMem hpat
    (noLT_ite (by decide) (by simp))) ?_
  refine cleanBefore_append_right (fun b2 => cleanBefore_of_headNotMem hpat (by decide)) ?_
  exact reviewComments_clean pat p hpat hl2 hl3 t.Comments hCsv b

/-- A serialized review thread starts no comment-block occurrence. -/
theorem writeReviewThread_cleanM (t : ReviewThread) (hWF : reviewThreadWFb t = true) :
    ∀ b, cleanBefore commentStart (writeReviewThread t) b := by
  have hpat : commentStart = '<' :: lit "!-- gh-md:comment\n" := rfl
  have hw := hWF
  unfold reviewThreadWFb at hw
  simp only [Bool.and_eq_true] at hw
  obtain ⟨⟨⟨⟨hIDv, hIDne⟩, hPathv⟩, hLinev⟩, hCsv⟩ := hw
  intro b
  rw [writeReviewThread_block]
  refine cleanBefore_append_right
    (threadHead_clean commentStart _ hpat (by decide) (by decide) (by decide) t hWF) ?_
  refine cleanBefore_append_right ?_ (cleanBefore_of_litClean
    (show litClean commentStart threadTail = true from by decide) _)
  intro b2
  refine cleanBefore_append_right (cleanBefore_of_litClean (by decide)) ?_
  refine cleanBefore_append_right ?_ ?_
  · intro b3
    refine cleanBefore_append_right (fun b4 => cleanBefore_of_headNotMem hpat
      (by decide)) ?_
    refine cleanBefore_append_right (fun b4 => cleanBefore_of_headNotMem hpat
      (valWFb_parts hIDv).1) ?_
    exact cleanBefore_of_headNotMem hpat (by decide)
  · refine cleanBefore_append_right (fun b3 => cleanBefore_of_headNotMem hpat
      (by decide)) ?_
    exact cleanBefore_of_litClean
      (show litClean commentStart newCommentEnd = true from by decide) _

theorem threadsCleanM (ts : List ReviewThread) (hts : ts.all reviewThreadWFb = true) :
    ∀ b, cleanBefore commentStart ((ts.map writeReviewThread).flatten) b := by
  induction ts with
  | nil =>
      intro b
      exact cleanBefore_nil _ _
  | cons t rest ih =>
      have hparts : reviewThreadWFb t = true ∧ rest.all reviewThreadWFb = true := by
        simpa [List.all_cons, Bool.and_eq_true] using hts
      intro b
      simp only [List.map_cons, List.flatten_cons]
      exact cleanBefore_append_right (writeReviewThread_cleanM t hparts.1) (ih hparts.2 b)

/-- The review threads section of a serialized pull request. -/
def rtSection (ts : List ReviewThread) : Str :=
  lit "\n## Review Threads\n\n" ++ (ts.map writeReviewThread).flatten

theorem rtSectionCleanM (ts : List ReviewThread) (hts : ts.all reviewThreadWFb = true) :
    ∀ b, cleanBefore commentStart (rtSection ts) b := by
  intro b
  unfold rtSection
  refine cleanBefore_append_right (fun b2 => cleanBefore_of_headNotMem
    (show commentStart = '<' :: lit "!-- gh-md:comment\n" from rfl) (by decide)) ?_
  exact threadsCleanM ts hts b

/-- Placeholder-view segments of a serialized review-thread list:
each unit is a thread's reply placeholder, its gap holding the pending
text plus the thread's head. -/
def phThreads : List ReviewThread → Str → List (Str × Str) × Str
  | [], g => ([], g)
  | t :: rest, g =>
      let r := phThreads rest threadTail
      ((g ++ threadHead t, lit " reply_to: " ++ (t.ID ++ lit " ")) :: r.1, r.2)

theorem phThreads_stream (ts : List ReviewThread) (g tail : Str) :
    g ++ ((ts.map writeReviewThread).flatten ++ tail) =
      phStream (phThreads ts g).1 ((phThreads ts g).2 ++ tail) := by
  induction ts generalizing g with
  | nil => simp [phThreads, phStream]
  | cons t rest ih =>
      simp only [List.map_cons, List.flatten_cons, phThreads]
      rw [writeReviewThread_block]
      rw [phStream]
      dsimp only
      rw [← ih threadTail]
      simp only [List.append_assoc]

theorem phThreads_props (ts : List ReviewThread) (g : Str)
    (hts : ts.all reviewThreadWFb = true) (hg : PGapOK g) :
    (∀ seg ∈ (phThreads ts g).1, (∀ b, cleanBefore newCommentOpen seg.1 b) ∧
      strIndex seg.2 (lit "-->") = none ∧ seg.2.getLast? = some ' ') ∧
    PGapOK (phThreads ts g).2 := by
  induction ts generalizing g with
  | nil =>
      constructor
      · intro seg hs
        simp [phThreads] at hs
      · simpa only [phThreads] using hg
  | cons t rest ih =>
      have hparts : reviewThreadWFb t = true ∧ rest.all reviewThreadWFb = true := by
        simpa [List.all_cons, Bool.and_eq_true] using hts
      have hw := hparts.1
      unfold reviewThreadWFb at hw
      simp only [Bool.and_eq_true] at hw
      obtain ⟨⟨⟨⟨hIDv, hIDne⟩, hPathv⟩, hLinev⟩, hCsv⟩ := hw
      have htt : PGapOK threadTail := fun b =>
        cleanBefore_of_litClean
          (show litClean newCommentOpen threadTail = true from by decide) b
      have hrec := ih threadTail hparts.2 htt
      constructor
      · intro seg hs
        simp only [phThreads] at hs
        rcases List.mem_cons.mp hs with he | he
        · subst he
          refine ⟨?_, (attrs_ok t.ID (valWFb_parts hIDv).2.2.2).1,
            (attrs_ok t.ID (valWFb_parts hIDv).2.2.2).2⟩
          intro b
          exact cleanBefore_append_right hg
            (threadHead_clean newCommentOpen _ rfl (by decide) (by decide) (by decide)
              t hparts.1 b)
        · exact hrec.1 seg he
      · simpa only [phThreads] using hrec.2

/-- The serialized document after the frontmatter block: no flat-comment
section, then extra text `X2` before the trailing placeholder. -/
def restPT (title body X2 : Str) : Str :=
  contentStart ++ (lit "\n# " ++ (title ++ (lit "\n\n" ++ (body ++ (lit "\n" ++
    (contentEnd ++ (lit "\n" ++ (X2 ++ docTrailer))))))))

theorem restPT_split (title body X2 : Str) :
    '\n' :: restPT title body X2 = headGapE title body ++ (X2 ++ docTrailer) := by
  simp only [restPT, headGapE, List.cons_append, List.append_assoc]

set_option maxHeartbeats 1000000 in
/-- Comment parsing of a serialized document whose only comment-like
text is a review-threads section: no comment is parsed. -/
theorem restPT_parse (ts : List ReviewThread) (title body : Str)
    (hts : ts.all reviewThreadWFb = true) (ht : '<' ∉ title) (hb : '<' ∉ body) :
    parseComments ('\n' :: restPT title body (rtSection ts)) = [] := by
  have hg1 : PGapOK (headGapE title body ++ lit "\n## Review Threads\n\n") := by
    intro b
    refine cleanBefore_append_right (headGapE_PGapOK title body ht hb) ?_
    exact cleanBefore_of_headNotMem (show newCommentOpen =
      '<' :: lit "!-- gh-md:new-comment" from rfl) (by decide)
  have hphp := phThreads_props ts _ hts hg1
  have hres := parse_of_streams ('\n' :: restPT title body (rtSection ts)) []
    ('\n' :: restPT title body (rtSection ts))
    ((phThreads ts (headGapE title body ++ lit "\n## Review Threads\n\n")).1 ++
      [((phThreads ts (headGapE title body ++ lit "\n## Review Threads\n\n")).2 ++
         lit "\n", lit " ")])
    rfl (by simp) (by simp) (by simp)
    (by
      rw [restPT_split]
      exact cleanAll_append (headGapE_clean title body ht hb _)
        (cleanAll_append (rtSectionCleanM ts hts docTrailer) trailerM))
    (by
      rw [restPT_split]
      rw [show headGapE title body ++ (rtSection ts ++ docTrailer) =
          (headGapE title body ++ lit "\n## Review Threads\n\n") ++
            ((ts.map writeReviewThread).flatten ++ docTrailer) from by
        simp only [rtSection, List.append_assoc]]
      rw [phThreads_stream]
      rw [trailer_phStream]
      exact (phStream_append _ _ _).symm)
    (by
      intro seg hs
      rcases List.mem_append.mp hs with h | h
      · exact (hphp.1 seg h).1
      · simp only [List.mem_singleton] at h
        subst h
        intro b
        exact cleanBefore_append_right hphp.2
          (cleanBefore_of_headNotMem (show newCommentOpen =
            '<' :: lit "!-- gh-md:new-comment" from rfl) (by decide)))
    (by
      intro seg hs
      rcases List.mem_append.mp hs with h | h
      · exact (hphp.1 seg h).2
      · simp only [List.mem_singleton] at h
        subst h
        exact ⟨show strIndex (lit " ") (lit "-->") = none from by decide,
          show (lit " ").getLast? = some ' ' from rfl⟩)
  simpa using hres

set_option maxHeartbeats 1000000 in
/-- Comment parsing of a serialized flat-comment section followed by a
review-threads section: exactly the flat comments, in order, with empty
parents — the review threads contribute nothing. -/
theorem restPC_parse_flat_threads (cs : List Comment) (ts : List ReviewThread)
    (title body : Str) (hall : cs.all commentWF1 = true)
    (hts : ts.all reviewThreadWFb = true) (ht : '<' ∉ title) (hb : '<' ∉ body) :
    parseComments ('\n' :: restPC title body
        ((cs.map writeComment).flatten ++ rtSection ts)) =
      cs.map (fun c => ({ ID := c.ID, Author := c.Author, Body := c.Body,
                          ParentID := [] } : ParsedComment)) := by
  have hgapM := headGap_MGapOK title body ht hb
  have hprops := flatSegs_props cs (headGap title body) hall hgapM
  have hg1 : PGapOK ((headGap title body ++ (cs.map writeComment).flatten) ++
      lit "\n## Review Threads\n\n") := by
    intro b
    refine cleanBefore_append_right
      (flat_PGapOK cs (headGap title body) hall (headGap_PGapOK title body ht hb)) ?_
    exact cleanBefore_of_headNotMem (show newCommentOpen =
      '<' :: lit "!-- gh-md:new-comment" from rfl) (by decide)
  have hphp := phThreads_props ts _ hts hg1
  have hres := parse_of_streams ('\n' :: restPC title body
      ((cs.map writeComment).flatten ++ rtSection ts))
    (flatSegs cs (headGap title body)).1
    ((flatSegs cs (headGap title body)).2 ++ (rtSection ts ++ docTrailer))
    ((phThreads ts ((headGap title body ++ (cs.map writeComment).flatten) ++
        lit "\n## Review Threads\n\n")).1 ++
      [((phThreads ts ((headGap title body ++ (cs.map writeComment).flatten) ++
          lit "\n## Review Threads\n\n")).2 ++ lit "\n", lit " ")])
    (by
      rw [restPC_split]
      rw [show ((cs.map writeComment).flatten ++ rtSection ts) ++ docTrailer =
          (cs.map writeComment).flatten ++ (rtSection ts ++ docTrailer) from by
        simp only [List.append_assoc]]
      exact flat_stream cs (headGap title body) (rtSection ts ++ docTrailer))
    (fun seg hs => (hprops.1 seg hs).1)
    (fun seg hs => (hprops.1 seg hs).2.1)
    (fun seg hs => (hprops.1 seg hs).2.2)
    (cleanAll_append (hprops.2.1 _)
      (cleanAll_append (rtSectionCleanM ts hts docTrailer) trailerM))
    (by
      rw [restPC_split]
      rw [show headGap title body ++ (((cs.map writeComment).flatten ++ rtSection ts) ++
          docTrailer) = ((headGap title body ++ (cs.map writeComment).flatten) ++
            lit "\n## Review Threads\n\n") ++
              ((ts.map writeReviewThread).flatten ++ docTrailer) from by
        simp only [rtSection, List.append_assoc]]
      rw [phThreads_stream]
      rw [trailer_phStream]
      exact (phStream_append _ _ _).symm)
    (by
      intro seg hs
      rcases List.mem_append.mp hs with h | h
      · exact (hphp.1 seg h).1
      · simp only [List.mem_singleton] at h
        subst h
        intro b
        exact cleanBefore_append_right hphp.2
          (cleanBefore_of_headNotMem (show newCommentOpen =
            '<' :: lit "!-- gh-md:new-comment" from rfl) (by decide)))
    (by
      intro seg hs
      rcases List.mem_append.mp hs with h | h
      · exact (hphp.1 seg h).2
      · simp only [List.mem_singleton] at h
        subst h
        exact ⟨show strIndex (lit " ") (lit "-->") = none from by decide,
          show (lit " ").getLast? = some ' ' from rfl⟩)
  rw [hres, flatSegs_map]

end writer

namespace writer

open GoStrings github parser

set_option maxHeartbeats 1000000 in
/-- Parsing the serialization of a well-formed pull request recovers its
id, title, body, and flat comment tuples (empty parents), in order; the
review-thread sections contribute no comments. -/
theorem pr_roundtrip (pr : PullRequest) (now : GoTime) (path : Str)
    (hWF : pullRequestWF1 pr = true) (hnow : timeWFb now = true) :
    (parseContent (PullRequestToMarkdown pr now) path).map
        (fun P => (P.ID, P.Title, P.Body, P.Comments)) =
      some (pr.ID, pr.Title, pr.Body,
        pr.Comments.map (fun c => ({ ID := c.ID, Author := c.Author, Body := c.Body,
                                     ParentID := [] } : ParsedComment))) := by
  have hWF3 : pullRequestWFb pr = true ∧ trimSpace pr.Body = pr.Body ∧
      pr.Comments.all commentWF1 = true := by
    unfold pullRequestWF1 at hWF
    simp only [Bool.and_eq_true, decide_eq_true_eq] at hWF
    exact ⟨hWF.1.1, hWF.1.2, hWF.2⟩
  obtain ⟨hWFb, hbTS, hall⟩ := hWF3
  have hWFb2 := hWFb
  unfold pullRequestWFb bodyWFb at hWFb2
  simp only [Bool.and_eq_true, Bool.not_eq_true', decide_eq_true_eq] at hWFb2
  obtain ⟨⟨⟨⟨⟨⟨⟨⟨⟨⟨⟨⟨⟨⟨⟨⟨⟨hID, hURL⟩, hNum⟩, hOwn⟩, hRepo⟩, hTitle⟩, hTne⟩, hState⟩,
    hAu⟩, hHead⟩, hBase⟩, hMC⟩, hCr⟩, hUp⟩, hMA⟩, hBody⟩, hCom⟩, hRT⟩ := hWFb2
  have hTne2 : pr.Title ≠ [] := by
    intro h0
    rw [h0] at hTne
    simp at hTne
  obtain ⟨htLT, htNL, htTS, -⟩ := valWFb_parts hTitle
  obtain ⟨-, hIDnl, hIDts, -⟩ := valWFb_parts hID
  have hnow2 : '\n' ∉ now.rfc3339 := by
    unfold timeWFb at hnow
    simp only [Bool.and_eq_true] at hnow
    exact (valWFb_parts hnow.1).2.1
  have hkv : '\n' ∉ lit "last_pulled" ++ (lit ": " ++ now.rfc3339) :=
    notMem_append (by decide) (notMem_append (by decide) hnow2)
  have hid : yamlScalar (yamlLines (prPairs pr) ++ (lit "last_pulled" ++
      (lit ": " ++ now.rfc3339))) (lit "id") = pr.ID := by
    unfold prPairs
    exact yamlScalar_id_first pr.ID _ _ hIDts
      (fun p hp => prPairs_ok pr hWFb p (List.mem_cons_of_mem _ hp)) hIDnl hkv
  by_cases hc : pr.Comments = []
  · have hlen : ¬ 0 < pr.Comments.length := by
      rw [hc]
      simp
    by_cases hrt : pr.ReviewThreads = []
    · have hlent : ¬ 0 < pr.ReviewThreads.length := by
        rw [hrt]
        simp
      have hdoc : PullRequestToMarkdown pr now = lit "---\n" ++
          (yamlLines (prPairs pr ++ [(lit "last_pulled", now.rfc3339)]) ++
            (lit "---\n\n" ++ restPE pr.Title pr.Body)) := by
        simp only [PullRequestToMarkdown]
        rw [if_neg hlen, if_neg hlent, PullRequestFrontmatterText_eq]
        simp only [finishMarkdown, buildMarkdownWithFrontmatter, restPE, docTrailer]
        rw [show lit "<!-- gh-md:content -->\n# " = contentStart ++ lit "\n# "
          from by decide]
        rw [show lit "\n<!-- /gh-md:content -->\n" = lit "\n" ++ (contentEnd ++ lit "\n")
          from by decide]
        simp only [List.append_assoc]
      have hfm := extractFrontmatter_writer (prPairs pr) (lit "last_pulled") now.rfc3339
        (restPE pr.Title pr.Body) (prPairs_ok pr hWFb) (by decide) hnow2
      rw [← hdoc] at hfm
      have htb : extractTitleAndBody ('\n' :: restPE pr.Title pr.Body) =
          (pr.Title, pr.Body) := by
        unfold restPE
        exact extractTitleAndBody_writer pr.Title pr.Body _ htNL htTS hTne2 htLT
          hBody hbTS
      have hcm : parseComments ('\n' :: restPE pr.Title pr.Body) = [] :=
        restPE_parse pr.Title pr.Body htLT hBody
      rw [parseContent_proj path hfm, hid, htb, hcm, hc]
      rfl
    · have hlent : 0 < pr.ReviewThreads.length := List.length_pos.mpr hrt
      have hdoc : PullRequestToMarkdown pr now = lit "---\n" ++
          (yamlLines (prPairs pr ++ [(lit "last_pulled", now.rfc3339)]) ++
            (lit "---\n\n" ++ restPT pr.Title pr.Body (rtSection pr.ReviewThreads))) := by
        simp only [PullRequestToMarkdown]
        rw [if_neg hlen, if_pos hlent, PullRequestFrontmatterText_eq]
        simp only [finishMarkdown, buildMarkdownWithFrontmatter, restPT, rtSection,
          docTrailer]
        rw [show lit "<!-- gh-md:content -->\n# " = contentStart ++ lit "\n# "
          from by decide]
        rw [show lit "\n<!-- /gh-md:content -->\n" = lit "\n" ++ (contentEnd ++ lit "\n")
          from by decide]
        simp only [List.append_assoc]
      have hfm := extractFrontmatter_writer (prPairs pr) (lit "last_pulled") now.rfc3339
        (restPT pr.Title pr.Body (rtSection pr.ReviewThreads)) (prPairs_ok pr hWFb)
        (by decide) hnow2
      rw [← hdoc] at hfm
      have htb : extractTitleAndBody ('\n' :: restPT pr.Title pr.Body
          (rtSection pr.ReviewThreads)) = (pr.Title, pr.Body) := by
        unfold restPT
        exact extractTitleAndBody_writer pr.Title pr.Body _ htNL htTS hTne2 htLT
          hBody hbTS
      have hcm : parseComments ('\n' :: restPT pr.Title pr.Body
          (rtSection pr.ReviewThreads)) = [] :=
        restPT_parse pr.ReviewThreads pr.Title pr.Body hRT htLT hBody
      rw [parseContent_proj path hfm, hid, htb, hcm, hc]
      rfl
  · have hlen : 0 < pr.Comments.length := List.length_pos.mpr hc
    by_cases hrt : pr.ReviewThreads = []
    · have hlent : ¬ 0 < pr.ReviewThreads.length := by
        rw [hrt]
        simp
      have hdoc : PullRequestToMarkdown pr now = lit "---\n" ++
          (yamlLines (prPairs pr ++ [(lit "last_pulled", now.rfc3339)]) ++
            (lit "---\n\n" ++
              restPC pr.Title pr.Body ((pr.Comments.map writeComment).flatten))) := by
        simp only [PullRequestToMarkdown]
        rw [if_pos hlen, if_neg hlent, PullRequestFrontmatterText_eq]
        simp only [finishMarkdown, buildMarkdownWithFrontmatter, restPC, docTrailer]
        rw [show lit "<!-- gh-md:content -->\n# " = contentStart ++ lit "\n# "
          from by decide]
        rw [show lit "\n<!-- /gh-md:content -->\n" = lit "\n" ++ (contentEnd ++ lit "\n")
          from by decide]
        simp only [List.append_assoc]
      have hfm := extractFrontmatter_writer (prPairs pr) (lit "last_pulled") now.rfc3339
        (restPC pr.Title pr.Body ((pr.Comments.map writeComment).flatten))
        (prPairs_ok pr hWFb) (by decide) hnow2
      rw [← hdoc] at hfm
      have htb : extractTitleAndBody ('\n' :: restPC pr.Title pr.Body
          ((pr.Comments.map writeComment).flatten)) = (pr.Title, pr.Body) := by
        unfold restPC
        exact extractTitleAndBody_writer pr.Title pr.Body _ htNL htTS hTne2 htLT
          hBody hbTS
      have hcm := restPC_parse_flat pr.Comments pr.Title pr.Body hall htLT hBody
      rw [parseContent_proj path hfm, hid, htb, hcm]
    · have hlent : 0 < pr.ReviewThreads.length := List.length_pos.mpr hrt
      have hdoc : PullRequestToMarkdown pr now = lit "---\n" ++
          (yamlLines (prPairs pr ++ [(lit "last_pulled", now.rfc3339)]) ++
            (lit "---\n\n" ++ restPC pr.Title pr.Body
              ((pr.Comments.map writeComment).flatten ++
                rtSection pr.ReviewThreads))) := by
        simp only [PullRequestToMarkdown]
        rw [if_pos hlen, if_pos hlent, PullRequestFrontmatterText_eq]
        simp only [finishMarkdown, buildMarkdownWithFrontmatter, restPC, rtSection,
          docTrailer]
        rw [show lit "<!-- gh-md:content -->\n# " = contentStart ++ lit "\n# "
          from by decide]
        rw [show lit "\n<!-- /gh-md:content -->\n" = lit "\n" ++ (contentEnd ++ lit "\n")
          from by decide]
        simp only [List.append_assoc]
      have hfm := extractFrontmatter_writer (prPairs pr) (lit "last_pulled") now.rfc3339
        (restPC pr.Title pr.Body ((pr.Comments.map writeComment).flatten ++
          rtSection pr.ReviewThreads)) (prPairs_ok pr hWFb) (by decide) hnow2
      rw [← hdoc] at hfm
      have htb : extractTitleAndBody ('\n' :: restPC pr.Title pr.Body
          ((pr.Comments.map writeComment).flatten ++ rtSection pr.ReviewThreads)) =
          (pr.Title, pr.Body) := by
        unfold restPC
        exact extractTitleAndBody_writer pr.Title pr.Body _ htNL htTS hTne2 htLT
          hBody hbTS
      have hcm := restPC_parse_flat_threads pr.Comments pr.ReviewThreads pr.Title
        pr.Body hall hRT htLT hBody
      rw [parseContent_proj path hfm, hid, htb, hcm]

end writer

namespace writer

open GoStrings github parser

/-- C1.  Round-trip: parsing the serialization of a well-formed document
yields the same ID, Title, and (trim-stable) Body, and, for the
pre-existing comments, identical (ID, Author, Body, ParentID) tuples in
the same relative order with no comment lost or duplicated: an issue's
or pull request's flat comments reappear one-for-one with empty
parents — for pull requests alongside the review-thread sections, whose
blocks use the review-comment and review-thread sentinels that the
comment parser never matches — and a discussion's comment tree
reappears as its preorder flattening with the writer's structural
parent ids, which is exactly the parent each block records.  The
serialized placeholders all have empty bodies and contribute no
comments. -/
theorem c1_round_trip (i : Issue) (d : Discussion) (pr : PullRequest) (now : GoTime)
    (ipath dpath ppath : Str)
    (hi : issueWF1 i = true) (hd : discussionWF1 d = true)
    (hpr : pullRequestWF1 pr = true) (hnow : timeWFb now = true) :
    (parseContent (IssueToMarkdown i now) ipath).map
        (fun P => (P.ID, P.Title, P.Body, P.Comments)) =
      some (i.ID, i.Title, i.Body,
        i.Comments.map (fun c => ({ ID := c.ID, Author := c.Author, Body := c.Body,
                                    ParentID := [] } : ParsedComment))) ∧
    (parseContent (DiscussionToMarkdown d now) dpath).map
        (fun P => (P.ID, P.Title, P.Body, P.Comments)) =
      some (d.ID, d.Title, d.Body, flattenDCs d.Comments []) ∧
    (parseContent (PullRequestToMarkdown pr now) ppath).map
        (fun P => (P.ID, P.Title, P.Body, P.Comments)) =
      some (pr.ID, pr.Title, pr.Body,
        pr.Comments.map (fun c => ({ ID := c.ID, Author := c.Author, Body := c.Body,
                                     ParentID := [] } : ParsedComment))) :=
  ⟨issue_roundtrip i now ipath hi hnow, discussion_roundtrip d now dpath hd hnow,
    pr_roundtrip pr now ppath hpr hnow⟩

/-- Concrete round-trip sample time. -/
def exC1Time : GoTime := ⟨lit "2024-01-02T03:04:05Z", lit "2024-01-02"⟩

/-- Concrete round-trip sample issue (one flat comment). -/
def exC1Issue : Issue :=
  { ID := lit "I1", URL := lit "u1", Number := lit "7", Owner := lit "me",
    Repo := lit "repo", Title := lit "Hello", Body := lit "World",
    State := lit "OPEN", Author := lit "alice",
    CreatedAt := exC1Time, UpdatedAt := exC1Time,
    Comments := [{ ID := lit "C1", Author := lit "bob", Body := lit "first",
                   CreatedAt := exC1Time }] }

/-- Concrete round-trip sample discussion (a comment with one reply). -/
def exC1Disc : Discussion :=
  { ID := lit "D1", URL := lit "u2", Number := lit "8", Owner := lit "me",
    Repo := lit "repo", Title := lit "Topic", Body := lit "Text",
    State := lit "OPEN", Category := lit "QA", Author := lit "alice",
    AnswerID := [], Locked := false, CreatedAt := exC1Time, UpdatedAt := exC1Time,
    Comments := [.mk (lit "D2") (lit "bob") (lit "root") exC1Time
      [.mk (lit "D3") (lit "carol") (lit "reply") exC1Time []]] }

/-- Concrete round-trip sample pull request (one flat comment and one
review thread holding one review comment). -/
def exC1PR : PullRequest :=
  { ID := lit "P1", URL := lit "u3", Number := lit "9", Owner := lit "me",
    Repo := lit "repo", Title := lit "Patch", Body := lit "Diff",
    State := lit "OPEN", Author := lit "alice", Draft := false,
    HeadRef := lit "h", BaseRef := lit "b", MergeCommit := [],
    CreatedAt := exC1Time, UpdatedAt := exC1Time, MergedAt := none,
    Comments := [{ ID := lit "C2", Author := lit "bob", Body := lit "note",
                   CreatedAt := exC1Time }],
    ReviewThreads := [{ ID := lit "T1", Path := lit "a.go", Line := lit "3",
                        IsResolved := false, IsOutdated := false,
                        Comments := [{ ID := lit "R1", Author := lit "carol",
                                       Body := lit "nit",
                                       CreatedAt := exC1Time }] }] }

theorem c1_round_trip_witness :
    issueWF1 exC1Issue = true ∧ discussionWF1 exC1Disc = true ∧
      pullRequestWF1 exC1PR = true ∧ timeWFb exC1Time = true ∧
      ((parseContent (IssueToMarkdown exC1Issue exC1Time) []).map
          (fun P => (P.ID, P.Title, P.Body, P.Comments)) =
        some (exC1Issue.ID, exC1Issue.Title, exC1Issue.Body,
          exC1Issue.Comments.map (fun c =>
            ({ ID := c.ID, Author := c.Author, Body := c.Body,
               ParentID := [] } : ParsedComment))) ∧
      (parseContent (DiscussionToMarkdown exC1Disc exC1Time) []).map
          (fun P => (P.ID, P.Title, P.Body, P.Comments)) =
        some (exC1Disc.ID, exC1Disc.Title, exC1Disc.Body,
          flattenDCs exC1Disc.Comments []) ∧
      (parseContent (PullRequestToMarkdown exC1PR exC1Time) []).map
          (fun P => (P.ID, P.Title, P.Body, P.Comments)) =
        some (exC1PR.ID, exC1PR.Title, exC1PR.Body,
          exC1PR.Comments.map (fun c =>
            ({ ID := c.ID, Author := c.Author, Body := c.Body,
               ParentID := [] } : ParsedComment)))) :=
  ⟨by decide, by decide, by decide, by decide,
    c1_round_trip exC1Issue exC1Disc exC1PR exC1Time [] [] []
      (by decide) (by decide) (by decide) (by decide)⟩

end writer
